import Mathlib

/-!
# My_ADC: the Teensy 4.0 ADC driver of the Music-Reactive-Desk-Light repository

A shallow embedding of `My_ADC.cpp` / `My_ADC.h`.

* The instance is a record `My_ADC`; every method is a function on that record.
* Registers are cells holding natural numbers; a 32-bit expression is reduced
  modulo `2^32` where the C++ arithmetic could leave the 32-bit range.
* The two polling loops (`wait_for_cal`, and the wait for the end of a conversion)
  take a fuel argument, and `yield()` lets the peripheral change the registers.
* An access of a table outside its bounds, and a loop that exhausts its fuel, are
  faults: fallible methods return `Except Fault`.
* `settings_defines.h` and `atomic.h` are not part of the sources: the constants of
  the former are the fields of `Defines`, the four bit operations of the latter are
  modelled from their description. An enumerator is the number it stands for, and
  `fail_flag |= e` is the bitwise OR of `fail_flag` with the error bit `e`.
* The log records the stores and the calls of `__disable_irq()` / `__enable_irq()`
  that `My_ADC.cpp` and `My_ADC.h` make themselves; what the bit operations of
  `atomic.h` do beyond their store is not recorded.
-/

namespace MyADC

/-! ## Constants of the absent header `settings_defines.h` -/

/-- The constants, flag masks and field macros of `settings_defines.h` (and of the
core header it relies on), which is not under `src/`. Every method takes them as a
parameter, so nothing is assumed about their values beyond what a theorem states as
a hypothesis. -/
structure Defines where
  /-- Highest pin number accepted by `checkPin`. -/
  ADC_MAX_PIN : Nat
  /-- Mask of the channel bits of a table entry. -/
  ADC_SC1A_CHANNELS : Nat
  /-- The channel code that disables the converter. -/
  ADC_SC1A_PIN_INVALID : Nat
  /-- Flag of a table entry: the pin can be used for a differential conversion. -/
  ADC_SC1A_PIN_DIFF : Nat
  /-- Flag of a table entry: the pin has access to the gain amplifier. -/
  ADC_SC1A_PIN_PGA : Nat
  /-- Number of entries of the differential pair table. -/
  ADC_DIFF_PAIRS : Nat
  /-- Whether the `ADC_USE_PGA` sections are compiled. -/
  ADC_USE_PGA : Bool
  /-- Differential bit of the channel register. -/
  ADC_SC1_DIFF : Nat
  /-- Interrupt bit of the channel register (name used by the differential code). -/
  ADC_SC1_AIEN : Nat
  /-- Enable bit of the gain amplifier register. -/
  ADC_PGA_PGAEN : Nat
  /-- Interrupt enable bit of `HC0`. -/
  ADC_HC_AIEN : Nat
  /-- Conversion complete bit of `HS`. -/
  ADC_HS_COCO0 : Nat
  /-- Calibration failed bit of `GS`. -/
  ADC_GS_CALF : Nat
  /-- Conversion active bit of `GS`. -/
  ADC_GS_ADACT : Nat
  /-- Calibration start bit of `GC`. -/
  ADC_GC_CAL : Nat
  /-- Continuous conversion bit of `GC`. -/
  ADC_GC_ADCO : Nat
  /-- Hardware average enable bit of `GC`. -/
  ADC_GC_AVGE : Nat
  /-- Compare function enable bit of `GC`. -/
  ADC_GC_ACFE : Nat
  /-- Compare function greater-than bit of `GC`. -/
  ADC_GC_ACFGT : Nat
  /-- Compare function range enable bit of `GC`. -/
  ADC_GC_ACREN : Nat
  /-- Asynchronous clock enable bit of `GC`. -/
  ADC_GC_ADACKEN : Nat
  /-- High speed bit of `CFG`. -/
  ADC_CFG_ADHSC : Nat
  /-- Low power bit of `CFG`. -/
  ADC_CFG_ADLPC : Nat
  /-- Long sample time bit of `CFG`. -/
  ADC_CFG_ADLSMP : Nat
  /-- Field macro of `CFG`: voltage reference selection. -/
  ADC_CFG_REFSEL : Nat → Nat
  /-- Field macro of `CFG`: input clock selection. -/
  ADC_CFG_ADICLK : Nat → Nat
  /-- Field macro of `CFG`: clock divider. -/
  ADC_CFG_ADIV : Nat → Nat
  /-- Field macro of `CFG`: sample time. -/
  ADC_CFG_ADSTS : Nat → Nat
  /-- The bus frequency `ADC_F_BUS`. -/
  ADC_F_BUS : Nat
  /-- The function `get_CFG_LOW_SPEED`: clock settings of the low speed. -/
  get_CFG_LOW_SPEED : Nat → Nat
  /-- The function `get_CFG_MEDIUM_SPEED`: clock settings of the medium speed. -/
  get_CFG_MEDIUM_SPEED : Nat → Nat
  /-- The function `get_CFG_HIGH_SPEED`: clock settings of the high speed. -/
  get_CFG_HIGH_SPEED : Nat → Nat
  /-- Enumerator `ADC_REF_SOURCE::REF_DEFAULT`. -/
  REF_DEFAULT : Nat
  /-- Enumerator `ADC_REF_SOURCE::REF_ALT`. -/
  REF_ALT : Nat
  /-- Enumerator `ADC_CONVERSION_SPEED::LOW_SPEED`. -/
  CONVERSION_LOW_SPEED : Nat
  /-- Enumerator `ADC_CONVERSION_SPEED::MED_SPEED`. -/
  CONVERSION_MED_SPEED : Nat
  /-- Enumerator `ADC_CONVERSION_SPEED::HIGH_SPEED`. -/
  CONVERSION_HIGH_SPEED : Nat
  /-- Enumerator `ADC_CONVERSION_SPEED::ADACK_10`. -/
  CONVERSION_ADACK_10 : Nat
  /-- Enumerator `ADC_CONVERSION_SPEED::ADACK_20`. -/
  CONVERSION_ADACK_20 : Nat
  /-- Enumerator `ADC_SAMPLING_SPEED::VERY_LOW_SPEED`. -/
  SAMPLING_VERY_LOW_SPEED : Nat
  /-- Enumerator `ADC_SAMPLING_SPEED::LOW_SPEED`. -/
  SAMPLING_LOW_SPEED : Nat
  /-- Enumerator `ADC_SAMPLING_SPEED::LOW_MED_SPEED`. -/
  SAMPLING_LOW_MED_SPEED : Nat
  /-- Enumerator `ADC_SAMPLING_SPEED::MED_SPEED`. -/
  SAMPLING_MED_SPEED : Nat
  /-- Enumerator `ADC_SAMPLING_SPEED::MED_HIGH_SPEED`. -/
  SAMPLING_MED_HIGH_SPEED : Nat
  /-- Enumerator `ADC_SAMPLING_SPEED::HIGH_SPEED`. -/
  SAMPLING_HIGH_SPEED : Nat
  /-- Enumerator `ADC_SAMPLING_SPEED::HIGH_VERY_HIGH_SPEED`. -/
  SAMPLING_HIGH_VERY_HIGH_SPEED : Nat
  /-- Enumerator `ADC_SAMPLING_SPEED::VERY_HIGH_SPEED`. -/
  SAMPLING_VERY_HIGH_SPEED : Nat
  /-- Field macro of `CFG`: conversion mode (resolution). -/
  ADC_CFG_MODE : Nat → Nat
  /-- Field macro of `CFG`: number of hardware averages. -/
  ADC_CFG_AVGS : Nat → Nat
  /-- Field macro of `CV`: compare value 1, applied to an `int16_t`. -/
  ADC_CV_CV1 : Int → Nat
  /-- Field macro of `CV`: compare value 2, applied to an `int16_t`. -/
  ADC_CV_CV2 : Int → Nat
  /-- The value returned by a failed read, a constant of type `int`. -/
  ADC_ERROR_VALUE : Int
  /-- Error bit `ADC_ERROR::OTHER`. -/
  OTHER : Nat
  /-- Error bit `ADC_ERROR::CALIB`. -/
  CALIB : Nat
  /-- Error bit `ADC_ERROR::WRONG_PIN`. -/
  WRONG_PIN : Nat
  /-- Error bit `ADC_ERROR::COMPARISON`. -/
  COMPARISON : Nat
  /-- The empty error set `ADC_ERROR::CLEAR`. -/
  CLEAR : Nat
  /-- Hardware trigger bit of `CFG`. -/
  ADC_CFG_ADTRG : Nat
  /-- DMA request enable bit of `GC`. -/
  ADC_GC_DMAEN : Nat
  /-- Field macro of `OFS`: the offset value, applied to an `int16_t`. -/
  ADC_OFS_OFS : Int → Nat
  /-- Field macro of the gain amplifier register: the gain setting. -/
  ADC_PGA_PGAG : Nat → Nat

/-! ## Registers -/

/-- Names of the registers the driver accesses. `SC1A` and `PGA` are the names used by
the sections under `ADC_DIFF_PAIRS` and `ADC_USE_PGA`. -/
inductive Reg where
  | HC0 | HS | R0 | CFG | GC | GS | CV | OFS | SC1A | PGA
  deriving DecidableEq, Repr

/-- The register bank `ADC_REGS_t` of `My_ADC.h`. The cells the driver never touches
(`HC1`..`HC7`, `R1`..`R7`, `CAL`) are left out; `SC1A` and `PGA` are the two cells
that the conditionally compiled differential code addresses by those names. -/
structure ADC_REGS_t where
  HC0 : Nat
  HS : Nat
  R0 : Nat
  CFG : Nat
  GC : Nat
  GS : Nat
  CV : Nat
  OFS : Nat
  SC1A : Nat
  PGA : Nat
  deriving DecidableEq, Repr

/-- Read a register cell. -/
def ADC_REGS_t.get (r : ADC_REGS_t) : Reg → Nat
  | .HC0 => r.HC0
  | .HS => r.HS
  | .R0 => r.R0
  | .CFG => r.CFG
  | .GC => r.GC
  | .GS => r.GS
  | .CV => r.CV
  | .OFS => r.OFS
  | .SC1A => r.SC1A
  | .PGA => r.PGA

/-- Store a value in a register cell. -/
def ADC_REGS_t.set (r : ADC_REGS_t) : Reg → Nat → ADC_REGS_t
  | .HC0, v => { r with HC0 := v }
  | .HS, v => { r with HS := v }
  | .R0, v => { r with R0 := v }
  | .CFG, v => { r with CFG := v }
  | .GC, v => { r with GC := v }
  | .GS, v => { r with GS := v }
  | .CV, v => { r with CV := v }
  | .OFS, v => { r with OFS := v }
  | .SC1A, v => { r with SC1A := v }
  | .PGA, v => { r with PGA := v }

/-- What the program does to the outside world, in program order. -/
inductive Event where
  /-- A store to a register. -/
  | write (r : Reg) (v : Nat)
  /-- The call `__disable_irq()`. -/
  | irqOff
  /-- The call `__enable_irq()`. -/
  | irqOn
  deriving DecidableEq, Repr

/-- The struct `ADC_Config`: the four saved registers. -/
structure ADC_Config where
  savedHC0 : Nat
  savedCFG : Nat
  savedGC : Nat
  savedGS : Nat
  deriving DecidableEq, Repr

/-- An entry `ADC_NLIST` of the differential pair table. -/
structure ADC_NLIST where
  pin : Nat
  sc1a : Nat
  deriving DecidableEq, Repr

/-- The data members of the class `My_ADC`, the register bank `adc_regs` refers to,
and two bookkeeping fields: `log`, the stores and interrupt switches performed so
far, and `ticks`, the number of `yield()` calls so far. -/
structure My_ADC where
  adc_config : ADC_Config
  adcWasInUse : Nat
  num_measurements : Nat
  fail_flag : Nat
  ADC_num : Nat
  calibrating : Nat
  init_calib : Nat
  analog_res_bits : Nat
  analog_max_val : Nat
  analog_num_average : Nat
  analog_reference_internal : Nat
  pga_value : Nat
  conversion_speed : Nat
  sampling_speed : Nat
  interrupts_enabled : Bool
  diff_table : List ADC_NLIST
  adc_regs : ADC_REGS_t
  log : List Event
  ticks : Nat
  deriving DecidableEq, Repr

/-- The peripheral: what it does to the register bank during the `n`-th `yield()`. -/
abbrev Hardware := Nat → ADC_REGS_t → ADC_REGS_t

/-- Ways a run can fail to return. -/
inductive Fault where
  /-- A polling loop did not end within the fuel given. -/
  | outOfFuel
  /-- A table was read outside its bounds. -/
  | outOfBounds
  deriving DecidableEq, Repr

/-- The table `channel2sc1aADC0` of `My_ADC.h`. -/
def channel2sc1aADC0 : List Nat :=
  [7, 8, 12, 11, 6, 5, 15, 0, 13, 14, 1, 2, 31, 31,
   7, 8, 12, 11, 6, 5, 15, 0, 13, 14,
   1, 2, 31, 31]

/-- The table `channel2sc1aADC1` of `My_ADC.h`. -/
def channel2sc1aADC1 : List Nat :=
  [7, 8, 12, 11, 6, 5, 15, 0, 13, 14, 31, 31, 3, 4,
   7, 8, 12, 11, 6, 5, 15, 0, 13, 14,
   31, 31, 3, 4]

/-- The member `channel2sc1a`, bound by the constructor:
`channel2sc1a(ADC_num ? channel2sc1aADC1 : channel2sc1aADC0)`. -/
def My_ADC.channel2sc1a (s : My_ADC) : List Nat :=
  if s.ADC_num ≠ 0 then channel2sc1aADC1 else channel2sc1aADC0

/-- The read `channel2sc1a[pin]`; outside the table it is a fault. -/
def My_ADC.channel2sc1aAt (s : My_ADC) (pin : Nat) : Except Fault Nat :=
  match s.channel2sc1a.get? pin with
  | some v => .ok v
  | none => .error .outOfBounds

/-! ## The bit operations of the absent header `atomic.h` -/

/-- The 32-bit complement `~x`. -/
def not32 (x : Nat) : Nat := 4294967295 ^^^ (x % 4294967296)

/-- A store to a register, recorded in the log. -/
def My_ADC.write (s : My_ADC) (r : Reg) (v : Nat) : My_ADC :=
  { s with adc_regs := s.adc_regs.set r v, log := s.log ++ [Event.write r v] }

/-- Modelled from the spec: `atomic::getBitFlag` of the absent `atomic.h`, the "get"
operation on a named bit-field: whether `reg & flag` is non-zero. -/
def getBitFlag (reg flag : Nat) : Bool := (reg &&& flag) != 0

/-- Modelled from the spec: `atomic::setBitFlag` of the absent `atomic.h`, the "set"
operation on a named bit-field: `reg |= flag`. -/
def setBitFlag (s : My_ADC) (r : Reg) (flag : Nat) : My_ADC :=
  s.write r (s.adc_regs.get r ||| flag)

/-- Modelled from the spec: `atomic::clearBitFlag` of the absent `atomic.h`, the
"clear" operation on a named bit-field: `reg &= ~flag`. -/
def clearBitFlag (s : My_ADC) (r : Reg) (flag : Nat) : My_ADC :=
  s.write r (s.adc_regs.get r &&& not32 flag)

/-- Modelled from the spec: `atomic::changeBitFlag` of the absent `atomic.h`, the
"change" operation on a named bit-field: `reg = (reg & ~flag) | state`. -/
def changeBitFlag (s : My_ADC) (r : Reg) (flag state : Nat) : My_ADC :=
  s.write r ((s.adc_regs.get r &&& not32 flag) ||| state)

/-- The call `__disable_irq()`. -/
def disable_irq (s : My_ADC) : My_ADC := { s with log := s.log ++ [Event.irqOff] }

/-- The call `__enable_irq()`. -/
def enable_irq (s : My_ADC) : My_ADC := { s with log := s.log ++ [Event.irqOn] }

/-- The call `yield()`: the peripheral acts on the register bank, time advances. -/
def yield (hw : Hardware) (s : My_ADC) : My_ADC :=
  { s with adc_regs := hw s.ticks s.adc_regs, ticks := s.ticks + 1 }

/-- The state after `k` calls of `yield()`. -/
def yields (hw : Hardware) : Nat → My_ADC → My_ADC
  | 0, s => s
  | k + 1, s => yields hw k (yield hw s)

/-! ## Validity of pins -/

/-- The method `My_ADC::checkPin`. -/
def checkPin (d : Defines) (s : My_ADC) (pin : Nat) : Except Fault Bool :=
  if pin > d.ADC_MAX_PIN then
    .ok false
  else
    match s.channel2sc1aAt pin with
    | .error e => .error e
    | .ok sc1a_pin =>
      if (sc1a_pin &&& d.ADC_SC1A_CHANNELS) = d.ADC_SC1A_PIN_INVALID then
        .ok false
      else
        .ok true

/-! ## Initialisation and calibration -/

/-- The method `My_ADC::analog_init`. -/
def analog_init (d : Defines) (s : My_ADC) : My_ADC :=
  { s with calibrating := 0, fail_flag := d.CLEAR }

/-- The constructor `My_ADC::My_ADC(ADC_number)`, run on the memory `mem` the object
is placed in: it binds `ADC_num`, the default member initialiser clears
`interrupts_enabled`, and the body calls `analog_init`. No other member is
assigned, so each keeps what the memory held. -/
def My_ADC.ctor (d : Defines) (mem : My_ADC) (ADC_number : Nat) : My_ADC :=
  analog_init d { mem with ADC_num := ADC_number, interrupts_enabled := false }

/-- The method `My_ADC::calibrate`. -/
def calibrate (d : Defines) (s : My_ADC) : My_ADC :=
  let s := disable_irq s
  let s := { s with calibrating := 1 }
  let s := clearBitFlag s .GS d.ADC_GS_CALF
  let s := setBitFlag s .GC d.ADC_GC_CAL
  enable_irq s

/-- A loop `while (cond) yield();`. The fuel bounds the number of `yield()` calls. -/
def pollWhile (cond : My_ADC → Bool) (hw : Hardware) : Nat → My_ADC → Except Fault My_ADC
  | fuel, s =>
    if cond s then
      match fuel with
      | 0 => .error .outOfFuel
      | fuel + 1 => pollWhile cond hw fuel (yield hw s)
    else
      .ok s

/-- The loop `while (getBitFlag(adc_regs.GC, ADC_GC_CAL)) yield();` of `wait_for_cal`. -/
def pollCal (d : Defines) (hw : Hardware) (fuel : Nat) (s : My_ADC) : Except Fault My_ADC :=
  pollWhile (fun t => getBitFlag t.adc_regs.GC d.ADC_GC_CAL) hw fuel s

/-- The part of `wait_for_cal` after its loop. -/
def calDone (d : Defines) (s : My_ADC) : My_ADC :=
  let s := if getBitFlag s.adc_regs.GS d.ADC_GS_CALF then
      { s with fail_flag := s.fail_flag ||| d.CALIB }
    else s
  { s with calibrating := 0 }

/-- The method `My_ADC::wait_for_cal`. -/
def wait_for_cal (d : Defines) (hw : Hardware) (fuel : Nat) (s : My_ADC) :
    Except Fault My_ADC :=
  match pollCal d hw fuel s with
  | .error e => .error e
  | .ok s => .ok (calDone d s)

/-- The method `My_ADC::recalibrate`. -/
def recalibrate (d : Defines) (hw : Hardware) (fuel : Nat) (s : My_ADC) :
    Except Fault My_ADC :=
  wait_for_cal d hw fuel (calibrate d s)

/-- The statement `if (calibrating) wait_for_cal();` that opens most methods. -/
def waitIfCalibrating (d : Defines) (hw : Hardware) (fuel : Nat) (s : My_ADC) :
    Except Fault My_ADC :=
  if s.calibrating ≠ 0 then wait_for_cal d hw fuel s else .ok s

/-- The calibration wait of a method ends within the fuel: either no calibration is in
progress, or the peripheral shows the calibration bit clear after at most `fuel`
calls of `yield()`. -/
def calSettles (d : Defines) (hw : Hardware) (fuel : Nat) (s : My_ADC) : Prop :=
  s.calibrating = 0 ∨
    ∃ k, k ≤ fuel ∧ getBitFlag (yields hw k s).adc_regs.GC d.ADC_GC_CAL = false

/-! ## Settings -/

/-- The body of `setResolution` after the calibration wait. -/
def setResolutionBody (d : Defines) (s : My_ADC) (bits : Nat) : My_ADC :=
  let s :=
    if bits = 8 then
      { clearBitFlag s .CFG (d.ADC_CFG_MODE 3) with analog_max_val := 255 }
    else if bits = 10 then
      { changeBitFlag s .CFG (d.ADC_CFG_MODE 3) (d.ADC_CFG_MODE 1) with
        analog_max_val := 1023 }
    else if bits = 12 then
      { changeBitFlag s .CFG (d.ADC_CFG_MODE 3) (d.ADC_CFG_MODE 2) with
        analog_max_val := 4095 }
    else
      s
  { s with analog_res_bits := bits }

/-- The method `My_ADC::setResolution`. -/
def setResolution (d : Defines) (hw : Hardware) (fuel : Nat) (s : My_ADC) (bits : Nat) :
    Except Fault My_ADC :=
  if s.analog_res_bits = bits then
    .ok s
  else
    match waitIfCalibrating d hw fuel s with
    | .error e => .error e
    | .ok s => .ok (setResolutionBody d s bits)

/-- The method `My_ADC::getResolution`. -/
def getResolution (s : My_ADC) : Nat := s.analog_res_bits

/-- The method `My_ADC::getMaxValue`. -/
def getMaxValue (s : My_ADC) : Nat := s.analog_max_val

/-- The method `My_ADC::setReference`. The argument is the value of the enumerator of
`ADC_REFERENCE`, which the cast to `ADC_REF_SOURCE` keeps. The calls `VREF::start()`
and `VREF::stop()` of the `ADC_USE_INTERNAL_VREF` sections act on another peripheral
and are left out. -/
def setReference (d : Defines) (s : My_ADC) (type : Nat) : My_ADC :=
  let ref_type := type
  if s.analog_reference_internal = ref_type then
    s
  else
    let s :=
      if ref_type = d.REF_ALT then
        { s with analog_reference_internal := d.REF_ALT }
      else if ref_type = d.REF_DEFAULT then
        let s := { s with analog_reference_internal := d.REF_DEFAULT }
        clearBitFlag s .CFG (d.ADC_CFG_REFSEL 3)
      else
        s
    calibrate d s

/-- The method `My_ADC::setConversionSpeed`. It has no calibration wait: the line
`if (calibrating) wait_for_cal();` is commented out in the source. -/
def setConversionSpeed (d : Defines) (s : My_ADC) (speed : Nat) : My_ADC :=
  if speed = s.conversion_speed then
    s
  else
    let r : Option (My_ADC × Bool × Nat) :=
      if speed = d.CONVERSION_LOW_SPEED then
        let s := clearBitFlag s .CFG d.ADC_CFG_ADHSC
        let s := setBitFlag s .CFG d.ADC_CFG_ADLPC
        some (s, false, d.get_CFG_LOW_SPEED d.ADC_F_BUS)
      else if speed = d.CONVERSION_MED_SPEED then
        let s := clearBitFlag s .CFG d.ADC_CFG_ADHSC
        let s := clearBitFlag s .CFG d.ADC_CFG_ADLPC
        some (s, false, d.get_CFG_MEDIUM_SPEED d.ADC_F_BUS)
      else if speed = d.CONVERSION_HIGH_SPEED then
        let s := setBitFlag s .CFG d.ADC_CFG_ADHSC
        let s := clearBitFlag s .CFG d.ADC_CFG_ADLPC
        some (s, false, d.get_CFG_HIGH_SPEED d.ADC_F_BUS)
      else if speed = d.CONVERSION_ADACK_10 then
        let s := clearBitFlag s .CFG d.ADC_CFG_ADHSC
        some (s, true, 0)
      else if speed = d.CONVERSION_ADACK_20 then
        let s := setBitFlag s .CFG d.ADC_CFG_ADHSC
        some (s, true, 0)
      else
        none
    match r with
    | none => { s with fail_flag := s.fail_flag ||| d.OTHER }
    | some (s, is_adack, ADC_CFG1_speed) =>
      let s :=
        if is_adack then
          let s := setBitFlag s .CFG (d.ADC_CFG_ADICLK 3)
          let s := clearBitFlag s .CFG (d.ADC_CFG_ADIV 3)
          setBitFlag s .GC d.ADC_GC_ADACKEN
        else
          let s := clearBitFlag s .GC d.ADC_GC_ADACKEN
          let s := changeBitFlag s .CFG (d.ADC_CFG_ADICLK 3)
            (ADC_CFG1_speed &&& d.ADC_CFG_ADICLK 3)
          changeBitFlag s .CFG (d.ADC_CFG_ADIV 3) (ADC_CFG1_speed &&& d.ADC_CFG_ADIV 3)
      { s with conversion_speed := speed }

/-- The body of `setSamplingSpeed` after the calibration wait. -/
def setSamplingSpeedBody (d : Defines) (s : My_ADC) (speed : Nat) : My_ADC :=
  let s :=
    if speed = d.SAMPLING_VERY_LOW_SPEED then
      let s := setBitFlag s .CFG d.ADC_CFG_ADLSMP
      changeBitFlag s .CFG (d.ADC_CFG_ADSTS 3) (d.ADC_CFG_ADSTS 3)
    else if speed = d.SAMPLING_LOW_SPEED then
      let s := setBitFlag s .CFG d.ADC_CFG_ADLSMP
      changeBitFlag s .CFG (d.ADC_CFG_ADSTS 3) (d.ADC_CFG_ADSTS 2)
    else if speed = d.SAMPLING_LOW_MED_SPEED then
      let s := setBitFlag s .CFG d.ADC_CFG_ADLSMP
      changeBitFlag s .CFG (d.ADC_CFG_ADSTS 3) (d.ADC_CFG_ADSTS 1)
    else if speed = d.SAMPLING_MED_SPEED then
      let s := setBitFlag s .CFG d.ADC_CFG_ADLSMP
      changeBitFlag s .CFG (d.ADC_CFG_ADSTS 3) (d.ADC_CFG_ADSTS 0)
    else if speed = d.SAMPLING_MED_HIGH_SPEED then
      let s := clearBitFlag s .CFG d.ADC_CFG_ADLSMP
      changeBitFlag s .CFG (d.ADC_CFG_ADSTS 3) (d.ADC_CFG_ADSTS 3)
    else if speed = d.SAMPLING_HIGH_SPEED then
      let s := clearBitFlag s .CFG d.ADC_CFG_ADLSMP
      changeBitFlag s .CFG (d.ADC_CFG_ADSTS 3) (d.ADC_CFG_ADSTS 2)
    else if speed = d.SAMPLING_HIGH_VERY_HIGH_SPEED then
      let s := clearBitFlag s .CFG d.ADC_CFG_ADLSMP
      changeBitFlag s .CFG (d.ADC_CFG_ADSTS 3) (d.ADC_CFG_ADSTS 1)
    else if speed = d.SAMPLING_VERY_HIGH_SPEED then
      let s := clearBitFlag s .CFG d.ADC_CFG_ADLSMP
      changeBitFlag s .CFG (d.ADC_CFG_ADSTS 3) (d.ADC_CFG_ADSTS 0)
    else
      s
  { s with sampling_speed := speed }

/-- The method `My_ADC::setSamplingSpeed`. -/
def setSamplingSpeed (d : Defines) (hw : Hardware) (fuel : Nat) (s : My_ADC) (speed : Nat) :
    Except Fault My_ADC :=
  match waitIfCalibrating d hw fuel s with
  | .error e => .error e
  | .ok s => .ok (setSamplingSpeedBody d s speed)

/-- Modelled from the spec: `ADC_Error::resetError` of the absent `settings_defines.h`,
the explicit reset that clears the error bitmask; the method `My_ADC::resetError`
applies it to `fail_flag`. -/
def resetError (d : Defines) (s : My_ADC) : My_ADC := { s with fail_flag := d.CLEAR }

/-- The body of `setAveraging` after the calibration wait. -/
def setAveragingBody (d : Defines) (s : My_ADC) (num : Nat) : My_ADC :=
  if num ≤ 1 then
    let s := clearBitFlag s .GC d.ADC_GC_AVGE
    { s with analog_num_average := 0 }
  else
    let s := setBitFlag s .GC d.ADC_GC_AVGE
    if num ≤ 4 then
      let s := clearBitFlag s .CFG (d.ADC_CFG_AVGS 3)
      { s with analog_num_average := 4 }
    else if num ≤ 8 then
      let s := changeBitFlag s .CFG (d.ADC_CFG_AVGS 3) (d.ADC_CFG_AVGS 1)
      { s with analog_num_average := 8 }
    else if num ≤ 16 then
      let s := changeBitFlag s .CFG (d.ADC_CFG_AVGS 3) (d.ADC_CFG_AVGS 2)
      { s with analog_num_average := 16 }
    else
      let s := setBitFlag s .CFG (d.ADC_CFG_AVGS 3)
      { s with analog_num_average := 32 }

/-- The method `My_ADC::setAveraging`. -/
def setAveraging (d : Defines) (hw : Hardware) (fuel : Nat) (s : My_ADC) (num : Nat) :
    Except Fault My_ADC :=
  match waitIfCalibrating d hw fuel s with
  | .error e => .error e
  | .ok s => .ok (setAveragingBody d s num)

/-- The body of `enableCompare` after the calibration wait. -/
def enableCompareBody (d : Defines) (s : My_ADC) (compValue : Int) (greaterThan : Bool) :
    My_ADC :=
  let s := setBitFlag s .GC d.ADC_GC_ACFE
  let s := changeBitFlag s .GC d.ADC_GC_ACFGT
    ((d.ADC_GC_ACFGT * greaterThan.toNat) % 4294967296)
  s.write .CV (d.ADC_CV_CV1 compValue)

/-- The method `My_ADC::enableCompare`. -/
def enableCompare (d : Defines) (hw : Hardware) (fuel : Nat) (s : My_ADC)
    (compValue : Int) (greaterThan : Bool) : Except Fault My_ADC :=
  match waitIfCalibrating d hw fuel s with
  | .error e => .error e
  | .ok s => .ok (enableCompareBody d s compValue greaterThan)

/-- The body of `enableCompareRange` after the calibration wait. -/
def enableCompareRangeBody (d : Defines) (s : My_ADC) (lowerLimit upperLimit : Int)
    (insideRange inclusive : Bool) : My_ADC :=
  let s := setBitFlag s .GC d.ADC_GC_ACFE
  let s := setBitFlag s .GC d.ADC_GC_ACREN
  if insideRange && inclusive then
    let s := setBitFlag s .GC d.ADC_GC_ACFGT
    s.write .CV (d.ADC_CV_CV1 lowerLimit ||| d.ADC_CV_CV2 upperLimit)
  else if insideRange && !inclusive then
    let s := clearBitFlag s .GC d.ADC_GC_ACFGT
    s.write .CV (d.ADC_CV_CV2 lowerLimit ||| d.ADC_CV_CV1 upperLimit)
  else if !insideRange && inclusive then
    let s := setBitFlag s .GC d.ADC_GC_ACFGT
    s.write .CV (d.ADC_CV_CV2 lowerLimit ||| d.ADC_CV_CV1 upperLimit)
  else if !insideRange && !inclusive then
    let s := clearBitFlag s .GC d.ADC_GC_ACFGT
    s.write .CV (d.ADC_CV_CV1 lowerLimit ||| d.ADC_CV_CV2 upperLimit)
  else
    s

/-- The method `My_ADC::enableCompareRange`. -/
def enableCompareRange (d : Defines) (hw : Hardware) (fuel : Nat) (s : My_ADC)
    (lowerLimit upperLimit : Int) (insideRange inclusive : Bool) : Except Fault My_ADC :=
  match waitIfCalibrating d hw fuel s with
  | .error e => .error e
  | .ok s => .ok (enableCompareRangeBody d s lowerLimit upperLimit insideRange inclusive)

/-- The method `My_ADC::disableCompare`. -/
def disableCompare (d : Defines) (s : My_ADC) : My_ADC :=
  clearBitFlag s .GC d.ADC_GC_ACFE

/-! ## Mode and status -/

/-- The method `My_ADC::continuousMode`. -/
def continuousMode (d : Defines) (s : My_ADC) : My_ADC := setBitFlag s .GC d.ADC_GC_ADCO

/-- The method `My_ADC::singleMode`. -/
def singleMode (d : Defines) (s : My_ADC) : My_ADC := clearBitFlag s .GC d.ADC_GC_ADCO

/-- The method `My_ADC::isConverting`. -/
def isConverting (d : Defines) (s : My_ADC) : Bool :=
  getBitFlag s.adc_regs.GS d.ADC_GS_ADACT

/-- The method `My_ADC::isComplete`. -/
def isComplete (d : Defines) (s : My_ADC) : Bool :=
  getBitFlag s.adc_regs.HS d.ADC_HS_COCO0

/-- The method `My_ADC::isContinuous`. -/
def isContinuous (d : Defines) (s : My_ADC) : Bool :=
  getBitFlag s.adc_regs.GC d.ADC_GC_ADCO

/-- The method `My_ADC::isPGAEnabled`. -/
def isPGAEnabled (d : Defines) (s : My_ADC) : Bool :=
  getBitFlag s.adc_regs.PGA d.ADC_PGA_PGAEN

/-- The method `My_ADC::saveConfig`: the configuration it stores. -/
def saveConfig (s : My_ADC) : ADC_Config :=
  { savedHC0 := s.adc_regs.HC0, savedCFG := s.adc_regs.CFG,
    savedGC := s.adc_regs.GC, savedGS := s.adc_regs.GS }

/-- The method `My_ADC::loadConfig`. -/
def loadConfig (s : My_ADC) (config : ADC_Config) : My_ADC :=
  let s := s.write .HC0 config.savedHC0
  let s := s.write .CFG config.savedCFG
  let s := s.write .GC config.savedGC
  s.write .GS config.savedGS

/-! ## Integer conversions -/

/-- The conversion of an integer to `int32_t`. -/
def toInt32 (v : Int) : Int :=
  if v % 4294967296 < 2147483648 then v % 4294967296 else v % 4294967296 - 4294967296

/-- The conversion of an integer to `int16_t`. -/
def toInt16 (v : Int) : Int :=
  if v % 65536 < 32768 then v % 65536 else v % 65536 - 65536

/-- The conversion of an integer to `uint16_t`. -/
def toUInt16 (v : Int) : Int := v % 65536

/-- The method `My_ADC::analogReadContinuous`: `(int16_t)(int32_t)adc_regs.R0`. -/
def analogReadContinuous (s : My_ADC) : Int :=
  toInt16 (toInt32 ((s.adc_regs.R0 % 4294967296 : Nat) : Int))

/-- The method `My_ADC::readSingle`. -/
def readSingle (s : My_ADC) : Int := analogReadContinuous s

/-! ## Differential pins -/

/-- The loop of `getDifferentialPair`, from index `i` with `n` entries left to scan. -/
def getDifferentialPairFrom (d : Defines) (s : My_ADC) (pin : Nat) :
    Nat → Nat → Except Fault Nat
  | 0, _ => .ok d.ADC_SC1A_PIN_INVALID
  | n + 1, i =>
    match s.diff_table.get? i with
    | none => .error .outOfBounds
    | some e => if e.pin = pin then .ok e.sc1a else getDifferentialPairFrom d s pin n (i + 1)

/-- The method `My_ADC::getDifferentialPair`. -/
def getDifferentialPair (d : Defines) (s : My_ADC) (pin : Nat) : Except Fault Nat :=
  getDifferentialPairFrom d s pin d.ADC_DIFF_PAIRS 0

/-- The method `My_ADC::checkDifferentialPins`. -/
def checkDifferentialPins (d : Defines) (s : My_ADC) (pinP _pinN : Nat) :
    Except Fault Bool :=
  if pinP > d.ADC_MAX_PIN then
    .ok false
  else
    match s.channel2sc1aAt pinP with
    | .error e => .error e
    | .ok sc1a_pin =>
      if (sc1a_pin &&& d.ADC_SC1A_PIN_DIFF) = 0 then
        .ok false
      else
        match getDifferentialPair d s pinP with
        | .error e => .error e
        | .ok sc1a_pin =>
          if (sc1a_pin &&& d.ADC_SC1A_CHANNELS) = d.ADC_SC1A_PIN_INVALID then
            .ok false
          else if d.ADC_USE_PGA && (isPGAEnabled d s && (sc1a_pin &&& d.ADC_SC1A_PIN_PGA) = 0)
          then
            .ok false
          else
            .ok true

/-! ## Starting a conversion -/

/-- The method `My_ADC::startReadFast`. -/
def startReadFast (d : Defines) (s : My_ADC) (pin : Nat) : Except Fault My_ADC :=
  match s.channel2sc1aAt pin with
  | .error e => .error e
  | .ok sc1a_pin =>
    let s := disable_irq s
    let s := s.write .HC0
      (((sc1a_pin &&& d.ADC_SC1A_CHANNELS) + s.interrupts_enabled.toNat * d.ADC_HC_AIEN)
        % 4294967296)
    .ok (enable_irq s)

/-- The method `My_ADC::startDifferentialFast`. -/
def startDifferentialFast (d : Defines) (s : My_ADC) (pinP _pinN : Nat) :
    Except Fault My_ADC :=
  match getDifferentialPair d s pinP with
  | .error e => .error e
  | .ok sc1a_pin =>
    let sc1a_pin := if d.ADC_USE_PGA && isPGAEnabled d s then 2 else sc1a_pin
    let s := disable_irq s
    let s := s.write .SC1A
      ((d.ADC_SC1_DIFF + (sc1a_pin &&& d.ADC_SC1A_CHANNELS)
          + (getBitFlag s.adc_regs.SC1A d.ADC_SC1_AIEN).toNat * d.ADC_SC1_AIEN)
        % 4294967296)
    .ok (enable_irq s)

/-- The loop `while (isConverting()) yield();` of the blocking reads. -/
def pollConverting (d : Defines) (hw : Hardware) (fuel : Nat) (s : My_ADC) :
    Except Fault My_ADC :=
  pollWhile (isConverting d) hw fuel s

/-- The statement `if (wasADCInUse) { __disable_irq(); saveConfig(&old_config);
__enable_irq(); }` of the blocking reads: the local `old_config` (zero-initialised
by `= {}`) and the state. -/
def saveIfInUse (wasADCInUse : Bool) (s : My_ADC) : ADC_Config × My_ADC :=
  if wasADCInUse then
    let s := disable_irq s
    let old_config := saveConfig s
    (old_config, enable_irq s)
  else
    ({ savedHC0 := 0, savedCFG := 0, savedGC := 0, savedGS := 0 }, s)

/-- The statement `if (wasADCInUse) { __disable_irq(); loadConfig(&old_config);
__enable_irq(); }` of the blocking reads. -/
def restoreIfInUse (wasADCInUse : Bool) (old_config : ADC_Config) (s : My_ADC) : My_ADC :=
  if wasADCInUse then
    enable_irq (loadConfig (disable_irq s) old_config)
  else
    s

/-! ## Blocking conversions -/

/-- The part of `analogRead` after the wait for the end of the conversion. -/
def analogReadFinish (d : Defines) (wasADCInUse : Bool) (old_config : ADC_Config)
    (s : My_ADC) : Int × My_ADC :=
  let s := disable_irq s
  let rs : Int × My_ADC :=
    if isComplete d s then
      (toUInt16 (readSingle s), s)
    else
      (d.ADC_ERROR_VALUE, { s with fail_flag := s.fail_flag ||| d.COMPARISON })
  let s := enable_irq rs.2
  let s := restoreIfInUse wasADCInUse old_config s
  (rs.1, { s with num_measurements := (s.num_measurements + 255) % 256 })

/-- The part of `analogRead` from the query `isConverting()` on. -/
def analogReadConvert (d : Defines) (hw : Hardware) (fuel : Nat) (s : My_ADC) (pin : Nat) :
    Except Fault (Int × My_ADC) :=
  let wasADCInUse := isConverting d s
  let saved := saveIfInUse wasADCInUse s
  let s := singleMode d saved.2
  match startReadFast d s pin with
  | .error e => .error e
  | .ok s =>
    match pollConverting d hw fuel s with
    | .error e => .error e
    | .ok s => .ok (analogReadFinish d wasADCInUse saved.1 s)

/-- The method `My_ADC::analogRead`. -/
def analogRead (d : Defines) (hw : Hardware) (fuel : Nat) (s : My_ADC) (pin : Nat) :
    Except Fault (Int × My_ADC) :=
  match checkPin d s pin with
  | .error e => .error e
  | .ok false => .ok (d.ADC_ERROR_VALUE, { s with fail_flag := s.fail_flag ||| d.WRONG_PIN })
  | .ok true =>
    let s := { s with num_measurements := (s.num_measurements + 1) % 256 }
    match waitIfCalibrating d hw fuel s with
    | .error e => .error e
    | .ok s => analogReadConvert d hw fuel s pin

/-- The part of `analogReadDifferential` after the wait for the end of the conversion. -/
def analogReadDifferentialFinish (d : Defines) (res : Nat) (wasADCInUse : Bool)
    (old_config : ADC_Config) (s : My_ADC) : Int × My_ADC :=
  let s := disable_irq s
  let rs : Int × My_ADC :=
    if isComplete d s then
      let result := toInt16 (toInt32 (readSingle s))
      (if res = 16 then toInt32 (result * 2) else result, s)
    else
      (d.ADC_ERROR_VALUE, { s with fail_flag := s.fail_flag ||| d.COMPARISON })
  let s := enable_irq rs.2
  let s := restoreIfInUse wasADCInUse old_config s
  (rs.1, { s with num_measurements := (s.num_measurements + 255) % 256 })

/-- The part of `analogReadDifferential` from the call `getResolution()` on. -/
def analogReadDifferentialConvert (d : Defines) (hw : Hardware) (fuel : Nat) (s : My_ADC)
    (pinP pinN : Nat) : Except Fault (Int × My_ADC) :=
  let res := getResolution s
  let wasADCInUse := isConverting d s
  let saved := saveIfInUse wasADCInUse s
  let s := singleMode d saved.2
  match startDifferentialFast d s pinP pinN with
  | .error e => .error e
  | .ok s =>
    match pollConverting d hw fuel s with
    | .error e => .error e
    | .ok s => .ok (analogReadDifferentialFinish d res wasADCInUse saved.1 s)

/-- The method `My_ADC::analogReadDifferential`. -/
def analogReadDifferential (d : Defines) (hw : Hardware) (fuel : Nat) (s : My_ADC)
    (pinP pinN : Nat) : Except Fault (Int × My_ADC) :=
  match checkDifferentialPins d s pinP pinN with
  | .error e => .error e
  | .ok false => .ok (d.ADC_ERROR_VALUE, { s with fail_flag := s.fail_flag ||| d.WRONG_PIN })
  | .ok true =>
    let s := { s with num_measurements := (s.num_measurements + 1) % 256 }
    match waitIfCalibrating d hw fuel s with
    | .error e => .error e
    | .ok s => analogReadDifferentialConvert d hw fuel s pinP pinN

/-! ## Non-blocking and continuous conversions -/

/-- The method `My_ADC::startSingleRead`. -/
def startSingleRead (d : Defines) (hw : Hardware) (fuel : Nat) (s : My_ADC) (pin : Nat) :
    Except Fault (Bool × My_ADC) :=
  match checkPin d s pin with
  | .error e => .error e
  | .ok false => .ok (false, { s with fail_flag := s.fail_flag ||| d.WRONG_PIN })
  | .ok true =>
    match waitIfCalibrating d hw fuel s with
    | .error e => .error e
    | .ok s =>
      let s := { s with adcWasInUse := (isConverting d s).toNat }
      let s := if s.adcWasInUse ≠ 0 then
          let s := disable_irq s
          let s := { s with adc_config := saveConfig s }
          enable_irq s
        else s
      let s := singleMode d s
      match startReadFast d s pin with
      | .error e => .error e
      | .ok s => .ok (true, s)

/-- The method `My_ADC::startContinuous`. -/
def startContinuous (d : Defines) (hw : Hardware) (fuel : Nat) (s : My_ADC) (pin : Nat) :
    Except Fault (Bool × My_ADC) :=
  match checkPin d s pin with
  | .error e => .error e
  | .ok false => .ok (false, { s with fail_flag := s.fail_flag ||| d.WRONG_PIN })
  | .ok true =>
    match waitIfCalibrating d hw fuel s with
    | .error e => .error e
    | .ok s =>
      let s := { s with num_measurements := (s.num_measurements + 1) % 256 }
      let s := continuousMode d s
      match startReadFast d s pin with
      | .error e => .error e
      | .ok s => .ok (true, s)

/-- The method `My_ADC::stopContinuous` (the `ADC_TEENSY_4` branch). -/
def stopContinuous (d : Defines) (s : My_ADC) : My_ADC :=
  let s := s.write .HC0
    ((d.ADC_SC1A_PIN_INVALID + s.interrupts_enabled.toNat * d.ADC_HC_AIEN) % 4294967296)
  if s.num_measurements > 0 then
    { s with num_measurements := (s.num_measurements + 255) % 256 }
  else
    s

/-! ## Interrupts, DMA, offset, gain, trigger and timer -/

/-- The body of `enableInterrupts` after the calibration wait. The calls
`attachInterruptVector`, `NVIC_SET_PRIORITY` and `NVIC_ENABLE_IRQ` act on the interrupt
controller, another peripheral, and are left out; they are the only users of the
arguments `isr` and `priority`. -/
def enableInterruptsBody (d : Defines) (s : My_ADC) : My_ADC :=
  let s := setBitFlag s .HC0 d.ADC_HC_AIEN
  { s with interrupts_enabled := true }

/-- The method `My_ADC::enableInterrupts`. -/
def enableInterrupts (d : Defines) (hw : Hardware) (fuel : Nat) (s : My_ADC)
    (_priority : Nat) : Except Fault My_ADC :=
  match waitIfCalibrating d hw fuel s with
  | .error e => .error e
  | .ok s => .ok (enableInterruptsBody d s)

/-- The method `My_ADC::disableInterrupts`. The call `NVIC_DISABLE_IRQ` acts on the
interrupt controller and is left out. -/
def disableInterrupts (d : Defines) (s : My_ADC) : My_ADC :=
  let s := clearBitFlag s .HC0 d.ADC_HC_AIEN
  { s with interrupts_enabled := false }

/-- The body of `enableDMA` (section `ADC_USE_DMA`) after the calibration wait. -/
def enableDMABody (d : Defines) (s : My_ADC) : My_ADC := setBitFlag s .GC d.ADC_GC_DMAEN

/-- The method `My_ADC::enableDMA` (section `ADC_USE_DMA`). -/
def enableDMA (d : Defines) (hw : Hardware) (fuel : Nat) (s : My_ADC) :
    Except Fault My_ADC :=
  match waitIfCalibrating d hw fuel s with
  | .error e => .error e
  | .ok s => .ok (enableDMABody d s)

/-- The method `My_ADC::disableDMA` (section `ADC_USE_DMA`). -/
def disableDMA (d : Defines) (s : My_ADC) : My_ADC := clearBitFlag s .GC d.ADC_GC_DMAEN

/-- The method `My_ADC::setOffset`: `adc_regs.OFS = ADC_OFS_OFS(offset) | (subtract << 12)`. -/
def setOffset (d : Defines) (s : My_ADC) (offset : Int) (subtract : Bool) : My_ADC :=
  s.write .OFS (d.ADC_OFS_OFS offset ||| (subtract.toNat <<< 12))

/-- The body of `enablePGA` (section `ADC_USE_PGA`) after the calibration wait. -/
def enablePGABody (d : Defines) (s : My_ADC) (gain : Nat) : My_ADC :=
  let setting :=
    if gain ≤ 1 then 0
    else if gain ≤ 2 then 1
    else if gain ≤ 4 then 2
    else if gain ≤ 8 then 3
    else if gain ≤ 16 then 4
    else if gain ≤ 32 then 5
    else 6
  let s := s.write .PGA (d.ADC_PGA_PGAEN ||| d.ADC_PGA_PGAG setting)
  { s with pga_value := (1 <<< setting) % 256 }

/-- The method `My_ADC::enablePGA` (section `ADC_USE_PGA`). -/
def enablePGA (d : Defines) (hw : Hardware) (fuel : Nat) (s : My_ADC) (gain : Nat) :
    Except Fault My_ADC :=
  match waitIfCalibrating d hw fuel s with
  | .error e => .error e
  | .ok s => .ok (enablePGABody d s gain)

/-- The method `My_ADC::getPGA` (section `ADC_USE_PGA`). -/
def getPGA (s : My_ADC) : Nat := s.pga_value

/-- The method `My_ADC::disablePGA` (section `ADC_USE_PGA`). -/
def disablePGA (d : Defines) (s : My_ADC) : My_ADC :=
  let s := clearBitFlag s .PGA d.ADC_PGA_PGAEN
  { s with pga_value := 1 }

/-- The method `My_ADC::differentialMode` (section `ADC_DIFF_PAIRS > 0`). -/
def differentialMode (d : Defines) (s : My_ADC) : My_ADC := setBitFlag s .SC1A d.ADC_SC1_DIFF

/-- The method `My_ADC::isDifferential` (section `ADC_DIFF_PAIRS > 0`). -/
def isDifferential (d : Defines) (s : My_ADC) : Bool :=
  getBitFlag s.adc_regs.SC1A d.ADC_SC1_DIFF

/-- The method `My_ADC::setSoftwareTrigger`. -/
def setSoftwareTrigger (d : Defines) (s : My_ADC) : My_ADC :=
  clearBitFlag s .CFG d.ADC_CFG_ADTRG

/-- The method `My_ADC::setHardwareTrigger`. -/
def setHardwareTrigger (d : Defines) (s : My_ADC) : My_ADC :=
  setBitFlag s .CFG d.ADC_CFG_ADTRG

/-- The method `My_ADC::startSingleDifferential` (section `ADC_DIFF_PAIRS > 0`). -/
def startSingleDifferential (d : Defines) (hw : Hardware) (fuel : Nat) (s : My_ADC)
    (pinP pinN : Nat) : Except Fault (Bool × My_ADC) :=
  match checkDifferentialPins d s pinP pinN with
  | .error e => .error e
  | .ok false => .ok (false, { s with fail_flag := s.fail_flag ||| d.WRONG_PIN })
  | .ok true =>
    match waitIfCalibrating d hw fuel s with
    | .error e => .error e
    | .ok s =>
      let s := { s with adcWasInUse := (isConverting d s).toNat }
      let s := if s.adcWasInUse ≠ 0 then
          let s := disable_irq s
          let s := { s with adc_config := saveConfig s }
          enable_irq s
        else s
      let s := singleMode d s
      match startDifferentialFast d s pinP pinN with
      | .error e => .error e
      | .ok s => .ok (true, s)

/-- The method `My_ADC::startContinuousDifferential` (section `ADC_DIFF_PAIRS > 0`). -/
def startContinuousDifferential (d : Defines) (hw : Hardware) (fuel : Nat) (s : My_ADC)
    (pinP pinN : Nat) : Except Fault (Bool × My_ADC) :=
  match checkDifferentialPins d s pinP pinN with
  | .error e => .error e
  | .ok false => .ok (false, { s with fail_flag := s.fail_flag ||| d.WRONG_PIN })
  | .ok true =>
    let s := { s with num_measurements := (s.num_measurements + 1) % 256 }
    match waitIfCalibrating d hw fuel s with
    | .error e => .error e
    | .ok s =>
      let wasADCInUse := isConverting d s
      let s := if wasADCInUse then
          let s := disable_irq s
          let s := { s with adc_config := saveConfig s }
          enable_irq s
        else s
      let s := continuousMode d s
      match startDifferentialFast d s pinP pinN with
      | .error e => .error e
      | .ok s => .ok (true, s)

/-- The method `My_ADC::startQuadTimer` (section `ADC_USE_QUAD_TIMER`), which
`startTimer` forwards to: what it does to this converter. It sets the hardware trigger,
stores `(adc_regs.HC0 & ~0x1f) | 16` in `HC0` and leaves the continuous mode. Its stores
to the clock gate, the crossbar, `IMXRT_ADC_ETC` (with the pause `delay(5)` after a
soft reset of it) and `IMXRT_TMR4` act on other peripherals and are left out, and so is
the frequency, which only they use. -/
def startQuadTimer (d : Defines) (s : My_ADC) (_freq : Nat) : My_ADC :=
  let s := setHardwareTrigger d s
  let s := s.write .HC0 ((s.adc_regs.HC0 &&& not32 0x1f) ||| 16)
  singleMode d s

/-- The method `My_ADC::stopQuadTimer` (section `ADC_USE_QUAD_TIMER`), which `stopTimer`
forwards to: what it does to this converter. The call `quadtimerWrite` acts on the
timer and is left out. -/
def stopQuadTimer (d : Defines) (s : My_ADC) : My_ADC := setSoftwareTrigger d s

/-! ## Error bits -/

/-- Every bit of `fail_flag` that is set in `s` is set in `t`. -/
def failKept (s t : My_ADC) : Prop :=
  ∀ i, s.fail_flag.testBit i = true → t.fail_flag.testBit i = true

/-! ## Sample data used to instantiate the theorems -/

/-- A sample assignment of the constants, in the layout of the i.MX RT ADC block: one
bit per flag, two-bit fields in `CFG`, two twelve-bit compare values in `CV`. -/
def sampleDefines : Defines where
  ADC_MAX_PIN := 27
  ADC_SC1A_CHANNELS := 0x1F
  ADC_SC1A_PIN_INVALID := 0x1F
  ADC_SC1A_PIN_DIFF := 0x40
  ADC_SC1A_PIN_PGA := 0x80
  ADC_DIFF_PAIRS := 0
  ADC_USE_PGA := false
  ADC_SC1_DIFF := 0x20
  ADC_SC1_AIEN := 0x40
  ADC_PGA_PGAEN := 0x800000
  ADC_HC_AIEN := 0x80
  ADC_HS_COCO0 := 0x01
  ADC_GS_CALF := 0x02
  ADC_GS_ADACT := 0x01
  ADC_GC_CAL := 0x80
  ADC_GC_ADCO := 0x40
  ADC_GC_AVGE := 0x20
  ADC_GC_ACFE := 0x10
  ADC_GC_ACFGT := 0x08
  ADC_GC_ACREN := 0x04
  ADC_GC_ADACKEN := 0x01
  ADC_CFG_ADHSC := 0x400
  ADC_CFG_ADLPC := 0x80
  ADC_CFG_ADLSMP := 0x10
  ADC_CFG_REFSEL := fun n => (n &&& 3) <<< 11
  ADC_CFG_ADICLK := fun n => n &&& 3
  ADC_CFG_ADIV := fun n => (n &&& 3) <<< 5
  ADC_CFG_ADSTS := fun n => (n &&& 3) <<< 8
  ADC_F_BUS := 150000000
  get_CFG_LOW_SPEED := fun _ => 0x61
  get_CFG_MEDIUM_SPEED := fun _ => 0x41
  get_CFG_HIGH_SPEED := fun _ => 0x21
  REF_DEFAULT := 0
  REF_ALT := 1
  CONVERSION_LOW_SPEED := 1
  CONVERSION_MED_SPEED := 2
  CONVERSION_HIGH_SPEED := 4
  CONVERSION_ADACK_10 := 6
  CONVERSION_ADACK_20 := 7
  SAMPLING_VERY_LOW_SPEED := 0
  SAMPLING_LOW_SPEED := 1
  SAMPLING_LOW_MED_SPEED := 2
  SAMPLING_MED_SPEED := 3
  SAMPLING_MED_HIGH_SPEED := 4
  SAMPLING_HIGH_SPEED := 5
  SAMPLING_HIGH_VERY_HIGH_SPEED := 6
  SAMPLING_VERY_HIGH_SPEED := 7
  ADC_CFG_MODE := fun n => (n &&& 3) <<< 2
  ADC_CFG_AVGS := fun n => (n &&& 3) <<< 14
  ADC_CV_CV1 := fun n => (n % 4096).toNat
  ADC_CV_CV2 := fun n => (n % 4096).toNat <<< 16
  ADC_ERROR_VALUE := -70000
  OTHER := 0x01
  CALIB := 0x02
  WRONG_PIN := 0x04
  COMPARISON := 0x80
  CLEAR := 0
  ADC_CFG_ADTRG := 0x2000
  ADC_GC_DMAEN := 0x02
  ADC_OFS_OFS := fun n => (n % 4096).toNat
  ADC_PGA_PGAG := fun n => (n &&& 7) <<< 16

/-- A peripheral that never changes a register. -/
def idleHw : Hardware := fun _ r => r

/-- A peripheral that, during every `yield()`, ends the calibration and the conversion
in progress and raises the conversion complete flag. -/
def finishingHw (d : Defines) : Hardware := fun _ r =>
  { r with GC := r.GC &&& not32 d.ADC_GC_CAL, GS := r.GS &&& not32 d.ADC_GS_ADACT,
           HS := r.HS ||| d.ADC_HS_COCO0 }

/-- A peripheral that, during every `yield()`, ends the calibration in progress and
reports that it failed. -/
def failingCalHw (d : Defines) : Hardware := fun _ r =>
  { r with GC := r.GC &&& not32 d.ADC_GC_CAL, GS := r.GS ||| d.ADC_GS_CALF }

/-- A peripheral that, during every `yield()`, ends the conversion in progress without
raising the conversion complete flag, as when a configured comparison is false. -/
def abortingHw (d : Defines) : Hardware := fun _ r =>
  { r with GS := r.GS &&& not32 d.ADC_GS_ADACT }

/-- A peripheral that ends the calibration in progress during the first `yield()`,
reporting that it failed, and from then on, during every `yield()`, ends the conversion
in progress and raises the conversion complete flag. -/
def calFailThenFinishHw (d : Defines) : Hardware := fun n r =>
  if n = 0 then failingCalHw d n r else finishingHw d n r

/-- An idle instance: every member zero, the converter disabled (channel code `0x1F`)
and every other register zero. -/
def sampleADC : My_ADC where
  adc_config := { savedHC0 := 0, savedCFG := 0, savedGC := 0, savedGS := 0 }
  adcWasInUse := 0
  num_measurements := 0
  fail_flag := 0
  ADC_num := 0
  calibrating := 0
  init_calib := 0
  analog_res_bits := 0
  analog_max_val := 0
  analog_num_average := 0
  analog_reference_internal := 0
  pga_value := 0
  conversion_speed := 0
  sampling_speed := 0
  interrupts_enabled := false
  diff_table := []
  adc_regs := { HC0 := 0x1F, HS := 0, R0 := 0, CFG := 0, GC := 0, GS := 0, CV := 0,
                OFS := 0, SC1A := 0, PGA := 0 }
  log := []
  ticks := 0

/-- An instance with a continuous conversion running on pin 0: channel 7 selected, the
continuous bit of `GC` and the active bit of `GS` set, one measurement outstanding. -/
def continuousADC : My_ADC :=
  { sampleADC with
    num_measurements := 1
    adc_regs := { sampleADC.adc_regs with HC0 := 7, GC := 0x40, GS := 0x01 } }

/-- An instance with a conversion in progress and the raw value `0xFFFF8000` in the
result register: bit 15 is set, and so is every bit above it. -/
def highADC : My_ADC :=
  { sampleADC with
    adc_regs := { sampleADC.adc_regs with R0 := 0xFFFF8000, GS := 0x01 } }

/-! ## Bit operations -/

/-- Bits of the 32-bit complement. -/
theorem testBit_not32 (x i : Nat) :
    (not32 x).testBit i = (decide (i < 32) && !x.testBit i) := by
  have h : (4294967295 : Nat).testBit i = decide (i < 32) := by
    simpa using Nat.testBit_two_pow_sub_one 32 i
  have h2 : (x % 4294967296).testBit i = (decide (i < 32) && x.testBit i) := by
    simpa using Nat.testBit_mod_two_pow x 32 i
  unfold not32
  rw [Nat.testBit_xor, h, h2]
  by_cases hi : i < 32 <;> simp [hi]

/-- A flag is read as set exactly when the register and the mask share a bit. -/
theorem getBitFlag_eq_true_iff (r f : Nat) :
    getBitFlag r f = true ↔ ∃ i, r.testBit i = true ∧ f.testBit i = true := by
  unfold getBitFlag
  constructor
  · intro h
    have hne : r &&& f ≠ 0 := by simpa using h
    obtain ⟨i, hi⟩ := Nat.ne_zero_implies_bit_true hne
    rw [Nat.testBit_and] at hi
    exact ⟨i, by simpa using hi⟩
  · rintro ⟨i, hr, hf⟩
    have : (r &&& f).testBit i = true := by rw [Nat.testBit_and, hr, hf]; rfl
    have hne : r &&& f ≠ 0 := by
      intro h0
      rw [h0, Nat.zero_testBit] at this
      exact Bool.false_ne_true this
    simpa using hne

/-- After `reg |= flag` a non-zero flag is read as set. -/
theorem getBitFlag_or_self (r f : Nat) (hf : f ≠ 0) : getBitFlag (r ||| f) f = true := by
  rw [getBitFlag_eq_true_iff]
  obtain ⟨i, hi⟩ := Nat.ne_zero_implies_bit_true hf
  exact ⟨i, by rw [Nat.testBit_or, hi, Bool.or_true], hi⟩

/-- Setting bits never clears a flag that was set. -/
theorem getBitFlag_or_mono (r f g : Nat) (h : getBitFlag r g = true) :
    getBitFlag (r ||| f) g = true := by
  rw [getBitFlag_eq_true_iff] at h ⊢
  obtain ⟨i, hr, hg⟩ := h
  exact ⟨i, by rw [Nat.testBit_or, hr, Bool.true_or], hg⟩

/-- After `reg &= ~flag` the flag is read as clear. -/
theorem getBitFlag_clear_self (r f : Nat) :
    getBitFlag (r &&& not32 f) f = false := by
  rw [← Bool.not_eq_true, getBitFlag_eq_true_iff]
  rintro ⟨i, hr, hfi⟩
  rw [Nat.testBit_and, testBit_not32, hfi] at hr
  simp at hr

/-- Disjoint masks share no bit. -/
theorem disjoint_testBit {f g : Nat} (h : g &&& f = 0) (i : Nat) (hg : g.testBit i = true) :
    f.testBit i = false := by
  have : (g &&& f).testBit i = false := by rw [h, Nat.zero_testBit]
  rw [Nat.testBit_and, hg] at this
  simpa using this

/-- A set bit of a 32-bit mask has an index below 32. -/
theorem testBit_lt_32 {g : Nat} (hg : g < 4294967296) {i : Nat} (h : g.testBit i = true) :
    i < 32 := by
  by_contra hi
  have h32 : g < 2 ^ i := lt_of_lt_of_le hg (by
    have : (2:Nat) ^ 32 ≤ 2 ^ i := Nat.pow_le_pow_right (by norm_num) (by omega)
    simpa using this)
  rw [Nat.testBit_lt_two_pow h32] at h
  exact Bool.false_ne_true h

/-- Clearing a flag leaves a disjoint 32-bit flag as it was. -/
theorem getBitFlag_clear_other (r f g : Nat) (hg : g < 4294967296) (h : g &&& f = 0) :
    getBitFlag (r &&& not32 f) g = getBitFlag r g := by
  rw [Bool.eq_iff_iff, getBitFlag_eq_true_iff, getBitFlag_eq_true_iff]
  constructor
  · rintro ⟨i, hr, hgi⟩
    rw [Nat.testBit_and] at hr
    exact ⟨i, by simp at hr; exact hr.1, hgi⟩
  · rintro ⟨i, hr, hgi⟩
    refine ⟨i, ?_, hgi⟩
    rw [Nat.testBit_and, testBit_not32, hr, disjoint_testBit h i hgi]
    simp [testBit_lt_32 hg hgi]

/-- Setting a flag leaves a disjoint flag as it was. -/
theorem getBitFlag_or_other (r f g : Nat) (h : g &&& f = 0) :
    getBitFlag (r ||| f) g = getBitFlag r g := by
  rw [Bool.eq_iff_iff, getBitFlag_eq_true_iff, getBitFlag_eq_true_iff]
  constructor
  · rintro ⟨i, hr, hgi⟩
    rw [Nat.testBit_or, disjoint_testBit h i hgi, Bool.or_false] at hr
    exact ⟨i, hr, hgi⟩
  · rintro ⟨i, hr, hgi⟩
    exact ⟨i, by rw [Nat.testBit_or, hr, Bool.true_or], hgi⟩

/-- Clearing a flag leaves every other bit of a 32-bit register as it was. -/
theorem testBit_clear_other (r f i : Nat) (hi : i < 32) (h : f.testBit i = false) :
    (r &&& not32 f).testBit i = r.testBit i := by
  rw [Nat.testBit_and, testBit_not32, h]
  simp [hi]

/-- Setting a flag leaves every other bit as it was. -/
theorem testBit_or_other (r f i : Nat) (h : f.testBit i = false) :
    (r ||| f).testBit i = r.testBit i := by
  rw [Nat.testBit_or, h, Bool.or_false]

/-! ## The polling loops -/

/-- One more `yield()` at the end. -/
theorem yields_succ (hw : Hardware) (k : Nat) (s : My_ADC) :
    yields hw (k + 1) s = yield hw (yields hw k s) := by
  induction k generalizing s with
  | zero => rfl
  | succ n ih =>
    show yields hw (n + 1) (yield hw s) = _
    rw [ih]
    rfl

/-- Calls of `yield()` change the register bank and the time only. -/
theorem yields_members (hw : Hardware) (k : Nat) (s : My_ADC) :
    yields hw k s = { s with adc_regs := (yields hw k s).adc_regs, ticks := s.ticks + k } := by
  induction k generalizing s with
  | zero => rfl
  | succ n ih =>
    show yields hw n (yield hw s) = _
    rw [ih]
    simp only [yield]
    congr 1
    omega

/-- Calls of `yield()` leave the counter alone. -/
theorem yields_num_measurements (hw : Hardware) (j : Nat) (s : My_ADC) :
    (yields hw j s).num_measurements = s.num_measurements := by
  rw [yields_members hw j s]

/-- A polling loop returns the state of the first `yield()` count at which its condition is false. -/
theorem pollWhile_exit (cond : My_ADC → Bool) (hw : Hardware) (k fuel : Nat) (s : My_ADC)
    (hbusy : ∀ i, i < k → cond (yields hw i s) = true)
    (hdone : cond (yields hw k s) = false) (hk : k ≤ fuel) :
    pollWhile cond hw fuel s = .ok (yields hw k s) := by
  induction k generalizing s fuel with
  | zero =>
    unfold pollWhile
    have : cond s = false := hdone
    simp [this, yields]
  | succ n ih =>
    have h0 : cond s = true := hbusy 0 (Nat.succ_pos n)
    cases fuel with
    | zero => omega
    | succ f =>
      unfold pollWhile
      simp only [h0, if_true]
      exact ih f (yield hw s) (fun i hi => hbusy (i + 1) (by omega)) hdone (by omega)

/-- A polling loop returns once its condition is false at some `yield()` count within the fuel. -/
theorem pollWhile_of_clear (cond : My_ADC → Bool) (hw : Hardware) (k fuel : Nat) (s : My_ADC)
    (hdone : cond (yields hw k s) = false) (hk : k ≤ fuel) :
    ∃ j, j ≤ k ∧ cond (yields hw j s) = false ∧
      pollWhile cond hw fuel s = .ok (yields hw j s) := by
  classical
  have hex : ∃ j, cond (yields hw j s) = false := ⟨k, hdone⟩
  refine ⟨Nat.find hex, Nat.find_min' hex hdone, Nat.find_spec hex, ?_⟩
  apply pollWhile_exit
  · intro i hi
    have := Nat.find_min hex hi
    simpa using this
  · exact Nat.find_spec hex
  · exact le_trans (Nat.find_min' hex hdone) hk

/-- A polling loop returns a state reached by calls of `yield()`. -/
theorem pollWhile_ok_yields (cond : My_ADC → Bool) (hw : Hardware) (fuel : Nat)
    (s t : My_ADC) (h : pollWhile cond hw fuel s = .ok t) : ∃ j, t = yields hw j s := by
  induction fuel generalizing s with
  | zero =>
    unfold pollWhile at h
    by_cases hc : cond s = true
    · simp [hc] at h
    · simp [hc] at h
      exact ⟨0, h.symm⟩
  | succ n ih =>
    unfold pollWhile at h
    by_cases hc : cond s = true
    · simp only [hc, if_true] at h
      obtain ⟨j, hj⟩ := ih (yield hw s) h
      exact ⟨j + 1, hj⟩
    · simp [hc] at h
      exact ⟨0, h.symm⟩

/-! ## Pins -/

/-- Valid pins of converter 0. -/
theorem checkPin_ADC0 (d : Defines) (s : My_ADC) (pin : Nat)
    (hmax : d.ADC_MAX_PIN = 27) (hch : d.ADC_SC1A_CHANNELS = 0x1F)
    (hinv : d.ADC_SC1A_PIN_INVALID = 0x1F) (h0 : s.ADC_num = 0) :
    checkPin d s pin = .ok (decide (pin ≤ 11 ∨ (14 ≤ pin ∧ pin ≤ 25))) := by
  unfold checkPin My_ADC.channel2sc1aAt My_ADC.channel2sc1a
  rw [hmax, hch, hinv]
  by_cases hp : pin > 27
  · have : ¬ (pin ≤ 11 ∨ (14 ≤ pin ∧ pin ≤ 25)) := by omega
    simp [hp, this]
  · have hle : pin ≤ 27 := by omega
    simp only [hp, if_false, h0]
    interval_cases pin <;> rfl

/-- Valid pins of converter 1. -/
theorem checkPin_ADC1 (d : Defines) (s : My_ADC) (pin : Nat)
    (hmax : d.ADC_MAX_PIN = 27) (hch : d.ADC_SC1A_CHANNELS = 0x1F)
    (hinv : d.ADC_SC1A_PIN_INVALID = 0x1F) (h1 : s.ADC_num ≠ 0) :
    checkPin d s pin = .ok (decide (pin ≤ 9 ∨ (12 ≤ pin ∧ pin ≤ 13) ∨
      (14 ≤ pin ∧ pin ≤ 23) ∨ (26 ≤ pin ∧ pin ≤ 27))) := by
  unfold checkPin My_ADC.channel2sc1aAt My_ADC.channel2sc1a
  rw [hmax, hch, hinv]
  by_cases hp : pin > 27
  · have : ¬ (pin ≤ 9 ∨ (12 ≤ pin ∧ pin ≤ 13) ∨
      (14 ≤ pin ∧ pin ≤ 23) ∨ (26 ≤ pin ∧ pin ≤ 27)) := by omega
    simp [hp, this]
  · have hle : pin ≤ 27 := by omega
    simp only [hp, if_false, h1, ne_eq, not_false_eq_true, if_true]
    interval_cases pin <;> rfl

/-- The result of `checkPin` in terms of the channel table. -/
theorem checkPin_spec (d : Defines) (s : My_ADC) (pin : Nat)
    (hmax : d.ADC_MAX_PIN = 27) :
    ∃ b, checkPin d s pin = .ok b ∧
      (b = true ↔ pin ≤ d.ADC_MAX_PIN ∧ ∃ e, s.channel2sc1a.get? pin = some e ∧
        e &&& d.ADC_SC1A_CHANNELS ≠ d.ADC_SC1A_PIN_INVALID) := by
  unfold checkPin My_ADC.channel2sc1aAt
  by_cases hp : pin > d.ADC_MAX_PIN
  · refine ⟨false, by simp [hp], ?_⟩
    simp
    intro h; omega
  · have hle : pin ≤ 27 := by omega
    have hlen : s.channel2sc1a.length = 28 := by
      unfold My_ADC.channel2sc1a; split <;> rfl
    obtain ⟨e, he⟩ : ∃ e, s.channel2sc1a.get? pin = some e := by
      have hlt : pin < s.channel2sc1a.length := by omega
      exact ⟨s.channel2sc1a.get ⟨pin, hlt⟩, List.get?_eq_get hlt⟩
    simp only [hp, if_false, he]
    by_cases hv : e &&& d.ADC_SC1A_CHANNELS = d.ADC_SC1A_PIN_INVALID
    · refine ⟨false, by simp [hv], ?_⟩
      simp [hv]
    · refine ⟨true, by simp [hv], ?_⟩
      simp [hv]
      omega

/-- The result of `checkPin` depends on the converter number only. -/
theorem checkPin_congr (d : Defines) (s t : My_ADC) (pin : Nat) (h : t.ADC_num = s.ADC_num) :
    checkPin d t pin = checkPin d s pin := by
  unfold checkPin My_ADC.channel2sc1aAt My_ADC.channel2sc1a
  rw [h]

/-! ## Calibration -/

/-- The state `calibrate` returns. -/
theorem calibrate_eq (d : Defines) (s : My_ADC) :
    calibrate d s =
      { s with
        calibrating := 1
        adc_regs := { s.adc_regs with
          GS := s.adc_regs.GS &&& not32 d.ADC_GS_CALF
          GC := s.adc_regs.GC ||| d.ADC_GC_CAL }
        log := s.log ++ [Event.irqOff,
          Event.write .GS (s.adc_regs.GS &&& not32 d.ADC_GS_CALF),
          Event.write .GC (s.adc_regs.GC ||| d.ADC_GC_CAL), Event.irqOn] } := by
  simp [calibrate, disable_irq, enable_irq, clearBitFlag, setBitFlag, My_ADC.write,
    ADC_REGS_t.get, ADC_REGS_t.set]

/-- The state the end of `wait_for_cal` produces. -/
theorem calDone_eq (d : Defines) (t : My_ADC) :
    calDone d t = { t with
      calibrating := 0
      fail_flag := if getBitFlag t.adc_regs.GS d.ADC_GS_CALF then t.fail_flag ||| d.CALIB
        else t.fail_flag } := by
  unfold calDone
  split <;> rfl

/-- The wait returns once the peripheral shows the calibration bit clear. -/
theorem wait_for_cal_returns (d : Defines) (hw : Hardware) (k fuel : Nat) (s : My_ADC)
    (hclear : getBitFlag (yields hw k s).adc_regs.GC d.ADC_GC_CAL = false) (hk : k ≤ fuel) :
    ∃ j, j ≤ k ∧ getBitFlag (yields hw j s).adc_regs.GC d.ADC_GC_CAL = false ∧
      wait_for_cal d hw fuel s = .ok (calDone d (yields hw j s)) := by
  obtain ⟨j, hj, hc, hp⟩ :=
    pollWhile_of_clear (fun t => getBitFlag t.adc_regs.GC d.ADC_GC_CAL) hw k fuel s hclear hk
  refine ⟨j, hj, hc, ?_⟩
  unfold wait_for_cal pollCal
  rw [hp]

/-- The state `wait_for_cal` returns, in terms of the state at entry. -/
theorem calDone_yields (d : Defines) (hw : Hardware) (j : Nat) (s : My_ADC) :
    calDone d (yields hw j s) = { s with
      calibrating := 0
      fail_flag := if getBitFlag (yields hw j s).adc_regs.GS d.ADC_GS_CALF then
          s.fail_flag ||| d.CALIB
        else s.fail_flag
      adc_regs := (yields hw j s).adc_regs
      ticks := s.ticks + j } := by
  rw [calDone_eq]
  conv_lhs => rw [yields_members hw j s]

/-- The calibration wait of a method returns with `calibrating` clear; it changes nothing but the registers (through the peripheral), the time, `fail_flag` and `calibrating`. -/
theorem waitIfCalibrating_returns (d : Defines) (hw : Hardware) (fuel : Nat) (s : My_ADC)
    (h : calSettles d hw fuel s) :
    ∃ s1, waitIfCalibrating d hw fuel s = .ok s1 ∧ s1.calibrating = 0 ∧
      { s1 with adc_regs := s.adc_regs, ticks := s.ticks, fail_flag := s.fail_flag,
                calibrating := s.calibrating } = s := by
  unfold waitIfCalibrating
  by_cases hc : s.calibrating = 0
  · exact ⟨s, by simp [hc], hc, rfl⟩
  · rcases h with h | ⟨k, hk, hclear⟩
    · exact absurd h hc
    · obtain ⟨j, _, _, hw1⟩ := wait_for_cal_returns d hw k fuel s hclear hk
      refine ⟨calDone d (yields hw j s), by simp [hc, hw1], ?_, ?_⟩
      · rw [calDone_eq]
      · rw [calDone_yields]

/-- The calibration wait leaves the counter alone. -/
theorem waitIfCalibrating_num_measurements (d : Defines) (hw : Hardware) (fuel : Nat)
    (s s1 : My_ADC) (h : waitIfCalibrating d hw fuel s = .ok s1) :
    s1.num_measurements = s.num_measurements := by
  unfold waitIfCalibrating at h
  by_cases hc : s.calibrating = 0
  · simp [hc] at h
    rw [← h]
  · simp only [ne_eq, hc, not_false_eq_true, if_true] at h
    unfold wait_for_cal pollCal at h
    cases hp : pollWhile (fun t => getBitFlag t.adc_regs.GC d.ADC_GC_CAL) hw fuel s with
    | error e => rw [hp] at h; simp at h
    | ok t =>
      rw [hp] at h
      simp only [Except.ok.injEq] at h
      obtain ⟨j, hj⟩ := pollWhile_ok_yields _ hw fuel s t hp
      rw [← h, calDone_eq, hj]
      exact yields_num_measurements hw j s

/-- The calibration wait leaves the stored resolution alone. -/
theorem waitIfCalibrating_res_bits (d : Defines) (hw : Hardware) (fuel : Nat)
    (s s1 : My_ADC) (h : waitIfCalibrating d hw fuel s = .ok s1) :
    s1.analog_res_bits = s.analog_res_bits := by
  unfold waitIfCalibrating at h
  by_cases hc : s.calibrating = 0
  · simp [hc] at h
    rw [← h]
  · simp only [ne_eq, hc, not_false_eq_true, if_true] at h
    unfold wait_for_cal pollCal at h
    cases hp : pollWhile (fun t => getBitFlag t.adc_regs.GC d.ADC_GC_CAL) hw fuel s with
    | error e => rw [hp] at h; simp at h
    | ok t =>
      rw [hp] at h
      simp only [Except.ok.injEq] at h
      obtain ⟨j, hj⟩ := pollWhile_ok_yields _ hw fuel s t hp
      rw [← h, calDone_eq, hj, yields_members hw j s]

/-! ## Settings -/

/-- The averaging value stored by `setAveraging`. -/
theorem setAveragingBody_average (d : Defines) (s : My_ADC) (num : Nat) :
    (setAveragingBody d s num).analog_num_average =
      if num ≤ 1 then 0 else if num ≤ 4 then 4 else if num ≤ 8 then 8
      else if num ≤ 16 then 16 else 32 := by
  unfold setAveragingBody
  split
  · rfl
  · split
    · rfl
    · split
      · rfl
      · split <;> rfl

/-- The register `GC` after `setAveraging`. -/
theorem setAveragingBody_GC (d : Defines) (s : My_ADC) (num : Nat) :
    (setAveragingBody d s num).adc_regs.GC =
      if num ≤ 1 then s.adc_regs.GC &&& not32 d.ADC_GC_AVGE
      else s.adc_regs.GC ||| d.ADC_GC_AVGE := by
  unfold setAveragingBody
  split
  · simp [clearBitFlag, My_ADC.write, ADC_REGS_t.get, ADC_REGS_t.set]
  · split
    · simp [clearBitFlag, setBitFlag, My_ADC.write, ADC_REGS_t.get, ADC_REGS_t.set]
    · split
      · simp [changeBitFlag, setBitFlag, My_ADC.write, ADC_REGS_t.get, ADC_REGS_t.set]
      · split <;>
          simp [changeBitFlag, setBitFlag, My_ADC.write, ADC_REGS_t.get, ADC_REGS_t.set]

/-- The body of `setAveraging` leaves `calibrating` alone. -/
theorem setAveragingBody_calibrating (d : Defines) (s : My_ADC) (num : Nat) :
    (setAveragingBody d s num).calibrating = s.calibrating := by
  unfold setAveragingBody
  split
  · rfl
  · split
    · rfl
    · split
      · rfl
      · split <;> rfl

/-- The method `setAveraging` returns when its calibration wait ends. -/
theorem setAveraging_returns (d : Defines) (hw : Hardware) (fuel : Nat) (s : My_ADC)
    (num : Nat) (h : calSettles d hw fuel s) :
    ∃ s1, waitIfCalibrating d hw fuel s = .ok s1 ∧ s1.calibrating = 0 ∧
      { s1 with adc_regs := s.adc_regs, ticks := s.ticks, fail_flag := s.fail_flag,
                calibrating := s.calibrating } = s ∧
      setAveraging d hw fuel s num = .ok (setAveragingBody d s1 num) := by
  obtain ⟨s1, h1, h2, h3⟩ := waitIfCalibrating_returns d hw fuel s h
  refine ⟨s1, h1, h2, h3, ?_⟩
  unfold setAveraging
  rw [h1]

/-- The resolution stored by `setResolution`. -/
theorem setResolutionBody_res (d : Defines) (s : My_ADC) (bits : Nat) :
    (setResolutionBody d s bits).analog_res_bits = bits := rfl

/-- The maximum value stored by `setResolution`. -/
theorem setResolutionBody_max (d : Defines) (s : My_ADC) (bits : Nat) :
    (setResolutionBody d s bits).analog_max_val =
      if bits = 8 then 255 else if bits = 10 then 1023 else if bits = 12 then 4095
      else s.analog_max_val := by
  unfold setResolutionBody
  split
  · rfl
  · split
    · rfl
    · split <;> rfl

/-- The register `GC` after `enableCompareRange`. -/
theorem enableCompareRangeBody_GC (d : Defines) (s : My_ADC) (lowerLimit upperLimit : Int)
    (insideRange inclusive : Bool) :
    (enableCompareRangeBody d s lowerLimit upperLimit insideRange inclusive).adc_regs.GC =
      if inclusive then ((s.adc_regs.GC ||| d.ADC_GC_ACFE) ||| d.ADC_GC_ACREN) ||| d.ADC_GC_ACFGT
      else ((s.adc_regs.GC ||| d.ADC_GC_ACFE) ||| d.ADC_GC_ACREN) &&& not32 d.ADC_GC_ACFGT := by
  cases insideRange <;> cases inclusive <;>
    simp [enableCompareRangeBody, clearBitFlag, setBitFlag, My_ADC.write, ADC_REGS_t.get,
      ADC_REGS_t.set]

/-- The register `CV` after `enableCompareRange`. -/
theorem enableCompareRangeBody_CV (d : Defines) (s : My_ADC) (lowerLimit upperLimit : Int)
    (insideRange inclusive : Bool) :
    (enableCompareRangeBody d s lowerLimit upperLimit insideRange inclusive).adc_regs.CV =
      if insideRange = inclusive then d.ADC_CV_CV1 lowerLimit ||| d.ADC_CV_CV2 upperLimit
      else d.ADC_CV_CV1 upperLimit ||| d.ADC_CV_CV2 lowerLimit := by
  cases insideRange <;> cases inclusive <;>
    simp [enableCompareRangeBody, clearBitFlag, setBitFlag, My_ADC.write, ADC_REGS_t.get,
      ADC_REGS_t.set, Nat.lor_comm]

/-! ## Conversions -/

/-- The state `startReadFast` returns: one store to `HC0` between an interrupt-disable and an interrupt-enable. -/
theorem startReadFast_eq (d : Defines) (t s2 : My_ADC) (pin : Nat)
    (h : startReadFast d t pin = .ok s2) :
    ∃ v, s2 = { t with adc_regs := { t.adc_regs with HC0 := v },
                       log := t.log ++ [Event.irqOff, Event.write .HC0 v, Event.irqOn] } := by
  unfold startReadFast at h
  cases hc : t.channel2sc1aAt pin with
  | error e => rw [hc] at h; simp at h
  | ok c =>
    rw [hc] at h
    simp only [Except.ok.injEq] at h
    refine ⟨((c &&& d.ADC_SC1A_CHANNELS) + t.interrupts_enabled.toNat * d.ADC_HC_AIEN)
      % 4294967296, ?_⟩
    rw [← h]
    simp [disable_irq, enable_irq, My_ADC.write, ADC_REGS_t.set]

/-- The end of `analogRead` when a conversion was interrupted: the four saved registers are written back and the counter is decremented. -/
theorem analogReadFinish_restore (d : Defines) (cfg : ADC_Config) (t : My_ADC) :
    (analogReadFinish d true cfg t).2.adc_regs.HC0 = cfg.savedHC0 ∧
    (analogReadFinish d true cfg t).2.adc_regs.CFG = cfg.savedCFG ∧
    (analogReadFinish d true cfg t).2.adc_regs.GC = cfg.savedGC ∧
    (analogReadFinish d true cfg t).2.adc_regs.GS = cfg.savedGS ∧
    (analogReadFinish d true cfg t).2.num_measurements = (t.num_measurements + 255) % 256 := by
  by_cases hc : isComplete d (disable_irq t) = true
  · simp only [analogReadFinish, hc, if_true]
    simp [restoreIfInUse, loadConfig, disable_irq, enable_irq, My_ADC.write, ADC_REGS_t.set]
  · simp only [analogReadFinish, hc, if_false]
    simp [restoreIfInUse, loadConfig, disable_irq, enable_irq, My_ADC.write, ADC_REGS_t.set]

/-- Range of `int16_t`. -/
theorem toInt16_range (v : Int) : -32768 ≤ toInt16 v ∧ toInt16 v ≤ 32767 := by
  unfold toInt16
  split <;> omega

/-- A small integer is unchanged by the conversion to `int32_t`. -/
theorem toInt32_of_int16 (v : Int) (h1 : -65536 ≤ v) (h2 : v ≤ 65535) : toInt32 v = v := by
  unfold toInt32
  split <;> omega

/-- Converting to `int16_t` twice is converting once. -/
theorem toInt16_idem (v : Int) : toInt16 (toInt16 v) = toInt16 v := by
  unfold toInt16
  split <;> split <;> omega

/-- The low 16 bits of a value do not depend on bits 32 and up. -/
theorem toInt16_mod32 (n : Nat) :
    toInt16 (((n % 4294967296 : Nat) : Int)) = toInt16 (n : Int) := by
  unfold toInt16
  have h : (((n % 4294967296 : Nat) : Int)) % 65536 = (n : Int) % 65536 := by omega
  rw [h]

/-- The method `readSingle` returns the low 16 bits of `R0` read as a signed number. -/
theorem readSingle_eq (s : My_ADC) : readSingle s = toInt16 (s.adc_regs.R0 : Int) := by
  unfold readSingle analogReadContinuous
  have h : toInt32 ((s.adc_regs.R0 % 4294967296 : Nat) : Int)
      = ((s.adc_regs.R0 % 4294967296 : Nat) : Int) ∨
      toInt32 ((s.adc_regs.R0 % 4294967296 : Nat) : Int)
      = ((s.adc_regs.R0 % 4294967296 : Nat) : Int) - 4294967296 := by
    unfold toInt32
    split
    · left; omega
    · right; omega
  rw [← toInt16_mod32]
  rcases h with h | h
  · rw [h]
  · rw [h]
    unfold toInt16
    have e : (((s.adc_regs.R0 % 4294967296 : Nat) : Int) - 4294967296) % 65536
        = ((s.adc_regs.R0 % 4294967296 : Nat) : Int) % 65536 := by omega
    rw [e]

/-- The value `analogReadDifferential` returns when the conversion is complete. -/
theorem analogReadDifferentialFinish_result (d : Defines) (res : Nat) (w : Bool)
    (cfg : ADC_Config) (t : My_ADC) (hc : isComplete d t = true) :
    (analogReadDifferentialFinish d res w cfg t).1 =
      if res = 16 then 2 * toInt16 (t.adc_regs.R0 : Int) else toInt16 (t.adc_regs.R0 : Int) := by
  have hc2 : isComplete d (disable_irq t) = true := hc
  have hr : readSingle (disable_irq t) = toInt16 (t.adc_regs.R0 : Int) := readSingle_eq _
  obtain ⟨r1, r2⟩ := toInt16_range (t.adc_regs.R0 : Int)
  simp only [analogReadDifferentialFinish, hc2, if_true, hr]
  rw [toInt32_of_int16 (toInt16 (t.adc_regs.R0 : Int)) (by omega) (by omega), toInt16_idem]
  split
  · rw [toInt32_of_int16 _ (by omega) (by omega)]; ring
  · rfl

/-- The registers after calls of `yield()` depend on the registers and the time only. -/
theorem yields_regs_congr (hw : Hardware) (k : Nat) (s t : My_ADC)
    (hr : t.adc_regs = s.adc_regs) (ht : t.ticks = s.ticks) :
    (yields hw k t).adc_regs = (yields hw k s).adc_regs := by
  induction k generalizing s t with
  | zero => exact hr
  | succ n ih =>
    show (yields hw n (yield hw t)).adc_regs = (yields hw n (yield hw s)).adc_regs
    apply ih
    · simp [yield, hr, ht]
    · simp [yield, ht]

/-- Whether the calibration wait ends depends on `calibrating`, the registers and the time only. -/
theorem calSettles_congr (d : Defines) (hw : Hardware) (fuel : Nat) (s t : My_ADC)
    (h : calSettles d hw fuel s) (hc : t.calibrating = s.calibrating)
    (hr : t.adc_regs = s.adc_regs) (ht : t.ticks = s.ticks) : calSettles d hw fuel t := by
  rcases h with h | ⟨k, hk, hclear⟩
  · exact Or.inl (hc.trans h)
  · exact Or.inr ⟨k, hk, by rw [yields_regs_congr hw k s t hr ht]; exact hclear⟩

/-- The calibration wait leaves the converter number and the pair table alone. -/
theorem waitIfCalibrating_ADC_num (d : Defines) (hw : Hardware) (fuel : Nat)
    (s s1 : My_ADC) (h : waitIfCalibrating d hw fuel s = .ok s1) :
    s1.ADC_num = s.ADC_num ∧ s1.diff_table = s.diff_table := by
  unfold waitIfCalibrating at h
  by_cases hc : s.calibrating = 0
  · simp [hc] at h
    rw [← h]
    exact ⟨rfl, rfl⟩
  · simp only [ne_eq, hc, not_false_eq_true, if_true] at h
    unfold wait_for_cal pollCal at h
    cases hp : pollWhile (fun t => getBitFlag t.adc_regs.GC d.ADC_GC_CAL) hw fuel s with
    | error e => rw [hp] at h; simp at h
    | ok t =>
      rw [hp] at h
      simp only [Except.ok.injEq] at h
      obtain ⟨j, hj⟩ := pollWhile_ok_yields _ hw fuel s t hp
      rw [← h, calDone_eq, hj, yields_members hw j s]
      exact ⟨rfl, rfl⟩

/-- On a pin that `checkPin` accepts, `startReadFast` reads inside the channel table. -/
theorem startReadFast_ok (d : Defines) (s t : My_ADC) (pin : Nat)
    (hpin : checkPin d s pin = .ok true) (hn : t.ADC_num = s.ADC_num) :
    ∃ s2, startReadFast d t pin = .ok s2 := by
  have hpt : checkPin d t pin = .ok true := by rw [checkPin_congr d s t pin hn, hpin]
  unfold checkPin at hpt
  unfold startReadFast
  cases hc : t.channel2sc1aAt pin with
  | error e =>
    rw [hc] at hpt
    by_cases hp : pin > d.ADC_MAX_PIN <;> simp [hp] at hpt
  | ok c => exact ⟨_, rfl⟩

/-- The scan of the pair table depends on the table only. -/
theorem getDifferentialPairFrom_congr (d : Defines) (s t : My_ADC) (pin n i : Nat)
    (h : t.diff_table = s.diff_table) :
    getDifferentialPairFrom d t pin n i = getDifferentialPairFrom d s pin n i := by
  induction n generalizing i with
  | zero => rfl
  | succ m ih =>
    unfold getDifferentialPairFrom
    rw [h]
    cases s.diff_table.get? i with
    | none => rfl
    | some e =>
      simp only
      rw [ih]

/-- On a pair that `checkDifferentialPins` accepts, `startDifferentialFast` returns. -/
theorem startDifferentialFast_ok (d : Defines) (s t : My_ADC) (pinP pinN : Nat)
    (hpins : checkDifferentialPins d s pinP pinN = .ok true)
    (hn : t.diff_table = s.diff_table) :
    ∃ s2, startDifferentialFast d t pinP pinN = .ok s2 := by
  unfold startDifferentialFast getDifferentialPair
  rw [getDifferentialPairFrom_congr d s t pinP _ 0 hn]
  unfold checkDifferentialPins getDifferentialPair at hpins
  cases hg : getDifferentialPairFrom d s pinP d.ADC_DIFF_PAIRS 0 with
  | ok c => exact ⟨_, rfl⟩
  | error e =>
    rw [hg] at hpins
    by_cases hp : pinP > d.ADC_MAX_PIN
    · simp [hp] at hpins
    · simp only [hp, if_false] at hpins
      cases hc : s.channel2sc1aAt pinP with
      | error e2 => rw [hc] at hpins; simp at hpins
      | ok c =>
        rw [hc] at hpins
        simp only at hpins
        by_cases hd : (c &&& d.ADC_SC1A_PIN_DIFF) = 0 <;> simp [hd] at hpins

/-- The blocking read when a conversion is interrupted: if the calibration wait
returns `s1` with the active flag set and the conversion started in `s2` ends within
the fuel, `analogRead` returns with `HC0`, `CFG`, `GC`, `GS` as in `s1` and the
counter as at entry. -/
theorem analogRead_restores (d : Defines) (hw : Hardware) (fuel k : Nat)
    (s s1 s2 : My_ADC) (pin : Nat)
    (hpin : checkPin d s pin = .ok true)
    (hnum : s.num_measurements < 256)
    (hcal : waitIfCalibrating d hw fuel
      { s with num_measurements := (s.num_measurements + 1) % 256 } = .ok s1)
    (hact : isConverting d s1 = true)
    (hstart : startReadFast d (singleMode d (saveIfInUse true s1).2) pin = .ok s2)
    (hend : isConverting d (yields hw k s2) = false) (hk : k ≤ fuel) :
    ∃ r s', analogRead d hw fuel s pin = .ok (r, s') ∧
      s'.adc_regs.HC0 = s1.adc_regs.HC0 ∧ s'.adc_regs.CFG = s1.adc_regs.CFG ∧
      s'.adc_regs.GC = s1.adc_regs.GC ∧ s'.adc_regs.GS = s1.adc_regs.GS ∧
      isContinuous d s' = isContinuous d s1 ∧
      s'.num_measurements = s.num_measurements := by
  obtain ⟨j, _, _, hp⟩ := pollWhile_of_clear (isConverting d) hw k fuel s2 hend hk
  have hres : analogRead d hw fuel s pin =
      .ok (analogReadFinish d true (saveIfInUse true s1).1 (yields hw j s2)) := by
    unfold analogRead
    rw [hpin]
    simp only
    rw [hcal]
    simp only
    unfold analogReadConvert
    rw [hact]
    simp only
    rw [hstart]
    simp only
    unfold pollConverting
    rw [hp]
  have hn1 := waitIfCalibrating_num_measurements d hw fuel _ s1 hcal
  simp only at hn1
  obtain ⟨v, hv⟩ := startReadFast_eq d _ s2 pin hstart
  have hn2 : (yields hw j s2).num_measurements = (s.num_measurements + 1) % 256 := by
    rw [yields_num_measurements, hv, ← hn1]
    simp [singleMode, clearBitFlag, My_ADC.write, saveIfInUse, enable_irq, disable_irq]
  have hcfg : (saveIfInUse true s1).1 = saveConfig s1 := by
    simp [saveIfInUse, saveConfig, disable_irq]
  have hfin := analogReadFinish_restore d (saveIfInUse true s1).1 (yields hw j s2)
  rw [hcfg] at hfin hres
  generalize analogReadFinish d true (saveConfig s1) (yields hw j s2) = F at hres hfin
  obtain ⟨r, s'⟩ := F
  obtain ⟨f1, f2, f3, f4, f5⟩ := hfin
  simp only at f1 f2 f3 f4 f5
  refine ⟨r, s', hres, ?_, ?_, ?_, ?_, ?_, ?_⟩
  · rw [f1]; rfl
  · rw [f2]; rfl
  · rw [f3]; rfl
  · rw [f4]; rfl
  · unfold isContinuous
    rw [f3]; rfl
  · rw [f5, hn2]
    omega

/-- The blocking differential read when the conversion completes: the value returned
is the signed low 16 bits of `R0`, doubled when the stored resolution is 16. -/
theorem analogReadDifferential_result (d : Defines) (hw : Hardware) (fuel k : Nat)
    (s s1 s2 : My_ADC) (pinP pinN : Nat)
    (hpins : checkDifferentialPins d s pinP pinN = .ok true)
    (hcal : waitIfCalibrating d hw fuel
      { s with num_measurements := (s.num_measurements + 1) % 256 } = .ok s1)
    (hstart : startDifferentialFast d
      (singleMode d (saveIfInUse (isConverting d s1) s1).2) pinP pinN = .ok s2)
    (hbusy : ∀ i, i < k → isConverting d (yields hw i s2) = true)
    (hend : isConverting d (yields hw k s2) = false) (hk : k ≤ fuel)
    (hcoco : isComplete d (yields hw k s2) = true) :
    ∃ r s', analogReadDifferential d hw fuel s pinP pinN = .ok (r, s') ∧
      (getResolution s = 16 → r = 2 * toInt16 ((yields hw k s2).adc_regs.R0 : Int)) ∧
      (getResolution s ≠ 16 → r = toInt16 ((yields hw k s2).adc_regs.R0 : Int)) ∧
      (getResolution s = 16 → -65536 ≤ r ∧ r ≤ 65534 ∧ r % 2 = 0) := by
  have hp := pollWhile_exit (isConverting d) hw k fuel s2 hbusy hend hk
  have hres : analogReadDifferential d hw fuel s pinP pinN =
      .ok (analogReadDifferentialFinish d (getResolution s1) (isConverting d s1)
        (saveIfInUse (isConverting d s1) s1).1 (yields hw k s2)) := by
    unfold analogReadDifferential
    rw [hpins]
    simp only
    rw [hcal]
    simp only
    unfold analogReadDifferentialConvert
    simp only
    rw [hstart]
    simp only
    unfold pollConverting
    rw [hp]
  have hbits : getResolution s1 = getResolution s := by
    have h := waitIfCalibrating_res_bits d hw fuel _ s1 hcal
    simpa [getResolution] using h
  have hfin := analogReadDifferentialFinish_result d (getResolution s1) (isConverting d s1)
    (saveIfInUse (isConverting d s1) s1).1 (yields hw k s2) hcoco
  rw [hbits] at hfin hres
  obtain ⟨r1, r2⟩ := toInt16_range ((yields hw k s2).adc_regs.R0 : Int)
  generalize analogReadDifferentialFinish d (getResolution s) (isConverting d s1)
    (saveIfInUse (isConverting d s1) s1).1 (yields hw k s2) = F at hres hfin
  obtain ⟨r, s'⟩ := F
  simp only at hfin
  refine ⟨r, s', hres, ?_, ?_, ?_⟩
  · intro h16; rw [hfin, if_pos h16]
  · intro h16; rw [hfin, if_neg h16]
  · intro h16
    rw [hfin, if_pos h16]
    omega

/-! ## The claims -/

/-- Claim C1: preemption round trip of `analogRead`. For every state `s` with an 8-bit
counter value whose calibration wait ends, and every valid pin: the wait returns a state
`s1`; if the conversion-active flag is set in `s1` (so the snapshot is taken from
`s1`), the read is started, in a state `s2`, and once the peripheral shows the flag
clear after `k` calls of `yield()` from `s2`, within the fuel, `analogRead` returns,
the registers `HC0`, `CFG`, `GC` and `GS` hold exactly the values they had in `s1` (so
the continuous-mode bit is as it was), and `num_measurements` equals its value at
entry. -/
theorem analogRead_preemption_round_trip (d : Defines) (hw : Hardware) (fuel : Nat)
    (s : My_ADC) (pin : Nat)
    (hpin : checkPin d s pin = .ok true)
    (hnum : s.num_measurements < 256)
    (hsettle : calSettles d hw fuel s) :
    ∃ s1, waitIfCalibrating d hw fuel
        { s with num_measurements := (s.num_measurements + 1) % 256 } = .ok s1 ∧
      (isConverting d s1 = true →
        ∃ s2, startReadFast d (singleMode d (saveIfInUse true s1).2) pin = .ok s2 ∧
          ∀ k, k ≤ fuel → isConverting d (yields hw k s2) = false →
            ∃ r s', analogRead d hw fuel s pin = .ok (r, s') ∧
              s'.adc_regs.HC0 = s1.adc_regs.HC0 ∧ s'.adc_regs.CFG = s1.adc_regs.CFG ∧
              s'.adc_regs.GC = s1.adc_regs.GC ∧ s'.adc_regs.GS = s1.adc_regs.GS ∧
              isContinuous d s' = isContinuous d s1 ∧
              s'.num_measurements = s.num_measurements) := by
  have hs0 : calSettles d hw fuel
      { s with num_measurements := (s.num_measurements + 1) % 256 } :=
    calSettles_congr d hw fuel s _ hsettle rfl rfl rfl
  obtain ⟨s1, h1, _, _⟩ := waitIfCalibrating_returns d hw fuel _ hs0
  refine ⟨s1, h1, ?_⟩
  intro hact
  have hn1 : s1.ADC_num = s.ADC_num := (waitIfCalibrating_ADC_num d hw fuel _ s1 h1).1
  obtain ⟨s2, h2⟩ := startReadFast_ok d s (singleMode d (saveIfInUse true s1).2) pin hpin
    (by rw [← hn1]; rfl)
  refine ⟨s2, h2, ?_⟩
  intro k hk hend
  exact analogRead_restores d hw fuel k s s1 s2 pin hpin hnum h1 hact h2 hend hk

/-- Claim C1 at a sample input: a continuous conversion runs on pin 0, a blocking read
of pin 1 interrupts it; afterwards channel 7 is selected again, the converter is in
continuous mode and one measurement is outstanding, as before. -/
theorem analogRead_preemption_round_trip_witness :
    ∃ r s', analogRead sampleDefines (finishingHw sampleDefines) 1 continuousADC 1
        = .ok (r, s') ∧
      s'.adc_regs.HC0 = 7 ∧ s'.adc_regs.CFG = 0 ∧ s'.adc_regs.GC = 0x40 ∧
      s'.adc_regs.GS = 0x01 ∧ isContinuous sampleDefines s' = true ∧
      s'.num_measurements = 1 := by
  obtain ⟨s1, h1, h⟩ :=
    analogRead_preemption_round_trip sampleDefines (finishingHw sampleDefines) 1 continuousADC 1
      rfl (by decide) (Or.inl rfl)
  have e1 : waitIfCalibrating sampleDefines (finishingHw sampleDefines) 1
      { continuousADC with num_measurements := (continuousADC.num_measurements + 1) % 256 }
      = .ok { continuousADC with num_measurements := 2 } := rfl
  rw [e1] at h1
  injection h1 with h1
  subst h1
  obtain ⟨s2, h2, h3⟩ := h rfl
  have e2 : startReadFast sampleDefines
      (singleMode sampleDefines
        (saveIfInUse true { continuousADC with num_measurements := 2 }).2) 1
      = .ok (enable_irq ((disable_irq (singleMode sampleDefines
          (saveIfInUse true { continuousADC with num_measurements := 2 }).2)).write .HC0 8)) := rfl
  rw [e2] at h2
  injection h2 with h2
  subst h2
  exact h3 1 (le_refl 1) rfl

/-- Claim C2: rejection of an invalid pin is atomic. For every state, also one with a
calibration in progress, and whatever the fuel: if `checkPin` is false then `analogRead`
returns `ADC_ERROR_VALUE`, `startSingleRead` and `startContinuous` return `false`, and
the state returned is the state at entry with the `WRONG_PIN` bit OR-ed into
`fail_flag`: no register is written (registers and log are as at entry) and
`num_measurements`, `calibrating`, `adcWasInUse` and `adc_config` keep their values. -/
theorem invalid_pin_rejected_atomically (d : Defines) (hw : Hardware) (fuel : Nat)
    (s : My_ADC) (pin : Nat) (h : checkPin d s pin = .ok false) :
    analogRead d hw fuel s pin =
        .ok (d.ADC_ERROR_VALUE, { s with fail_flag := s.fail_flag ||| d.WRONG_PIN }) ∧
      startSingleRead d hw fuel s pin =
        .ok (false, { s with fail_flag := s.fail_flag ||| d.WRONG_PIN }) ∧
      startContinuous d hw fuel s pin =
        .ok (false, { s with fail_flag := s.fail_flag ||| d.WRONG_PIN }) := by
  simp [analogRead, startSingleRead, startContinuous, h]

/-- Claim C2 at a sample input: pin 12 of converter 0, read while a calibration is in
progress and with no fuel, is rejected at once. -/
theorem invalid_pin_rejected_atomically_witness :
    analogRead sampleDefines idleHw 0 (calibrate sampleDefines sampleADC) 12 =
      .ok (-70000, { calibrate sampleDefines sampleADC with fail_flag := 4 }) :=
  (invalid_pin_rejected_atomically sampleDefines idleHw 0 (calibrate sampleDefines sampleADC)
    12 rfl).1

/-- Claim C3: `checkPin` is exactly the validity predicate. With `ADC_MAX_PIN = 27`, the
channel mask `0x1F` and the invalid code `0x1F`, for either converter and every pin:
`checkPin` returns, and it returns true iff the pin is at most `ADC_MAX_PIN` and the
low five bits of the entry of the pin in the channel table of the converter differ
from `0x1F`; the valid pins are 0-11 and 14-25 on converter 0, and 0-9, 12-13, 14-23
and 26-27 on converter 1. -/
theorem checkPin_validity_predicate (d : Defines) (s : My_ADC) (pin : Nat)
    (hmax : d.ADC_MAX_PIN = 27) (hch : d.ADC_SC1A_CHANNELS = 0x1F)
    (hinv : d.ADC_SC1A_PIN_INVALID = 0x1F) :
    (∃ b, checkPin d s pin = .ok b ∧
      (b = true ↔ pin ≤ d.ADC_MAX_PIN ∧ ∃ e, s.channel2sc1a.get? pin = some e ∧
        e &&& 0x1F ≠ 0x1F)) ∧
    (s.ADC_num = 0 →
      checkPin d s pin = .ok (decide (pin ≤ 11 ∨ (14 ≤ pin ∧ pin ≤ 25)))) ∧
    (s.ADC_num ≠ 0 →
      checkPin d s pin = .ok (decide (pin ≤ 9 ∨ (12 ≤ pin ∧ pin ≤ 13) ∨
        (14 ≤ pin ∧ pin ≤ 23) ∨ (26 ≤ pin ∧ pin ≤ 27)))) := by
  refine ⟨?_, checkPin_ADC0 d s pin hmax hch hinv, checkPin_ADC1 d s pin hmax hch hinv⟩
  have h := checkPin_spec d s pin hmax
  rw [hch, hinv] at h
  exact h

/-- Claim C3 at a sample input: pin 12 is invalid on converter 0 and valid on
converter 1. -/
theorem checkPin_validity_predicate_witness :
    checkPin sampleDefines sampleADC 12 = .ok false ∧
      checkPin sampleDefines { sampleADC with ADC_num := 1 } 12 = .ok true :=
  ⟨(checkPin_validity_predicate sampleDefines sampleADC 12 rfl rfl rfl).2.1 rfl,
   (checkPin_validity_predicate sampleDefines { sampleADC with ADC_num := 1 } 12
      rfl rfl rfl).2.2 (by decide)⟩

/-- Claim C4: the truth table of `enableCompareRange`. For every state whose calibration
wait ends, every pair of limits and each of the four combinations of `insideRange` and
`inclusive`: the call returns with the compare-enable and range-enable bits of `GC`
set, the polarity bit `ACFGT` equal to `inclusive`, and `CV` holding, through the field
macros `ADC_CV_CV1` (threshold 1) and `ADC_CV_CV2` (threshold 2), the pair
(lower, upper) when `insideRange = inclusive` and (upper, lower) otherwise. The three
flags are non-zero 32-bit masks and `ACFGT` shares no bit with the two others. -/
theorem enableCompareRange_truth_table (d : Defines) (hw : Hardware) (fuel : Nat)
    (s : My_ADC) (lowerLimit upperLimit : Int) (insideRange inclusive : Bool)
    (hsettle : calSettles d hw fuel s)
    (hACFE : d.ADC_GC_ACFE ≠ 0) (hACREN : d.ADC_GC_ACREN ≠ 0) (hACFGT : d.ADC_GC_ACFGT ≠ 0)
    (hACFE32 : d.ADC_GC_ACFE < 4294967296) (hACREN32 : d.ADC_GC_ACREN < 4294967296)
    (hd1 : d.ADC_GC_ACFE &&& d.ADC_GC_ACFGT = 0)
    (hd2 : d.ADC_GC_ACREN &&& d.ADC_GC_ACFGT = 0) :
    ∃ s', enableCompareRange d hw fuel s lowerLimit upperLimit insideRange inclusive = .ok s' ∧
      getBitFlag s'.adc_regs.GC d.ADC_GC_ACFE = true ∧
      getBitFlag s'.adc_regs.GC d.ADC_GC_ACREN = true ∧
      getBitFlag s'.adc_regs.GC d.ADC_GC_ACFGT = inclusive ∧
      (insideRange = true → inclusive = true →
        s'.adc_regs.CV = d.ADC_CV_CV1 lowerLimit ||| d.ADC_CV_CV2 upperLimit) ∧
      (insideRange = true → inclusive = false →
        s'.adc_regs.CV = d.ADC_CV_CV1 upperLimit ||| d.ADC_CV_CV2 lowerLimit) ∧
      (insideRange = false → inclusive = true →
        s'.adc_regs.CV = d.ADC_CV_CV1 upperLimit ||| d.ADC_CV_CV2 lowerLimit) ∧
      (insideRange = false → inclusive = false →
        s'.adc_regs.CV = d.ADC_CV_CV1 lowerLimit ||| d.ADC_CV_CV2 upperLimit) := by
  obtain ⟨s1, h1, _, _⟩ := waitIfCalibrating_returns d hw fuel s hsettle
  refine ⟨enableCompareRangeBody d s1 lowerLimit upperLimit insideRange inclusive, ?_, ?_, ?_,
    ?_, ?_, ?_, ?_, ?_⟩
  · unfold enableCompareRange
    rw [h1]
  · rw [enableCompareRangeBody_GC]
    have hset : getBitFlag ((s1.adc_regs.GC ||| d.ADC_GC_ACFE) ||| d.ADC_GC_ACREN)
        d.ADC_GC_ACFE = true :=
      getBitFlag_or_mono _ _ _ (getBitFlag_or_self _ _ hACFE)
    cases inclusive
    · simp only [Bool.false_eq_true, if_false]
      rw [getBitFlag_clear_other _ _ _ hACFE32 hd1]
      exact hset
    · simp only [if_true]
      exact getBitFlag_or_mono _ _ _ hset
  · rw [enableCompareRangeBody_GC]
    have hset : getBitFlag ((s1.adc_regs.GC ||| d.ADC_GC_ACFE) ||| d.ADC_GC_ACREN)
        d.ADC_GC_ACREN = true := getBitFlag_or_self _ _ hACREN
    cases inclusive
    · simp only [Bool.false_eq_true, if_false]
      rw [getBitFlag_clear_other _ _ _ hACREN32 hd2]
      exact hset
    · simp only [if_true]
      exact getBitFlag_or_mono _ _ _ hset
  · rw [enableCompareRangeBody_GC]
    cases inclusive
    · simp only [Bool.false_eq_true, if_false]
      exact getBitFlag_clear_self _ _
    · simp only [if_true]
      exact getBitFlag_or_self _ _ hACFGT
  · intro hi hc; rw [enableCompareRangeBody_CV, hi, hc]; rfl
  · intro hi hc; rw [enableCompareRangeBody_CV, hi, hc]; rfl
  · intro hi hc; rw [enableCompareRangeBody_CV, hi, hc]; rfl
  · intro hi hc; rw [enableCompareRangeBody_CV, hi, hc]; rfl

/-- Claim C4 at a sample input: the range 100..200, inside and exclusive, puts 200 in
threshold 1 and 100 in threshold 2 and clears the polarity bit. -/
theorem enableCompareRange_truth_table_witness :
    ∃ s', enableCompareRange sampleDefines idleHw 0 sampleADC 100 200 true false = .ok s' ∧
      s'.adc_regs.CV = 200 ||| (100 <<< 16) ∧
      getBitFlag s'.adc_regs.GC sampleDefines.ADC_GC_ACFGT = false := by
  obtain ⟨s', h, _, _, hpol, _, hcv, _, _⟩ :=
    enableCompareRange_truth_table sampleDefines idleHw 0 sampleADC 100 200 true false
      (Or.inl rfl) (by decide) (by decide) (by decide) (by decide) (by decide)
      (by decide) (by decide)
  exact ⟨s', h, hcv rfl rfl, hpol⟩

/-- Claim C5: the calibration-failure scenario. For every state: once the peripheral
shows `GC.CAL` clear (after `k` calls of `yield()`, within the fuel), `wait_for_cal`
returns, and so does `recalibrate` when the state is the one `calibrate` produced. The
state returned is the state at entry with `calibrating = 0`, with the registers as the
peripheral left them at the exit of the loop (the wait itself writes no register: the
log is as at entry), and with `fail_flag` OR-ed with `CALIB` if `GS.CALF` is set then,
unchanged otherwise; no bit of `fail_flag` outside `CALIB` changes. A following
`analogRead` on a valid pin goes on to the conversion instead of being rejected. -/
theorem calibration_failure_scenario (d : Defines) (hw : Hardware) (k fuel : Nat)
    (s : My_ADC)
    (hclear : getBitFlag (yields hw k s).adc_regs.GC d.ADC_GC_CAL = false) (hk : k ≤ fuel) :
    ∃ j s', j ≤ k ∧ wait_for_cal d hw fuel s = .ok s' ∧
      s' = { s with
        calibrating := 0
        fail_flag := if getBitFlag (yields hw j s).adc_regs.GS d.ADC_GS_CALF then
            s.fail_flag ||| d.CALIB
          else s.fail_flag
        adc_regs := (yields hw j s).adc_regs
        ticks := s.ticks + j } ∧
      (∀ i, d.CALIB.testBit i = false → s'.fail_flag.testBit i = s.fail_flag.testBit i) ∧
      (∀ s0, calibrate d s0 = s → recalibrate d hw fuel s0 = .ok s') ∧
      (∀ pin fuel2, checkPin d s pin = .ok true →
        analogRead d hw fuel2 s' pin = analogReadConvert d hw fuel2
          { s' with num_measurements := (s'.num_measurements + 1) % 256 } pin) := by
  obtain ⟨j, hj, _, hw1⟩ := wait_for_cal_returns d hw k fuel s hclear hk
  refine ⟨j, calDone d (yields hw j s), hj, hw1, calDone_yields d hw j s, ?_, ?_, ?_⟩
  · intro i hi
    rw [calDone_yields]
    show (if getBitFlag (yields hw j s).adc_regs.GS d.ADC_GS_CALF then
        s.fail_flag ||| d.CALIB else s.fail_flag).testBit i = s.fail_flag.testBit i
    split
    · exact testBit_or_other _ _ i hi
    · rfl
  · intro s0 h0
    unfold recalibrate
    rw [h0, hw1]
  · intro pin fuel2 hpin
    have hnum : (calDone d (yields hw j s)).ADC_num = s.ADC_num := by rw [calDone_yields]
    have hcal : (calDone d (yields hw j s)).calibrating = 0 := by rw [calDone_eq]
    unfold analogRead
    rw [checkPin_congr d s _ pin hnum, hpin]
    simp [waitIfCalibrating, hcal]

/-- Claim C5 at a sample input: a calibration is started, the peripheral ends it during
the first `yield()` and reports a failure; `recalibrate` returns with `calibrating`
clear and the `CALIB` bit recorded. -/
theorem calibration_failure_scenario_witness :
    ∃ s', recalibrate sampleDefines (failingCalHw sampleDefines) 1 sampleADC = .ok s' ∧
      s'.calibrating = 0 ∧ s'.fail_flag = sampleDefines.CALIB := by
  obtain ⟨j, s', _, _, _, _, hre, _⟩ :=
    calibration_failure_scenario sampleDefines (failingCalHw sampleDefines) 1 1
      (calibrate sampleDefines sampleADC) rfl (le_refl 1)
  have h1 := hre sampleADC rfl
  have h2 : recalibrate sampleDefines (failingCalHw sampleDefines) 1 sampleADC =
      .ok (calDone sampleDefines (yields (failingCalHw sampleDefines) 1
        (calibrate sampleDefines sampleADC))) := rfl
  rw [h2] at h1
  injection h1 with h1
  subst h1
  exact ⟨_, h2, rfl, rfl⟩

/-- Claim C6: `calibrate` is a state change that does not wait. For every state it
returns (it has no loop) with `calibrating = 1`, the flag `GS.CALF` reading clear and
the flag `GC.CAL` reading set; every bit 0..31 of `GS` outside `CALF` and every bit of
`GC` outside `CAL` is as before, every other register is as before, and so are
`fail_flag`, `num_measurements` and every other member. -/
theorem calibrate_state_change (d : Defines) (s : My_ADC) (hcal : d.ADC_GC_CAL ≠ 0) :
    (calibrate d s).calibrating = 1 ∧
    getBitFlag (calibrate d s).adc_regs.GS d.ADC_GS_CALF = false ∧
    getBitFlag (calibrate d s).adc_regs.GC d.ADC_GC_CAL = true ∧
    (∀ i, i < 32 → d.ADC_GS_CALF.testBit i = false →
      (calibrate d s).adc_regs.GS.testBit i = s.adc_regs.GS.testBit i) ∧
    (∀ i, d.ADC_GC_CAL.testBit i = false →
      (calibrate d s).adc_regs.GC.testBit i = s.adc_regs.GC.testBit i) ∧
    (calibrate d s).adc_regs = { s.adc_regs with
      GS := (calibrate d s).adc_regs.GS, GC := (calibrate d s).adc_regs.GC } ∧
    { calibrate d s with calibrating := s.calibrating, adc_regs := s.adc_regs, log := s.log }
      = s := by
  rw [calibrate_eq]
  refine ⟨rfl, getBitFlag_clear_self _ _, getBitFlag_or_self _ _ hcal, ?_, ?_, rfl, rfl⟩
  · intro i hi h
    exact testBit_clear_other _ _ i hi h
  · intro i h
    exact testBit_or_other _ _ i h

/-- Claim C6 at a sample input: on the idle instance `calibrate` sets `calibrating` and
the calibration bit `0x80` of `GC`. -/
theorem calibrate_state_change_witness :
    (calibrate sampleDefines sampleADC).calibrating = 1 ∧
      (calibrate sampleDefines sampleADC).adc_regs.GC = 0x80 :=
  ⟨(calibrate_state_change sampleDefines sampleADC (by decide)).1, rfl⟩

/-- Claim C7: the rounding rule of `setAveraging`. For every state whose calibration wait
ends and every request `n`, the call returns and the stored averaging value is 0 when
`n ≤ 1`, 4 when `2 ≤ n ≤ 4`, 8 when `5 ≤ n ≤ 8`, 16 when `9 ≤ n ≤ 16` and 32 when
`n ≥ 17`; it is a member of {0, 4, 8, 16, 32}; the averaging-enable bit `GC.AVGE` reads
set iff `n ≥ 2`; and calling `setAveraging` again with the stored value stores the
same value. -/
theorem setAveraging_rounding_rule (d : Defines) (hw : Hardware) (fuel : Nat) (s : My_ADC)
    (n : Nat) (hsettle : calSettles d hw fuel s) (havge : d.ADC_GC_AVGE ≠ 0) :
    ∃ s', setAveraging d hw fuel s n = .ok s' ∧
      (n ≤ 1 → s'.analog_num_average = 0) ∧
      (2 ≤ n → n ≤ 4 → s'.analog_num_average = 4) ∧
      (5 ≤ n → n ≤ 8 → s'.analog_num_average = 8) ∧
      (9 ≤ n → n ≤ 16 → s'.analog_num_average = 16) ∧
      (17 ≤ n → s'.analog_num_average = 32) ∧
      s'.analog_num_average ∈ [0, 4, 8, 16, 32] ∧
      (getBitFlag s'.adc_regs.GC d.ADC_GC_AVGE = true ↔ 2 ≤ n) ∧
      (∀ fuel2, ∃ s'', setAveraging d hw fuel2 s' s'.analog_num_average = .ok s'' ∧
        s''.analog_num_average = s'.analog_num_average) := by
  obtain ⟨s1, _, hc1, _, hset⟩ := setAveraging_returns d hw fuel s n hsettle
  refine ⟨setAveragingBody d s1 n, hset, ?_, ?_, ?_, ?_, ?_, ?_, ?_, ?_⟩
  · intro h; rw [setAveragingBody_average]; simp [h]
  · intro h1 h2; rw [setAveragingBody_average]
    rw [if_neg (by omega), if_pos h2]
  · intro h1 h2; rw [setAveragingBody_average]
    rw [if_neg (by omega), if_neg (by omega), if_pos h2]
  · intro h1 h2; rw [setAveragingBody_average]
    rw [if_neg (by omega), if_neg (by omega), if_neg (by omega), if_pos h2]
  · intro h1; rw [setAveragingBody_average]
    rw [if_neg (by omega), if_neg (by omega), if_neg (by omega), if_neg (by omega)]
  · rw [setAveragingBody_average]
    split
    · simp
    · split
      · simp
      · split
        · simp
        · split <;> simp
  · rw [setAveragingBody_GC]
    by_cases h : n ≤ 1
    · rw [if_pos h, getBitFlag_clear_self]
      constructor
      · intro hf; exact absurd hf Bool.false_ne_true
      · intro h2; omega
    · rw [if_neg h, getBitFlag_or_self _ _ havge]
      constructor
      · intro _; omega
      · intro _; rfl
  · intro fuel2
    have hc : (setAveragingBody d s1 n).calibrating = 0 := by
      rw [setAveragingBody_calibrating, hc1]
    refine ⟨setAveragingBody d (setAveragingBody d s1 n)
      (setAveragingBody d s1 n).analog_num_average, ?_, ?_⟩
    · unfold setAveraging waitIfCalibrating
      simp [hc]
    · rw [setAveragingBody_average d (setAveragingBody d s1 n)]
      rw [setAveragingBody_average d s1 n]
      split
      · rfl
      · split
        · rfl
        · split
          · rfl
          · split <;> rfl

/-- Claim C7 at a sample input: a request of 5 stores 8. -/
theorem setAveraging_rounding_rule_witness :
    ∃ s', setAveraging sampleDefines idleHw 0 sampleADC 5 = .ok s' ∧
      s'.analog_num_average = 8 := by
  obtain ⟨s', h, _, _, h8, _⟩ :=
    setAveraging_rounding_rule sampleDefines idleHw 0 sampleADC 5 (Or.inl rfl) (by decide)
  exact ⟨s', h, h8 (by decide) (by decide)⟩

/-- Claim C8, as stated, fails: a request of 1 stores 0, which is not at least 1, so the
stored value is not the smallest supported value that is at least the request. -/
theorem setAveraging_request_one_stores_zero :
    ∃ s', setAveraging sampleDefines idleHw 0 sampleADC 1 = .ok s' ∧
      s'.analog_num_average = 0 ∧ ¬ (1 ≤ s'.analog_num_average) :=
  ⟨_, rfl, rfl, by decide⟩

/-- Claim C8, amended: for every state whose calibration wait ends and every request `n`
with `n = 0` or `2 ≤ n ≤ 32`, after `setAveraging(n)` the stored averaging value is
the smallest supported value in {0, 4, 8, 16, 32} that is at least `n`; a request of 1
stores 0 and a request above 32 stores 32. -/
theorem setAveraging_smallest_supported (d : Defines) (hw : Hardware) (fuel : Nat)
    (s : My_ADC) (n : Nat) (hsettle : calSettles d hw fuel s) :
    ∃ s', setAveraging d hw fuel s n = .ok s' ∧
      (n = 0 ∨ (2 ≤ n ∧ n ≤ 32) →
        s'.analog_num_average ∈ [0, 4, 8, 16, 32] ∧ n ≤ s'.analog_num_average ∧
        ∀ v, v ∈ [0, 4, 8, 16, 32] → n ≤ v → s'.analog_num_average ≤ v) ∧
      (n = 1 → s'.analog_num_average = 0) ∧
      (32 < n → s'.analog_num_average = 32) := by
  obtain ⟨s1, _, _, _, hset⟩ := setAveraging_returns d hw fuel s n hsettle
  refine ⟨setAveragingBody d s1 n, hset, ?_, ?_, ?_⟩
  · intro hn
    rw [setAveragingBody_average]
    refine ⟨?_, ?_, ?_⟩
    · split
      · simp
      · split
        · simp
        · split
          · simp
          · split <;> simp
    · split_ifs <;> omega
    · intro v hv hle
      simp only [List.mem_cons, List.mem_singleton, List.not_mem_nil, or_false] at hv
      split_ifs <;> omega
  · intro h1; rw [setAveragingBody_average]; simp [h1]
  · intro h1; rw [setAveragingBody_average]
    rw [if_neg (by omega), if_neg (by omega), if_neg (by omega), if_neg (by omega)]

/-- Claim C8, amended, at a sample input: a request of 9 stores 16, a supported value
that is at least 9. -/
theorem setAveraging_smallest_supported_witness :
    ∃ s', setAveraging sampleDefines idleHw 0 sampleADC 9 = .ok s' ∧
      s'.analog_num_average ∈ [0, 4, 8, 16, 32] ∧ 9 ≤ s'.analog_num_average := by
  obtain ⟨s', h, hle, _, _⟩ :=
    setAveraging_smallest_supported sampleDefines idleHw 0 sampleADC 9 (Or.inl rfl)
  exact ⟨s', h, (hle (Or.inr (by decide))).1, (hle (Or.inr (by decide))).2.1⟩

/-- Claim C9 on the code: the constructor and `analog_init` assign neither the resolution
nor the maximum value, so an instance built on memory that holds the resolution 8 and
the maximum 0 starts with these values; on it `setResolution(8)` returns at its guard,
and afterwards `getResolution()` is 8 while `getMaxValue()` is 0, not `2^8 - 1 = 255`. -/
theorem setResolution_same_bits_keeps_max :
    ∃ s', setResolution sampleDefines idleHw 0
        (My_ADC.ctor sampleDefines { sampleADC with analog_res_bits := 8 } 0) 8 = .ok s' ∧
      getResolution s' = 8 ∧ getMaxValue s' = 0 ∧ getMaxValue s' ≠ 2 ^ 8 - 1 :=
  ⟨_, rfl, rfl, rfl, by decide⟩

/-- The method `setResolution` away from its guard. For every state whose calibration
wait ends and every `bits` in {8, 10, 12}: when the stored resolution differs from
`bits`, or the stored maximum already is `2^bits - 1`, `setResolution(bits)` returns
and afterwards `getResolution()` is `bits` and `getMaxValue()` is exactly
`2^bits - 1`; when the stored resolution equals `bits`, the call returns at once with
the state unchanged, so `getMaxValue()` keeps the value it had. -/
theorem setResolution_new_bits_sets_max (d : Defines) (hw : Hardware) (fuel : Nat)
    (s : My_ADC) (bits : Nat) (hbits : bits = 8 ∨ bits = 10 ∨ bits = 12)
    (hsettle : calSettles d hw fuel s) :
    (s.analog_res_bits ≠ bits ∨ getMaxValue s = 2 ^ bits - 1 →
      ∃ s', setResolution d hw fuel s bits = .ok s' ∧ getResolution s' = bits ∧
        getMaxValue s' = 2 ^ bits - 1) ∧
    (s.analog_res_bits = bits → setResolution d hw fuel s bits = .ok s) := by
  have hsame : s.analog_res_bits = bits → setResolution d hw fuel s bits = .ok s := by
    intro heq
    unfold setResolution
    rw [if_pos heq]
  refine ⟨?_, hsame⟩
  intro hstate
  by_cases hne : s.analog_res_bits = bits
  · rcases hstate with h | h
    · exact absurd hne h
    · exact ⟨s, hsame hne, hne, h⟩
  · obtain ⟨s1, h1, _, _⟩ := waitIfCalibrating_returns d hw fuel s hsettle
    refine ⟨setResolutionBody d s1 bits, ?_, rfl, ?_⟩
    · unfold setResolution
      rw [if_neg hne, h1]
    · unfold getMaxValue
      rw [setResolutionBody_max]
      rcases hbits with h | h | h <;> subst h <;> rfl

/-- On the idle instance (resolution 0) `setResolution(10)` gives the maximum 1023. -/
theorem setResolution_new_bits_sets_max_witness :
    ∃ s', setResolution sampleDefines idleHw 0 sampleADC 10 = .ok s' ∧
      getResolution s' = 10 ∧ getMaxValue s' = 1023 :=
  (setResolution_new_bits_sets_max sampleDefines idleHw 0 sampleADC 10
    (Or.inr (Or.inl rfl)) (Or.inl rfl)).1 (Or.inl (by decide))

/-! ## The channel register -/

/-- The value `channel + interrupts_enabled * ADC_HC_AIEN` written to `HC0`, when the
interrupt bit lies above the five channel bits: the low five bits are the channel and
the interrupt bit reads as `interrupts_enabled`. -/
theorem hc0_fields (x a : Nat) (b : Bool) (hx : x < 32) (ha0 : a ≠ 0) (ha : a % 32 = 0)
    (ha32 : a < 4294967296) :
    ((x + b.toNat * a) % 4294967296) &&& 0x1F = x ∧
      getBitFlag ((x + b.toNat * a) % 4294967296) a = b := by
  have hmask : ∀ v : Nat, v &&& 0x1F = v % 32 := fun v => by
    simpa using Nat.and_pow_two_sub_one_eq_mod v 5
  obtain ⟨q, hq⟩ : ∃ q, a = 2 ^ 5 * q := ⟨a / 32, by omega⟩
  have hxa : ∀ i, x.testBit i = true → a.testBit i = false := by
    intro i hi
    have hi5 : i < 5 := by
      by_contra hge
      have hlt : x < 2 ^ i := lt_of_lt_of_le hx (by
        have : (2 : Nat) ^ 5 ≤ 2 ^ i := Nat.pow_le_pow_right (by norm_num) (by omega)
        simpa using this)
      rw [Nat.testBit_lt_two_pow hlt] at hi
      exact Bool.false_ne_true hi
    rw [hq, Nat.testBit_mul_pow_two]
    simp [hi5]
  cases b with
  | false =>
    have e : (x + false.toNat * a) % 4294967296 = x := by
      simp only [Bool.toNat_false, Nat.zero_mul, Nat.add_zero]
      exact Nat.mod_eq_of_lt (by omega)
    rw [e]
    refine ⟨by rw [hmask]; exact Nat.mod_eq_of_lt hx, ?_⟩
    rw [← Bool.not_eq_true, getBitFlag_eq_true_iff]
    rintro ⟨i, hxi, hai⟩
    rw [hxa i hxi] at hai
    exact Bool.false_ne_true hai
  | true =>
    have e : (x + true.toNat * a) % 4294967296 = x + a := by
      simp only [Bool.toNat_true, Nat.one_mul]
      exact Nat.mod_eq_of_lt (by omega)
    rw [e]
    refine ⟨by rw [hmask]; omega, ?_⟩
    have hor : x + a = 2 ^ 5 * q ||| x := by
      rw [hq, Nat.add_comm]
      exact Nat.mul_add_lt_is_or (by simpa using hx) q
    rw [getBitFlag_eq_true_iff]
    obtain ⟨i, hi⟩ := Nat.ne_zero_implies_bit_true ha0
    refine ⟨i, ?_, hi⟩
    rw [hor, Nat.testBit_or, ← hq, hi, Bool.true_or]

/-- The state `stopContinuous` returns. -/
theorem stopContinuous_eq (d : Defines) (s : My_ADC) :
    stopContinuous d s =
      { s with
        adc_regs := { s.adc_regs with
          HC0 := (d.ADC_SC1A_PIN_INVALID + s.interrupts_enabled.toNat * d.ADC_HC_AIEN)
            % 4294967296 }
        log := s.log ++ [Event.write .HC0
          ((d.ADC_SC1A_PIN_INVALID + s.interrupts_enabled.toNat * d.ADC_HC_AIEN)
            % 4294967296)]
        num_measurements := if s.num_measurements > 0 then (s.num_measurements + 255) % 256
          else s.num_measurements } := by
  unfold stopContinuous
  by_cases h : s.num_measurements > 0
  · simp [My_ADC.write, ADC_REGS_t.set, h]
  · simp [My_ADC.write, ADC_REGS_t.set, h]

/-- Claim C15: `stopContinuous`. With the invalid code `0x1F` and the interrupt bit a
non-zero 32-bit mask above the five channel bits, for every state with an 8-bit counter
value: after the call the low five bits of `HC0` are `0x1F` and the interrupt bit of
`HC0` reads as `interrupts_enabled`; `num_measurements` is one less when it was
positive and stays 0 when it was 0; `CFG`, `GC` (so the continuous-mode bit),
`fail_flag` and `calibrating` are unchanged. -/
theorem stopContinuous_effect (d : Defines) (s : My_ADC)
    (hinv : d.ADC_SC1A_PIN_INVALID = 0x1F)
    (ha0 : d.ADC_HC_AIEN ≠ 0) (ha : d.ADC_HC_AIEN % 32 = 0)
    (ha32 : d.ADC_HC_AIEN < 4294967296) (hnum : s.num_measurements < 256) :
    (stopContinuous d s).adc_regs.HC0 &&& 0x1F = 0x1F ∧
    getBitFlag (stopContinuous d s).adc_regs.HC0 d.ADC_HC_AIEN = s.interrupts_enabled ∧
    (0 < s.num_measurements →
      (stopContinuous d s).num_measurements = s.num_measurements - 1) ∧
    (s.num_measurements = 0 → (stopContinuous d s).num_measurements = 0) ∧
    (stopContinuous d s).adc_regs.CFG = s.adc_regs.CFG ∧
    (stopContinuous d s).adc_regs.GC = s.adc_regs.GC ∧
    isContinuous d (stopContinuous d s) = isContinuous d s ∧
    (stopContinuous d s).fail_flag = s.fail_flag ∧
    (stopContinuous d s).calibrating = s.calibrating := by
  rw [stopContinuous_eq, hinv]
  obtain ⟨h1, h2⟩ := hc0_fields 0x1F d.ADC_HC_AIEN s.interrupts_enabled (by norm_num) ha0 ha ha32
  refine ⟨h1, h2, ?_, ?_, rfl, rfl, rfl, rfl, rfl⟩
  · intro hpos
    show (if s.num_measurements > 0 then (s.num_measurements + 255) % 256
      else s.num_measurements) = s.num_measurements - 1
    rw [if_pos hpos]
    omega
  · intro h0
    show (if s.num_measurements > 0 then (s.num_measurements + 255) % 256
      else s.num_measurements) = 0
    rw [if_neg (by omega), h0]

/-- Claim C15 at a sample input: stopping the continuous conversion of the sample
instance disables the channel and brings the counter from 1 to 0; a second stop leaves
it 0. -/
theorem stopContinuous_effect_witness :
    (stopContinuous sampleDefines continuousADC).adc_regs.HC0 &&& 0x1F = 0x1F ∧
      (stopContinuous sampleDefines continuousADC).num_measurements = 0 ∧
      (stopContinuous sampleDefines
        (stopContinuous sampleDefines continuousADC)).num_measurements = 0 :=
  ⟨(stopContinuous_effect sampleDefines continuousADC rfl (by decide) (by decide) (by decide)
      (by decide)).1,
   (stopContinuous_effect sampleDefines continuousADC rfl (by decide) (by decide) (by decide)
      (by decide)).2.2.1 (by decide),
   (stopContinuous_effect sampleDefines (stopContinuous sampleDefines continuousADC) rfl
      (by decide) (by decide) (by decide) (by decide)).2.2.2.1 rfl⟩

/-! ## Starting a conversion on a valid pin -/

/-- The calibration wait of a method, by cases: with no calibration in progress the
state is returned as it is; otherwise the state returned is the one at the first
`yield()` count with the calibration bit clear, with `calibrating` cleared and `CALIB`
recorded if the failure bit is set. -/
theorem waitIfCalibrating_cases (d : Defines) (hw : Hardware) (fuel : Nat) (s : My_ADC)
    (h : calSettles d hw fuel s) :
    ∃ s1, waitIfCalibrating d hw fuel s = .ok s1 ∧
      ((s.calibrating = 0 ∧ s1 = s) ∨
       (s.calibrating ≠ 0 ∧ ∃ j, j ≤ fuel ∧
          getBitFlag (yields hw j s).adc_regs.GC d.ADC_GC_CAL = false ∧
          s1 = { s with
            calibrating := 0
            fail_flag := if getBitFlag (yields hw j s).adc_regs.GS d.ADC_GS_CALF then
                s.fail_flag ||| d.CALIB
              else s.fail_flag
            adc_regs := (yields hw j s).adc_regs
            ticks := s.ticks + j })) := by
  unfold waitIfCalibrating
  by_cases hc : s.calibrating = 0
  · exact ⟨s, by simp [hc], Or.inl ⟨hc, rfl⟩⟩
  · rcases h with h | ⟨k, hk, hclear⟩
    · exact absurd h hc
    · obtain ⟨j, hj, hcl, hw1⟩ := wait_for_cal_returns d hw k fuel s hclear hk
      exact ⟨calDone d (yields hw j s), by simp [hc, hw1],
        Or.inr ⟨hc, j, le_trans hj hk, hcl, calDone_yields d hw j s⟩⟩

/-- What the calibration wait of a method leaves alone, and what it does to
`calibrating` and `fail_flag`. -/
theorem waitIfCalibrating_frame (d : Defines) (hw : Hardware) (fuel : Nat) (s : My_ADC)
    (h : calSettles d hw fuel s) :
    ∃ s1, waitIfCalibrating d hw fuel s = .ok s1 ∧ s1.calibrating = 0 ∧
      (s1.fail_flag = s.fail_flag ∨ s1.fail_flag = s.fail_flag ||| d.CALIB) ∧
      (s.calibrating = 0 → s1 = s) ∧
      s1.ADC_num = s.ADC_num ∧ s1.interrupts_enabled = s.interrupts_enabled ∧
      s1.num_measurements = s.num_measurements ∧ s1.log = s.log ∧
      s1.adc_config = s.adc_config ∧ s1.adcWasInUse = s.adcWasInUse ∧
      (s.calibrating ≠ 0 → getBitFlag s1.adc_regs.GC d.ADC_GC_CAL = false) := by
  obtain ⟨s1, h1, hcase⟩ := waitIfCalibrating_cases d hw fuel s h
  refine ⟨s1, h1, ?_⟩
  rcases hcase with ⟨hc, rfl⟩ | ⟨hc, j, _, hcl, rfl⟩
  · exact ⟨hc, Or.inl rfl, fun _ => rfl, rfl, rfl, rfl, rfl, rfl, rfl, fun h => absurd hc h⟩
  · refine ⟨rfl, ?_, fun h => absurd h hc, rfl, rfl, rfl, rfl, rfl, rfl, fun _ => hcl⟩
    show (if getBitFlag (yields hw j s).adc_regs.GS d.ADC_GS_CALF then
        s.fail_flag ||| d.CALIB else s.fail_flag) = s.fail_flag ∨
      (if getBitFlag (yields hw j s).adc_regs.GS d.ADC_GS_CALF then
        s.fail_flag ||| d.CALIB else s.fail_flag) = s.fail_flag ||| d.CALIB
    split
    · exact Or.inr rfl
    · exact Or.inl rfl

/-- A pin that `checkPin` accepts has an entry in the channel table whose channel bits
are not the invalid code. -/
theorem checkPin_true_entry (d : Defines) (s : My_ADC) (pin : Nat)
    (hpin : checkPin d s pin = .ok true) :
    ∃ e, s.channel2sc1a.get? pin = some e ∧
      e &&& d.ADC_SC1A_CHANNELS ≠ d.ADC_SC1A_PIN_INVALID := by
  unfold checkPin My_ADC.channel2sc1aAt at hpin
  by_cases hp : pin > d.ADC_MAX_PIN
  · simp [hp] at hpin
  · simp only [hp, if_false] at hpin
    cases hg : s.channel2sc1a.get? pin with
    | none => rw [hg] at hpin; simp at hpin
    | some e =>
      rw [hg] at hpin
      refine ⟨e, rfl, ?_⟩
      intro heq
      simp [heq] at hpin

/-- The state `startReadFast` returns on a pin with the table entry `e`. -/
theorem startReadFast_value (d : Defines) (t : My_ADC) (pin e : Nat)
    (he : t.channel2sc1a.get? pin = some e) :
    startReadFast d t pin = .ok { t with
      adc_regs := { t.adc_regs with
        HC0 := ((e &&& d.ADC_SC1A_CHANNELS) + t.interrupts_enabled.toNat * d.ADC_HC_AIEN)
          % 4294967296 }
      log := t.log ++ [Event.irqOff,
        Event.write .HC0
          (((e &&& d.ADC_SC1A_CHANNELS) + t.interrupts_enabled.toNat * d.ADC_HC_AIEN)
            % 4294967296),
        Event.irqOn] } := by
  unfold startReadFast My_ADC.channel2sc1aAt
  rw [he]
  simp [disable_irq, enable_irq, My_ADC.write, ADC_REGS_t.set]

/-- The channel table is chosen by the converter number. -/
theorem channel2sc1a_congr (s t : My_ADC) (h : t.ADC_num = s.ADC_num) :
    t.channel2sc1a = s.channel2sc1a := by
  unfold My_ADC.channel2sc1a
  rw [h]

/-- The members and registers after `startReadFast` on a pin with the table entry `e`:
only `HC0` and the log change. -/
theorem startReadFast_fields (d : Defines) (t : My_ADC) (pin e : Nat)
    (he : t.channel2sc1a.get? pin = some e) :
    ∃ s2, startReadFast d t pin = .ok s2 ∧
      s2.adc_regs.HC0 = ((e &&& d.ADC_SC1A_CHANNELS)
        + t.interrupts_enabled.toNat * d.ADC_HC_AIEN) % 4294967296 ∧
      s2.adc_regs.GC = t.adc_regs.GC ∧ s2.adc_regs.CFG = t.adc_regs.CFG ∧
      s2.adc_regs.GS = t.adc_regs.GS ∧
      s2.calibrating = t.calibrating ∧ s2.num_measurements = t.num_measurements ∧
      s2.fail_flag = t.fail_flag ∧ s2.adcWasInUse = t.adcWasInUse ∧
      s2.adc_config = t.adc_config :=
  ⟨_, startReadFast_value d t pin e he, rfl, rfl, rfl, rfl, rfl, rfl, rfl, rfl, rfl⟩

/-- Claim C16: `startContinuous` on a valid pin. With the channel mask and the invalid
code `0x1F`, the interrupt bit a non-zero 32-bit mask above the five channel bits and
a non-zero continuous-mode mask, for every state whose calibration wait ends and every
pin that `checkPin` accepts: the call returns true with the continuous-mode bit
`GC.ADCO` reading set, the low five bits of `HC0` equal to the low five bits of the
table entry of the pin (hence not `0x1F`), the interrupt bit of `HC0` reading as
`interrupts_enabled`, `calibrating = 0` and `num_measurements` incremented once modulo
256; `fail_flag` is as at entry, or as at entry with `CALIB` OR-ed in by the calibration
wait, so it gains no `WRONG_PIN` bit. -/
theorem startContinuous_valid_pin (d : Defines) (hw : Hardware) (fuel : Nat) (s : My_ADC)
    (pin : Nat)
    (hpin : checkPin d s pin = .ok true) (hsettle : calSettles d hw fuel s)
    (hch : d.ADC_SC1A_CHANNELS = 0x1F) (hinv : d.ADC_SC1A_PIN_INVALID = 0x1F)
    (ha0 : d.ADC_HC_AIEN ≠ 0) (ha : d.ADC_HC_AIEN % 32 = 0)
    (ha32 : d.ADC_HC_AIEN < 4294967296) (hadco : d.ADC_GC_ADCO ≠ 0) :
    ∃ s', startContinuous d hw fuel s pin = .ok (true, s') ∧
      isContinuous d s' = true ∧
      (∃ e, s.channel2sc1a.get? pin = some e ∧ s'.adc_regs.HC0 &&& 0x1F = e &&& 0x1F) ∧
      s'.adc_regs.HC0 &&& 0x1F ≠ 0x1F ∧
      getBitFlag s'.adc_regs.HC0 d.ADC_HC_AIEN = s.interrupts_enabled ∧
      s'.calibrating = 0 ∧
      s'.num_measurements = (s.num_measurements + 1) % 256 ∧
      (s'.fail_flag = s.fail_flag ∨ s'.fail_flag = s.fail_flag ||| d.CALIB) ∧
      (s.calibrating = 0 → s'.fail_flag = s.fail_flag) ∧
      (d.WRONG_PIN &&& d.CALIB = 0 →
        getBitFlag s'.fail_flag d.WRONG_PIN = getBitFlag s.fail_flag d.WRONG_PIN) := by
  obtain ⟨s1, h1, hc1, hff, hsame, hnum1, hie, hn, _, _, _, _⟩ :=
    waitIfCalibrating_frame d hw fuel s hsettle
  obtain ⟨e, he, hvalid⟩ := checkPin_true_entry d s pin hpin
  have he' : (continuousMode d
      { s1 with num_measurements := (s1.num_measurements + 1) % 256 }).channel2sc1a.get? pin
      = some e := by
    rw [channel2sc1a_congr s _ (by rw [← hnum1]; rfl)]
    exact he
  obtain ⟨s2, hstart, g1, g2, _, _, g3, g4, g5, _, _⟩ := startReadFast_fields d _ pin e he'
  have hx : e &&& 0x1F < 32 := lt_of_le_of_lt Nat.and_le_right (by norm_num)
  obtain ⟨f1, f2⟩ := hc0_fields (e &&& 0x1F) d.ADC_HC_AIEN s.interrupts_enabled hx ha0 ha ha32
  have g1' : s2.adc_regs.HC0 = ((e &&& 0x1F) + s.interrupts_enabled.toNat * d.ADC_HC_AIEN)
      % 4294967296 := by
    rw [g1, hch]
    show ((e &&& 0x1F) + s1.interrupts_enabled.toNat * d.ADC_HC_AIEN) % 4294967296 = _
    rw [hie]
  have g5' : s2.fail_flag = s1.fail_flag := g5
  refine ⟨s2, ?_, ?_, ⟨e, he, ?_⟩, ?_, ?_, ?_, ?_, ?_, ?_, ?_⟩
  · unfold startContinuous
    rw [hpin]
    simp only
    rw [h1]
    simp only
    rw [hstart]
  · unfold isContinuous
    rw [g2]
    show getBitFlag (s1.adc_regs.GC ||| d.ADC_GC_ADCO) d.ADC_GC_ADCO = true
    exact getBitFlag_or_self _ _ hadco
  · rw [g1']
    exact f1
  · rw [g1', f1]
    rw [hch, hinv] at hvalid
    exact hvalid
  · rw [g1']
    exact f2
  · rw [g3]
    exact hc1
  · rw [g4]
    show (s1.num_measurements + 1) % 256 = _
    rw [hn]
  · rw [g5']
    exact hff
  · intro hc0
    rw [g5', hsame hc0]
  · intro hdis
    rw [g5']
    rcases hff with h | h
    · rw [h]
    · rw [h]
      exact getBitFlag_or_other _ _ _ hdis

/-- Claim C16 at a sample input: a continuous conversion started on pin 0 of the idle
instance selects channel 7, sets the continuous mode and counts one measurement. -/
theorem startContinuous_valid_pin_witness :
    ∃ s', startContinuous sampleDefines idleHw 0 sampleADC 0 = .ok (true, s') ∧
      isContinuous sampleDefines s' = true ∧ s'.adc_regs.HC0 &&& 0x1F = 7 ∧
      s'.num_measurements = 1 := by
  obtain ⟨s', h, hc, ⟨e, he, hch⟩, _, _, _, hn, _⟩ :=
    startContinuous_valid_pin sampleDefines idleHw 0 sampleADC 0 rfl (Or.inl rfl) rfl rfl
      (by decide) (by decide) (by decide) (by decide)
  have e7 : sampleADC.channel2sc1a.get? 0 = some 7 := rfl
  rw [e7] at he
  injection he with he
  subst he
  exact ⟨s', h, hc, hch, hn⟩

/-- The method `startSingleRead` on a valid pin, after its calibration wait returned
`s1`: the state it returns and what it holds. -/
theorem startSingleRead_fields (d : Defines) (hw : Hardware) (fuel : Nat) (s s1 : My_ADC)
    (pin e : Nat)
    (hpin : checkPin d s pin = .ok true)
    (h1 : waitIfCalibrating d hw fuel s = .ok s1)
    (hnum1 : s1.ADC_num = s.ADC_num)
    (he : s.channel2sc1a.get? pin = some e) :
    ∃ s', startSingleRead d hw fuel s pin = .ok (true, s') ∧
      s'.adcWasInUse = (isConverting d s1).toNat ∧
      s'.adc_config = (if isConverting d s1 then saveConfig s1 else s1.adc_config) ∧
      s'.adc_regs.GC = s1.adc_regs.GC &&& not32 d.ADC_GC_ADCO ∧
      s'.adc_regs.HC0 = ((e &&& d.ADC_SC1A_CHANNELS)
        + s1.interrupts_enabled.toNat * d.ADC_HC_AIEN) % 4294967296 ∧
      s'.num_measurements = s1.num_measurements ∧
      s'.fail_flag = s1.fail_flag ∧ s'.calibrating = s1.calibrating := by
  have hstep : startSingleRead d hw fuel s pin =
      (match startReadFast d (singleMode d
          (if (isConverting d s1).toNat ≠ 0 then
            enable_irq { disable_irq { s1 with adcWasInUse := (isConverting d s1).toNat } with
              adc_config := saveConfig
                (disable_irq { s1 with adcWasInUse := (isConverting d s1).toNat }) }
          else { s1 with adcWasInUse := (isConverting d s1).toNat })) pin with
        | .error err => .error err
        | .ok t => .ok (true, t)) := by
    unfold startSingleRead
    rw [hpin]
    simp only
    rw [h1]
  rw [hstep]
  cases hconv : isConverting d s1
  · have he' : (singleMode d { s1 with adcWasInUse := 0 }).channel2sc1a.get? pin = some e := by
      rw [channel2sc1a_congr s _ (by rw [← hnum1]; rfl)]
      exact he
    obtain ⟨s2, hstart, g1, g2, _, _, g3, g4, g5, g6, g7⟩ := startReadFast_fields d _ pin e he'
    refine ⟨s2, ?_, ?_, ?_, ?_, ?_, ?_, ?_, ?_⟩
    · simp only [Bool.toNat_false, ne_eq, not_true_eq_false, if_false]
      rw [hstart]
    · rw [g6]; rfl
    · rw [g7]; rfl
    · rw [g2]; rfl
    · rw [g1]; rfl
    · rw [g4]; rfl
    · rw [g5]; rfl
    · rw [g3]; rfl
  · have he' : (singleMode d (enable_irq { disable_irq { s1 with adcWasInUse := 1 } with
        adc_config := saveConfig (disable_irq { s1 with adcWasInUse := 1 }) })).channel2sc1a.get?
        pin = some e := by
      rw [channel2sc1a_congr s _ (by rw [← hnum1]; rfl)]
      exact he
    obtain ⟨s2, hstart, g1, g2, _, _, g3, g4, g5, g6, g7⟩ := startReadFast_fields d _ pin e he'
    refine ⟨s2, ?_, ?_, ?_, ?_, ?_, ?_, ?_, ?_⟩
    · simp only [Bool.toNat_true, ne_eq, one_ne_zero, not_false_eq_true, if_true]
      rw [hstart]
    · rw [g6]; rfl
    · rw [g7]; rfl
    · rw [g2]; rfl
    · rw [g1]; rfl
    · rw [g4]; rfl
    · rw [g5]; rfl
    · rw [g3]; rfl

/-- Claim C17, as stated, fails: on the idle instance, whose counter is 0,
`startSingleRead` on the valid pin 0 returns true with the counter still 0, not 1. -/
theorem startSingleRead_counter_not_incremented :
    ∃ s', startSingleRead sampleDefines idleHw 0 sampleADC 0 = .ok (true, s') ∧
      sampleADC.num_measurements = 0 ∧ s'.num_measurements = 0 ∧
      s'.num_measurements ≠ (sampleADC.num_measurements + 1) % 256 :=
  ⟨_, rfl, rfl, rfl, by decide⟩

/-- Claim C17, amended: the non-blocking start performs steps 1 and 3 to 5 of the
protocol but not step 2. For every state whose calibration wait ends and every valid
pin, `startSingleRead` returns true with `num_measurements` equal to its value at
entry. -/
theorem startSingleRead_keeps_counter (d : Defines) (hw : Hardware) (fuel : Nat) (s : My_ADC)
    (pin : Nat)
    (hpin : checkPin d s pin = .ok true) (hsettle : calSettles d hw fuel s) :
    ∃ s', startSingleRead d hw fuel s pin = .ok (true, s') ∧
      s'.num_measurements = s.num_measurements := by
  obtain ⟨s1, h1, _, _, _, hnum1, _, hn, _, _, _, _⟩ :=
    waitIfCalibrating_frame d hw fuel s hsettle
  obtain ⟨e, he, _⟩ := checkPin_true_entry d s pin hpin
  obtain ⟨s', hs', _, _, _, _, g, _, _⟩ :=
    startSingleRead_fields d hw fuel s s1 pin e hpin h1 hnum1 he
  exact ⟨s', hs', by rw [g, hn]⟩

/-- Claim C17, amended, at a sample input: with one measurement outstanding, a
non-blocking start on pin 1 leaves the counter 1. -/
theorem startSingleRead_keeps_counter_witness :
    ∃ s', startSingleRead sampleDefines idleHw 0 continuousADC 1 = .ok (true, s') ∧
      s'.num_measurements = 1 :=
  startSingleRead_keeps_counter sampleDefines idleHw 0 continuousADC 1 rfl (Or.inl rfl)

/-- Claim C18: `startSingleRead` captures the interrupted state and does not restore it.
With the channel mask `0x1F` and the interrupt bit a non-zero 32-bit mask above the
five channel bits, for every state whose calibration wait ends and every valid pin:
the wait returns a state `s1` (the state at entry when no calibration is in progress),
and the call returns true with `adcWasInUse` equal to the conversion-active flag of
`s1`; when that flag is set, `adc_config` holds the values `HC0`, `CFG`, `GC` and `GS`
have in `s1`, and when it is clear `adc_config` is as at entry; in both cases the
continuous-mode bit `GC.ADCO` reads clear and the low five bits of `HC0` are those of
the table entry of the requested pin. -/
theorem startSingleRead_captures_snapshot (d : Defines) (hw : Hardware) (fuel : Nat) (s : My_ADC)
    (pin : Nat)
    (hpin : checkPin d s pin = .ok true) (hsettle : calSettles d hw fuel s)
    (hch : d.ADC_SC1A_CHANNELS = 0x1F)
    (ha0 : d.ADC_HC_AIEN ≠ 0) (ha : d.ADC_HC_AIEN % 32 = 0)
    (ha32 : d.ADC_HC_AIEN < 4294967296) :
    ∃ s1 s', waitIfCalibrating d hw fuel s = .ok s1 ∧ (s.calibrating = 0 → s1 = s) ∧
      startSingleRead d hw fuel s pin = .ok (true, s') ∧
      s'.adcWasInUse = (isConverting d s1).toNat ∧
      (isConverting d s1 = true →
        s'.adc_config = { savedHC0 := s1.adc_regs.HC0, savedCFG := s1.adc_regs.CFG,
                          savedGC := s1.adc_regs.GC, savedGS := s1.adc_regs.GS }) ∧
      (isConverting d s1 = false → s'.adc_config = s.adc_config) ∧
      isContinuous d s' = false ∧
      (∃ e, s.channel2sc1a.get? pin = some e ∧ s'.adc_regs.HC0 &&& 0x1F = e &&& 0x1F) := by
  obtain ⟨s1, h1, _, _, hsame, hnum1, hie, _, _, hcfg, _, _⟩ :=
    waitIfCalibrating_frame d hw fuel s hsettle
  obtain ⟨e, he, _⟩ := checkPin_true_entry d s pin hpin
  obtain ⟨s', hs', g1, g2, g3, g4, _, _, _⟩ :=
    startSingleRead_fields d hw fuel s s1 pin e hpin h1 hnum1 he
  have hx : e &&& 0x1F < 32 := lt_of_le_of_lt Nat.and_le_right (by norm_num)
  obtain ⟨f1, _⟩ := hc0_fields (e &&& 0x1F) d.ADC_HC_AIEN s1.interrupts_enabled hx ha0 ha ha32
  refine ⟨s1, s', h1, hsame, hs', g1, ?_, ?_, ?_, ⟨e, he, ?_⟩⟩
  · intro hc
    rw [g2, hc]
    rfl
  · intro hc
    rw [g2, hc, ← hcfg]
    rfl
  · unfold isContinuous
    rw [g3]
    exact getBitFlag_clear_self _ _
  · rw [g4, hch]
    exact f1

/-- Claim C18 at a sample input: a non-blocking start on pin 1 while a continuous
conversion runs on pin 0 stores the four registers of that conversion and leaves the
converter in single mode. -/
theorem startSingleRead_captures_snapshot_witness :
    ∃ s', startSingleRead sampleDefines idleHw 0 continuousADC 1 = .ok (true, s') ∧
      s'.adcWasInUse = 1 ∧
      s'.adc_config = { savedHC0 := 7, savedCFG := 0, savedGC := 0x40, savedGS := 0x01 } ∧
      isContinuous sampleDefines s' = false := by
  obtain ⟨s1, s', _, hsame, hs', hin, hcfg, _, hcont, _⟩ :=
    startSingleRead_captures_snapshot sampleDefines idleHw 0 continuousADC 1 rfl (Or.inl rfl)
      rfl (by decide) (by decide) (by decide)
  have h1 : s1 = continuousADC := hsame rfl
  subst h1
  exact ⟨s', hs', hin, hcfg rfl, hcont⟩

/-! ## Reference and conversion speed -/

/-- Claim C12, as stated, fails: the method tells two sources apart. With the stored source
0, a request of the source 2, which is neither `REF_DEFAULT` (0) nor `REF_ALT` (1),
starts a calibration and leaves the stored source 0. -/
theorem setReference_unknown_source_not_stored :
    sampleADC.analog_reference_internal ≠ 2 ∧
      (setReference sampleDefines sampleADC 2).analog_reference_internal = 0 ∧
      (setReference sampleDefines sampleADC 2).analog_reference_internal ≠ 2 ∧
      (setReference sampleDefines sampleADC 2).calibrating = 1 :=
  ⟨by decide, rfl, by decide, rfl⟩

/-- The registers `GC` and the flag `calibrating` after `setReference` with a new
source: those `calibrate` leaves. -/
theorem setReference_new (d : Defines) (s : My_ADC) (type : Nat)
    (hne : s.analog_reference_internal ≠ type) :
    (setReference d s type).calibrating = 1 ∧
      (setReference d s type).adc_regs.GC = s.adc_regs.GC ||| d.ADC_GC_CAL ∧
      (setReference d s type).analog_reference_internal =
        (if type = d.REF_ALT then d.REF_ALT
         else if type = d.REF_DEFAULT then d.REF_DEFAULT
         else s.analog_reference_internal) := by
  unfold setReference
  simp only [hne, if_false]
  rw [calibrate_eq]
  by_cases h1 : type = d.REF_ALT
  · subst h1
    simp
  · by_cases h2 : type = d.REF_DEFAULT
    · subst h2
      simp [h1, clearBitFlag, My_ADC.write, ADC_REGS_t.set, ADC_REGS_t.get]
    · simp [h1, h2]

/-- Claim C12, amended: for every state and every requested source that differs from the
stored one, `setReference` returns with `calibrating = 1` and the calibration bit
`GC.CAL` reading set; the stored reference becomes the requested source when that is
`REF_ALT` or `REF_DEFAULT`, and is unchanged for any other source. When the requested
source equals the stored one the state is unchanged: no calibration is started. -/
theorem setReference_starts_calibration (d : Defines) (s : My_ADC) (type : Nat)
    (hcal : d.ADC_GC_CAL ≠ 0) :
    (s.analog_reference_internal ≠ type →
      (setReference d s type).calibrating = 1 ∧
      getBitFlag (setReference d s type).adc_regs.GC d.ADC_GC_CAL = true ∧
      (type = d.REF_ALT ∨ type = d.REF_DEFAULT →
        (setReference d s type).analog_reference_internal = type) ∧
      (type ≠ d.REF_ALT → type ≠ d.REF_DEFAULT →
        (setReference d s type).analog_reference_internal = s.analog_reference_internal)) ∧
    (s.analog_reference_internal = type → setReference d s type = s) := by
  constructor
  · intro hne
    obtain ⟨h1, h2, h3⟩ := setReference_new d s type hne
    refine ⟨h1, ?_, ?_, ?_⟩
    · rw [h2]
      exact getBitFlag_or_self _ _ hcal
    · intro hor
      rw [h3]
      by_cases ha : type = d.REF_ALT
      · rw [if_pos ha, ha]
      · rcases hor with h | h
        · exact absurd h ha
        · rw [if_neg ha, if_pos h, h]
    · intro ha hd
      rw [h3, if_neg ha, if_neg hd]
  · intro heq
    unfold setReference
    simp [heq]

/-- Claim C12, amended, at a sample input: on the idle instance, whose stored source is
`REF_DEFAULT`, a request of `REF_ALT` stores it and starts a calibration. -/
theorem setReference_starts_calibration_witness :
    (setReference sampleDefines sampleADC sampleDefines.REF_ALT).calibrating = 1 ∧
      (setReference sampleDefines sampleADC sampleDefines.REF_ALT).analog_reference_internal
        = sampleDefines.REF_ALT :=
  ⟨((setReference_starts_calibration sampleDefines sampleADC sampleDefines.REF_ALT
      (by decide)).1 (by decide)).1,
   ((setReference_starts_calibration sampleDefines sampleADC sampleDefines.REF_ALT
      (by decide)).1 (by decide)).2.2.1 (Or.inl rfl)⟩

/-- The method `setConversionSpeed` on a speed that is stored already, or that is none of
the five it knows. -/
theorem setConversionSpeed_other (d : Defines) (s : My_ADC) (speed : Nat) :
    (speed = s.conversion_speed → setConversionSpeed d s speed = s) ∧
    (speed ≠ s.conversion_speed →
      speed ∉ [d.CONVERSION_LOW_SPEED, d.CONVERSION_MED_SPEED, d.CONVERSION_HIGH_SPEED,
        d.CONVERSION_ADACK_10, d.CONVERSION_ADACK_20] →
      setConversionSpeed d s speed = { s with fail_flag := s.fail_flag ||| d.OTHER }) := by
  constructor
  · intro h
    unfold setConversionSpeed
    simp [h]
  · intro hne hnot
    simp only [List.mem_cons, List.mem_singleton, List.not_mem_nil, or_false, not_or] at hnot
    obtain ⟨h1, h2, h3, h4, h5⟩ := hnot
    unfold setConversionSpeed
    simp [hne, h1, h2, h3, h4, h5]

/-- The method `setConversionSpeed` on one of the three bus-clock speeds. -/
theorem setConversionSpeed_bus (d : Defines) (s : My_ADC) (speed : Nat)
    (hne : speed ≠ s.conversion_speed)
    (hbus : speed = d.CONVERSION_LOW_SPEED ∨ speed = d.CONVERSION_MED_SPEED ∨
      speed = d.CONVERSION_HIGH_SPEED) :
    (setConversionSpeed d s speed).conversion_speed = speed ∧
      (setConversionSpeed d s speed).fail_flag = s.fail_flag ∧
      (setConversionSpeed d s speed).adc_regs.GC = s.adc_regs.GC &&& not32 d.ADC_GC_ADACKEN := by
  unfold setConversionSpeed
  by_cases h1 : speed = d.CONVERSION_LOW_SPEED
  · subst h1
    simp [hne, clearBitFlag, setBitFlag, changeBitFlag, My_ADC.write, ADC_REGS_t.set,
      ADC_REGS_t.get]
  · by_cases h2 : speed = d.CONVERSION_MED_SPEED
    · subst h2
      simp [hne, h1, clearBitFlag, setBitFlag, changeBitFlag, My_ADC.write,
        ADC_REGS_t.set, ADC_REGS_t.get]
    · have h3 : speed = d.CONVERSION_HIGH_SPEED := by
        rcases hbus with h | h | h
        · exact absurd h h1
        · exact absurd h h2
        · exact h
      subst h3
      simp [hne, h1, h2, clearBitFlag, setBitFlag, changeBitFlag, My_ADC.write,
        ADC_REGS_t.set, ADC_REGS_t.get]

/-- The method `setConversionSpeed` on one of the two asynchronous-clock speeds. -/
theorem setConversionSpeed_adack (d : Defines) (s : My_ADC) (speed : Nat)
    (hne : speed ≠ s.conversion_speed)
    (h1 : speed ≠ d.CONVERSION_LOW_SPEED) (h2 : speed ≠ d.CONVERSION_MED_SPEED)
    (h3 : speed ≠ d.CONVERSION_HIGH_SPEED)
    (hadack : speed = d.CONVERSION_ADACK_10 ∨ speed = d.CONVERSION_ADACK_20) :
    (setConversionSpeed d s speed).conversion_speed = speed ∧
      (setConversionSpeed d s speed).fail_flag = s.fail_flag ∧
      (setConversionSpeed d s speed).adc_regs.GC = s.adc_regs.GC ||| d.ADC_GC_ADACKEN := by
  unfold setConversionSpeed
  by_cases h4 : speed = d.CONVERSION_ADACK_10
  · subst h4
    simp [hne, h1, h2, h3, clearBitFlag, setBitFlag, changeBitFlag, My_ADC.write,
      ADC_REGS_t.set, ADC_REGS_t.get]
  · have h5 : speed = d.CONVERSION_ADACK_20 := by
      rcases hadack with h | h
      · exact absurd h h4
      · exact h
    subst h5
    simp [hne, h1, h2, h3, h4, clearBitFlag, setBitFlag, changeBitFlag, My_ADC.write,
      ADC_REGS_t.set, ADC_REGS_t.get]

/-- Claim C20: unsupported conversion speed. With the five supported enumerators distinct
and a non-zero `ADACKEN` mask, for every state and every speed that differs from the
stored one: if the speed is none of `LOW_SPEED`, `MED_SPEED`, `HIGH_SPEED`, `ADACK_10`,
`ADACK_20`, the state returned is the state at entry with the `OTHER` bit OR-ed into
`fail_flag` (no register write, stored speed unchanged); if it is one of the five, the
speed is stored, `fail_flag` is unchanged, and the bit `GC.ADACKEN` reads set iff the
speed is `ADACK_10` or `ADACK_20`. -/
theorem setConversionSpeed_supported_and_other (d : Defines) (s : My_ADC) (speed : Nat)
    (hne : speed ≠ s.conversion_speed) (hacken : d.ADC_GC_ADACKEN ≠ 0)
    (hdistinct : [d.CONVERSION_LOW_SPEED, d.CONVERSION_MED_SPEED, d.CONVERSION_HIGH_SPEED,
      d.CONVERSION_ADACK_10, d.CONVERSION_ADACK_20].Nodup) :
    (speed ∉ [d.CONVERSION_LOW_SPEED, d.CONVERSION_MED_SPEED, d.CONVERSION_HIGH_SPEED,
        d.CONVERSION_ADACK_10, d.CONVERSION_ADACK_20] →
      setConversionSpeed d s speed = { s with fail_flag := s.fail_flag ||| d.OTHER }) ∧
    (speed ∈ [d.CONVERSION_LOW_SPEED, d.CONVERSION_MED_SPEED, d.CONVERSION_HIGH_SPEED,
        d.CONVERSION_ADACK_10, d.CONVERSION_ADACK_20] →
      (setConversionSpeed d s speed).conversion_speed = speed ∧
      (setConversionSpeed d s speed).fail_flag = s.fail_flag ∧
      (getBitFlag (setConversionSpeed d s speed).adc_regs.GC d.ADC_GC_ADACKEN = true ↔
        speed = d.CONVERSION_ADACK_10 ∨ speed = d.CONVERSION_ADACK_20)) := by
  refine ⟨(setConversionSpeed_other d s speed).2 hne, ?_⟩
  intro hmem
  simp only [List.nodup_cons, List.mem_cons, List.mem_singleton, List.not_mem_nil, or_false,
    not_or, List.nodup_nil, and_true, not_false_eq_true] at hdistinct
  obtain ⟨⟨_, _, l4, l5⟩, ⟨_, m4, m5⟩, ⟨g4, g5⟩, _⟩ := hdistinct
  simp only [List.mem_cons, List.mem_singleton, List.not_mem_nil, or_false] at hmem
  by_cases hbus : speed = d.CONVERSION_LOW_SPEED ∨ speed = d.CONVERSION_MED_SPEED ∨
      speed = d.CONVERSION_HIGH_SPEED
  · obtain ⟨c1, c2, c3⟩ := setConversionSpeed_bus d s speed hne hbus
    refine ⟨c1, c2, ?_⟩
    rw [c3, getBitFlag_clear_self]
    constructor
    · intro h; exact absurd h Bool.false_ne_true
    · intro h
      exfalso
      rcases hbus with h' | h' | h' <;> rcases h with h | h <;> rw [h'] at h
      · exact l4 h
      · exact l5 h
      · exact m4 h
      · exact m5 h
      · exact g4 h
      · exact g5 h
  · simp only [not_or] at hbus
    obtain ⟨b1, b2, b3⟩ := hbus
    have hadack : speed = d.CONVERSION_ADACK_10 ∨ speed = d.CONVERSION_ADACK_20 := by
      rcases hmem with h | h | h | h | h
      · exact absurd h b1
      · exact absurd h b2
      · exact absurd h b3
      · exact Or.inl h
      · exact Or.inr h
    obtain ⟨c1, c2, c3⟩ := setConversionSpeed_adack d s speed hne b1 b2 b3 hadack
    refine ⟨c1, c2, ?_⟩
    rw [c3, getBitFlag_or_self _ _ hacken]
    exact ⟨fun _ => hadack, fun _ => rfl⟩

/-- Claim C20 at a sample input: on the idle instance the unsupported speed 3 only
records `OTHER`, and `ADACK_10` is stored with the asynchronous clock enabled. -/
theorem setConversionSpeed_supported_and_other_witness :
    setConversionSpeed sampleDefines sampleADC 3 = { sampleADC with fail_flag := 1 } ∧
      (setConversionSpeed sampleDefines sampleADC sampleDefines.CONVERSION_ADACK_10).conversion_speed
        = sampleDefines.CONVERSION_ADACK_10 ∧
      getBitFlag (setConversionSpeed sampleDefines sampleADC
        sampleDefines.CONVERSION_ADACK_10).adc_regs.GC sampleDefines.ADC_GC_ADACKEN = true :=
  ⟨(setConversionSpeed_supported_and_other sampleDefines sampleADC 3 (by decide) (by decide)
      (by decide)).1 (by decide),
   ((setConversionSpeed_supported_and_other sampleDefines sampleADC
      sampleDefines.CONVERSION_ADACK_10 (by decide) (by decide) (by decide)).2 (by decide)).1,
   ((setConversionSpeed_supported_and_other sampleDefines sampleADC
      sampleDefines.CONVERSION_ADACK_10 (by decide) (by decide) (by decide)).2
        (by decide)).2.2.2 (Or.inl rfl)⟩

/-- Claim C14 on the code: a calibration has just been started (`calibrating = 1`, `GC.CAL`
set) and `setConversionSpeed(LOW_SPEED)` is called with another speed stored. The
method writes `CFG` four times and `GC` once at once: no `yield()` happens (the time is
as at entry) and `calibrating` is still 1 after the call. -/
theorem setConversionSpeed_writes_while_calibrating :
    (calibrate sampleDefines sampleADC).calibrating = 1 ∧
    getBitFlag (calibrate sampleDefines sampleADC).adc_regs.GC sampleDefines.ADC_GC_CAL = true ∧
    (setConversionSpeed sampleDefines (calibrate sampleDefines sampleADC)
        sampleDefines.CONVERSION_LOW_SPEED).log =
      (calibrate sampleDefines sampleADC).log ++
        [Event.write .CFG 0, Event.write .CFG 0x80, Event.write .GC 0x80,
         Event.write .CFG 0x81, Event.write .CFG 0xE1] ∧
    (setConversionSpeed sampleDefines (calibrate sampleDefines sampleADC)
        sampleDefines.CONVERSION_LOW_SPEED).calibrating = 1 ∧
    (setConversionSpeed sampleDefines (calibrate sampleDefines sampleADC)
        sampleDefines.CONVERSION_LOW_SPEED).ticks =
      (calibrate sampleDefines sampleADC).ticks :=
  ⟨rfl, rfl, rfl, rfl, rfl⟩

/-! ## Setters and the calibration wait -/

/-- The body of `setResolution` leaves `calibrating` and `fail_flag` alone and only
appends to the log. -/
theorem setResolutionBody_frame (d : Defines) (t : My_ADC) (bits : Nat) :
    (setResolutionBody d t bits).calibrating = t.calibrating ∧
      (setResolutionBody d t bits).fail_flag = t.fail_flag ∧
      ∃ w, (setResolutionBody d t bits).log = t.log ++ w := by
  unfold setResolutionBody
  split_ifs
  · exact ⟨rfl, rfl, _, rfl⟩
  · exact ⟨rfl, rfl, _, rfl⟩
  · exact ⟨rfl, rfl, _, rfl⟩
  · exact ⟨rfl, rfl, [], (List.append_nil _).symm⟩

/-- The body of `setAveraging` leaves `calibrating` and `fail_flag` alone and only
appends to the log. -/
theorem setAveragingBody_frame (d : Defines) (t : My_ADC) (num : Nat) :
    (setAveragingBody d t num).calibrating = t.calibrating ∧
      (setAveragingBody d t num).fail_flag = t.fail_flag ∧
      ∃ w, (setAveragingBody d t num).log = t.log ++ w := by
  unfold setAveragingBody
  split_ifs
  · exact ⟨rfl, rfl, _, rfl⟩
  · exact ⟨rfl, rfl, _, by
      simp only [changeBitFlag, clearBitFlag, setBitFlag, My_ADC.write, List.append_assoc]
      rfl⟩
  · exact ⟨rfl, rfl, _, by
      simp only [changeBitFlag, clearBitFlag, setBitFlag, My_ADC.write, List.append_assoc]
      rfl⟩
  · exact ⟨rfl, rfl, _, by
      simp only [changeBitFlag, clearBitFlag, setBitFlag, My_ADC.write, List.append_assoc]
      rfl⟩
  · exact ⟨rfl, rfl, _, by
      simp only [changeBitFlag, clearBitFlag, setBitFlag, My_ADC.write, List.append_assoc]
      rfl⟩

/-- The body of `setSamplingSpeed` leaves `calibrating` and `fail_flag` alone and only
appends to the log. -/
theorem setSamplingSpeedBody_frame (d : Defines) (t : My_ADC) (speed : Nat) :
    (setSamplingSpeedBody d t speed).calibrating = t.calibrating ∧
      (setSamplingSpeedBody d t speed).fail_flag = t.fail_flag ∧
      ∃ w, (setSamplingSpeedBody d t speed).log = t.log ++ w := by
  unfold setSamplingSpeedBody
  split_ifs
  · exact ⟨rfl, rfl, _, by
      simp only [changeBitFlag, clearBitFlag, setBitFlag, My_ADC.write, List.append_assoc]
      rfl⟩
  · exact ⟨rfl, rfl, _, by
      simp only [changeBitFlag, clearBitFlag, setBitFlag, My_ADC.write, List.append_assoc]
      rfl⟩
  · exact ⟨rfl, rfl, _, by
      simp only [changeBitFlag, clearBitFlag, setBitFlag, My_ADC.write, List.append_assoc]
      rfl⟩
  · exact ⟨rfl, rfl, _, by
      simp only [changeBitFlag, clearBitFlag, setBitFlag, My_ADC.write, List.append_assoc]
      rfl⟩
  · exact ⟨rfl, rfl, _, by
      simp only [changeBitFlag, clearBitFlag, setBitFlag, My_ADC.write, List.append_assoc]
      rfl⟩
  · exact ⟨rfl, rfl, _, by
      simp only [changeBitFlag, clearBitFlag, setBitFlag, My_ADC.write, List.append_assoc]
      rfl⟩
  · exact ⟨rfl, rfl, _, by
      simp only [changeBitFlag, clearBitFlag, setBitFlag, My_ADC.write, List.append_assoc]
      rfl⟩
  · exact ⟨rfl, rfl, _, by
      simp only [changeBitFlag, clearBitFlag, setBitFlag, My_ADC.write, List.append_assoc]
      rfl⟩
  · exact ⟨rfl, rfl, [], (List.append_nil _).symm⟩

/-- The body of `enableCompare` leaves `calibrating` and `fail_flag` alone and only
appends to the log. -/
theorem enableCompareBody_frame (d : Defines) (t : My_ADC) (compValue : Int)
    (greaterThan : Bool) :
    (enableCompareBody d t compValue greaterThan).calibrating = t.calibrating ∧
      (enableCompareBody d t compValue greaterThan).fail_flag = t.fail_flag ∧
      ∃ w, (enableCompareBody d t compValue greaterThan).log = t.log ++ w :=
  ⟨rfl, rfl, _, by
    simp only [enableCompareBody, changeBitFlag, setBitFlag, My_ADC.write, List.append_assoc]
    rfl⟩

/-- The body of `enableCompareRange` leaves `calibrating` and `fail_flag` alone and only
appends to the log. -/
theorem enableCompareRangeBody_frame (d : Defines) (t : My_ADC) (lowerLimit upperLimit : Int)
    (insideRange inclusive : Bool) :
    (enableCompareRangeBody d t lowerLimit upperLimit insideRange inclusive).calibrating
        = t.calibrating ∧
      (enableCompareRangeBody d t lowerLimit upperLimit insideRange inclusive).fail_flag
        = t.fail_flag ∧
      ∃ w, (enableCompareRangeBody d t lowerLimit upperLimit insideRange inclusive).log
        = t.log ++ w := by
  cases insideRange <;> cases inclusive <;>
    simp [enableCompareRangeBody, clearBitFlag, setBitFlag, My_ADC.write]

/-- Claim C13: setters wait for the calibration before they touch a register. For every
state with `calibrating` set in which the peripheral shows `GC.CAL` clear after `k`
calls of `yield()`, within the fuel: `wait_for_cal` returns a state `t` in which
`GC.CAL` reads clear, `calibrating = 0`, nothing was written (the log is as at entry)
and the `CALIB` error bit is set iff it was set already or the peripheral reported a
failure; and each of `setResolution` (with a value other than the stored one),
`setAveraging`, `setSamplingSpeed`, `enableCompare` and `enableCompareRange` returns
what its body makes of `t`, so each of its register writes comes after the wait: the
log it returns is the log at entry followed by its writes; it returns with
`calibrating = 0` and the `fail_flag` of `t`. -/
theorem setters_wait_for_calibration (d : Defines) (hw : Hardware) (k fuel : Nat) (s : My_ADC)
    (hcal : s.calibrating ≠ 0)
    (hclear : getBitFlag (yields hw k s).adc_regs.GC d.ADC_GC_CAL = false) (hk : k ≤ fuel)
    (hCALIB : d.CALIB ≠ 0) :
    ∃ j t, j ≤ k ∧ wait_for_cal d hw fuel s = .ok t ∧
      getBitFlag t.adc_regs.GC d.ADC_GC_CAL = false ∧
      t.log = s.log ∧ t.ticks = s.ticks + j ∧ t.calibrating = 0 ∧
      (getBitFlag t.fail_flag d.CALIB = true ↔
        getBitFlag s.fail_flag d.CALIB = true ∨
          getBitFlag (yields hw j s).adc_regs.GS d.ADC_GS_CALF = true) ∧
      (∀ bits, s.analog_res_bits ≠ bits →
        setResolution d hw fuel s bits = .ok (setResolutionBody d t bits)) ∧
      (∀ num, setAveraging d hw fuel s num = .ok (setAveragingBody d t num)) ∧
      (∀ speed, setSamplingSpeed d hw fuel s speed = .ok (setSamplingSpeedBody d t speed)) ∧
      (∀ compValue greaterThan, enableCompare d hw fuel s compValue greaterThan
        = .ok (enableCompareBody d t compValue greaterThan)) ∧
      (∀ lowerLimit upperLimit insideRange inclusive,
        enableCompareRange d hw fuel s lowerLimit upperLimit insideRange inclusive
          = .ok (enableCompareRangeBody d t lowerLimit upperLimit insideRange inclusive)) ∧
      (∀ s', (∃ bits, s' = setResolutionBody d t bits) ∨
          (∃ num, s' = setAveragingBody d t num) ∨
          (∃ speed, s' = setSamplingSpeedBody d t speed) ∨
          (∃ compValue greaterThan, s' = enableCompareBody d t compValue greaterThan) ∨
          (∃ lowerLimit upperLimit insideRange inclusive,
            s' = enableCompareRangeBody d t lowerLimit upperLimit insideRange inclusive) →
        s'.calibrating = 0 ∧ s'.fail_flag = t.fail_flag ∧ ∃ w, s'.log = s.log ++ w) := by
  obtain ⟨j, hj, hcl, hw1⟩ := wait_for_cal_returns d hw k fuel s hclear hk
  have hwait : waitIfCalibrating d hw fuel s = .ok (calDone d (yields hw j s)) := by
    unfold waitIfCalibrating
    simp [hcal, hw1]
  have ht := calDone_yields d hw j s
  have hlog : (calDone d (yields hw j s)).log = s.log := by rw [ht]
  have hc0 : (calDone d (yields hw j s)).calibrating = 0 := by rw [ht]
  refine ⟨j, calDone d (yields hw j s), hj, hw1, ?_, hlog, by rw [ht], hc0, ?_, ?_, ?_, ?_,
    ?_, ?_, ?_⟩
  · rw [ht]
    exact hcl
  · rw [ht]
    show getBitFlag (if getBitFlag (yields hw j s).adc_regs.GS d.ADC_GS_CALF then
        s.fail_flag ||| d.CALIB else s.fail_flag) d.CALIB = true ↔ _
    by_cases hf : getBitFlag (yields hw j s).adc_regs.GS d.ADC_GS_CALF = true
    · rw [if_pos hf, getBitFlag_or_self _ _ hCALIB]
      exact ⟨fun _ => Or.inr hf, fun _ => rfl⟩
    · rw [if_neg hf]
      exact ⟨fun h => Or.inl h, fun h => h.elim id (fun h' => absurd h' hf)⟩
  · intro bits hne
    unfold setResolution
    rw [if_neg hne, hwait]
  · intro num
    unfold setAveraging
    rw [hwait]
  · intro speed
    unfold setSamplingSpeed
    rw [hwait]
  · intro compValue greaterThan
    unfold enableCompare
    rw [hwait]
  · intro lowerLimit upperLimit insideRange inclusive
    unfold enableCompareRange
    rw [hwait]
  · intro s' hs'
    rw [← hlog, ← hc0]
    rcases hs' with ⟨bits, rfl⟩ | ⟨num, rfl⟩ | ⟨speed, rfl⟩ | ⟨c, g, rfl⟩ | ⟨l, u, i, e, rfl⟩
    · exact setResolutionBody_frame d _ bits
    · exact setAveragingBody_frame d _ num
    · exact setSamplingSpeedBody_frame d _ speed
    · exact enableCompareBody_frame d _ c g
    · exact enableCompareRangeBody_frame d _ l u i e

/-- Claim C13 at a sample input: `setAveraging(5)` called right after `calibrate()` waits
for the peripheral to end the calibration, then writes `GC` and `CFG`, and returns with
`calibrating = 0`. -/
theorem setters_wait_for_calibration_witness :
    ∃ s', setAveraging sampleDefines (finishingHw sampleDefines) 1
        (calibrate sampleDefines sampleADC) 5 = .ok s' ∧
      s'.calibrating = 0 ∧ s'.ticks = 1 ∧
      ∃ w, s'.log = (calibrate sampleDefines sampleADC).log ++ w := by
  obtain ⟨j, t, _, _, _, _, _, _, _, _, havg, _, _, _, hall⟩ :=
    setters_wait_for_calibration sampleDefines (finishingHw sampleDefines) 1 1
      (calibrate sampleDefines sampleADC) (by decide) rfl (le_refl 1) (by decide)
  have h5 := havg 5
  have e5 : setAveraging sampleDefines (finishingHw sampleDefines) 1
      (calibrate sampleDefines sampleADC) 5 =
      .ok (setAveragingBody sampleDefines (calDone sampleDefines
        (yields (finishingHw sampleDefines) 1 (calibrate sampleDefines sampleADC))) 5) := rfl
  obtain ⟨hc, _, hlog⟩ := hall _ (Or.inr (Or.inl ⟨5, rfl⟩))
  rw [e5] at h5
  injection h5 with h5
  rw [← h5] at hc hlog
  exact ⟨_, e5, hc, rfl, hlog⟩

/-! ## The end of a blocking read -/

/-- Calls of `yield()` leave `fail_flag` and the log alone. -/
theorem yields_fail_flag_log (hw : Hardware) (j : Nat) (s : My_ADC) :
    (yields hw j s).fail_flag = s.fail_flag ∧ (yields hw j s).log = s.log ∧
      (yields hw j s).ticks = s.ticks + j := by
  rw [yields_members hw j s]
  exact ⟨rfl, rfl, rfl⟩

/-- The end of `analogRead` when the conversion-complete flag is clear: the error value,
the `COMPARISON` bit, the counter decremented, the snapshot written back when one was
taken, and nothing else written. -/
theorem analogReadFinish_fail (d : Defines) (w : Bool) (cfg : ADC_Config) (t : My_ADC)
    (hc : isComplete d t = false) :
    (analogReadFinish d w cfg t).1 = d.ADC_ERROR_VALUE ∧
    (analogReadFinish d w cfg t).2.fail_flag = t.fail_flag ||| d.COMPARISON ∧
    (analogReadFinish d w cfg t).2.num_measurements = (t.num_measurements + 255) % 256 ∧
    (analogReadFinish d w cfg t).2.ticks = t.ticks ∧
    (w = true →
      (analogReadFinish d w cfg t).2.adc_regs.HC0 = cfg.savedHC0 ∧
      (analogReadFinish d w cfg t).2.adc_regs.CFG = cfg.savedCFG ∧
      (analogReadFinish d w cfg t).2.adc_regs.GC = cfg.savedGC ∧
      (analogReadFinish d w cfg t).2.adc_regs.GS = cfg.savedGS) ∧
    (w = false → (analogReadFinish d w cfg t).2.adc_regs = t.adc_regs) ∧
    (analogReadFinish d w cfg t).2.log = t.log ++ [Event.irqOff, Event.irqOn] ++
      (if w then [Event.irqOff, Event.write .HC0 cfg.savedHC0, Event.write .CFG cfg.savedCFG,
        Event.write .GC cfg.savedGC, Event.write .GS cfg.savedGS, Event.irqOn] else []) := by
  have hc2 : ¬ isComplete d (disable_irq t) = true := by
    have : isComplete d (disable_irq t) = isComplete d t := rfl
    rw [this, hc]
    exact Bool.false_ne_true
  cases w
  · simp only [analogReadFinish, hc2, if_false]
    simp [restoreIfInUse, disable_irq, enable_irq]
  · simp only [analogReadFinish, hc2, if_false]
    simp [restoreIfInUse, loadConfig, disable_irq, enable_irq, My_ADC.write, ADC_REGS_t.set]

/-- The end of `analogRead` when the conversion-complete flag is set: `fail_flag` is
left alone. -/
theorem analogReadFinish_ok (d : Defines) (w : Bool) (cfg : ADC_Config) (t : My_ADC)
    (hc : isComplete d t = true) :
    (analogReadFinish d w cfg t).1 = toUInt16 (readSingle t) ∧
    (analogReadFinish d w cfg t).2.fail_flag = t.fail_flag := by
  have hc2 : isComplete d (disable_irq t) = true := hc
  cases w
  · simp only [analogReadFinish, hc2, if_true]
    simp [restoreIfInUse, disable_irq, enable_irq, readSingle, analogReadContinuous]
  · simp only [analogReadFinish, hc2, if_true]
    simp [restoreIfInUse, loadConfig, disable_irq, enable_irq, My_ADC.write, readSingle,
      analogReadContinuous]

/-- What saving the configuration and leaving the continuous mode leave alone. -/
theorem singleMode_saveIfInUse_frame (d : Defines) (w : Bool) (s1 : My_ADC) :
    (singleMode d (saveIfInUse w s1).2).num_measurements = s1.num_measurements ∧
    (singleMode d (saveIfInUse w s1).2).fail_flag = s1.fail_flag ∧
    (singleMode d (saveIfInUse w s1).2).ADC_num = s1.ADC_num ∧
    (saveIfInUse true s1).1 = saveConfig s1 := by
  cases w <;> exact ⟨rfl, rfl, rfl, rfl⟩

/-- The method `analogRead` on a valid pin, up to the end of the wait for the conversion:
the call returns what the end of the method makes of the state at the exit of the loop. -/
theorem analogRead_unfold (d : Defines) (hw : Hardware) (fuel k : Nat) (s s1 s2 : My_ADC)
    (pin : Nat)
    (hpin : checkPin d s pin = .ok true)
    (hcal : waitIfCalibrating d hw fuel
      { s with num_measurements := (s.num_measurements + 1) % 256 } = .ok s1)
    (hstart : startReadFast d (singleMode d (saveIfInUse (isConverting d s1) s1).2) pin
      = .ok s2)
    (hbusy : ∀ i, i < k → isConverting d (yields hw i s2) = true)
    (hend : isConverting d (yields hw k s2) = false) (hk : k ≤ fuel) :
    analogRead d hw fuel s pin = .ok (analogReadFinish d (isConverting d s1)
      (saveIfInUse (isConverting d s1) s1).1 (yields hw k s2)) := by
  have hp := pollWhile_exit (isConverting d) hw k fuel s2 hbusy hend hk
  unfold analogRead
  rw [hpin]
  simp only
  rw [hcal]
  simp only
  unfold analogReadConvert
  simp only
  rw [hstart]
  simp only
  unfold pollConverting
  rw [hp]

/-- Claim C11, as stated, fails: `analogRead` is called right after `calibrate()`, with
`fail_flag` zero; its calibration wait finds the calibration failed and records `CALIB`;
the conversion then completes and the read returns the sample 32768, not the error
value, with `fail_flag` 2: a successful read that does not leave `fail_flag` unchanged. -/
theorem analogRead_success_records_calib :
    ∃ r s', analogRead sampleDefines (calFailThenFinishHw sampleDefines) 1
        (calibrate sampleDefines highADC) 1 = .ok (r, s') ∧
      (calibrate sampleDefines highADC).fail_flag = 0 ∧
      r = 32768 ∧ r ≠ sampleDefines.ADC_ERROR_VALUE ∧
      s'.fail_flag = 2 ∧ s'.fail_flag ≠ (calibrate sampleDefines highADC).fail_flag :=
  ⟨_, _, rfl, rfl, rfl, by decide, rfl, by decide⟩

/-- Claim C11, amended: comparison failure in `analogRead`. For every state with an 8-bit
counter value whose calibration wait ends, and every valid pin: the wait returns a state
`s1` whose `fail_flag` is that of the entry state, or that value with `CALIB` OR-ed in
(it is that of the entry state when no calibration is in progress at entry), and the
read is started, in a state `s2`. When the conversion stops being active after exactly
`k` calls of `yield()` from `s2`, within the fuel:

* if the conversion-complete flag is clear, `analogRead` returns `ADC_ERROR_VALUE`,
  `fail_flag` is that of `s1` with `COMPARISON` OR-ed in, the four saved registers are
  written back when a conversion was interrupted (and no register is written
  otherwise), `num_measurements` is back at its entry value, and there is no second
  conversion: no further `yield()` and, after the start, no store but those of the
  restore;
* if the flag is set, `analogRead` returns with the `fail_flag` of `s1`: the read itself
  adds no error bit. -/
theorem analogRead_comparison_failure (d : Defines) (hw : Hardware) (fuel : Nat)
    (s : My_ADC) (pin : Nat)
    (hpin : checkPin d s pin = .ok true)
    (hnum : s.num_measurements < 256)
    (hsettle : calSettles d hw fuel s) :
    ∃ s1 s2, waitIfCalibrating d hw fuel
        { s with num_measurements := (s.num_measurements + 1) % 256 } = .ok s1 ∧
      (s.calibrating = 0 → s1.fail_flag = s.fail_flag) ∧
      (s1.fail_flag = s.fail_flag ∨ s1.fail_flag = s.fail_flag ||| d.CALIB) ∧
      startReadFast d (singleMode d (saveIfInUse (isConverting d s1) s1).2) pin = .ok s2 ∧
      ∀ k, k ≤ fuel → (∀ i, i < k → isConverting d (yields hw i s2) = true) →
        isConverting d (yields hw k s2) = false →
        (isComplete d (yields hw k s2) = false →
          ∃ s', analogRead d hw fuel s pin = .ok (d.ADC_ERROR_VALUE, s') ∧
            s'.fail_flag = s1.fail_flag ||| d.COMPARISON ∧
            s'.num_measurements = s.num_measurements ∧
            (isConverting d s1 = true →
              s'.adc_regs.HC0 = s1.adc_regs.HC0 ∧ s'.adc_regs.CFG = s1.adc_regs.CFG ∧
              s'.adc_regs.GC = s1.adc_regs.GC ∧ s'.adc_regs.GS = s1.adc_regs.GS) ∧
            (isConverting d s1 = false → s'.adc_regs = (yields hw k s2).adc_regs) ∧
            s'.ticks = s2.ticks + k ∧
            s'.log = s2.log ++ [Event.irqOff, Event.irqOn] ++
              (if isConverting d s1 then
                [Event.irqOff, Event.write .HC0 s1.adc_regs.HC0,
                 Event.write .CFG s1.adc_regs.CFG, Event.write .GC s1.adc_regs.GC,
                 Event.write .GS s1.adc_regs.GS, Event.irqOn]
               else [])) ∧
        (isComplete d (yields hw k s2) = true →
          ∃ r s', analogRead d hw fuel s pin = .ok (r, s') ∧
            s'.fail_flag = s1.fail_flag) := by
  have hs0 : calSettles d hw fuel
      { s with num_measurements := (s.num_measurements + 1) % 256 } :=
    calSettles_congr d hw fuel s _ hsettle rfl rfl rfl
  obtain ⟨s1, h1, _, hff, hsame, hnum1, _, hn, _, _, _, _⟩ :=
    waitIfCalibrating_frame d hw fuel _ hs0
  obtain ⟨q1, q2, q3, _⟩ := singleMode_saveIfInUse_frame d (isConverting d s1) s1
  obtain ⟨s2, h2⟩ := startReadFast_ok d s (singleMode d (saveIfInUse (isConverting d s1) s1).2)
    pin hpin (by rw [q3, hnum1])
  obtain ⟨v, hv⟩ := startReadFast_eq d _ s2 pin h2
  have hs2n : s2.num_measurements = (s.num_measurements + 1) % 256 := by
    rw [hv]
    show (singleMode d (saveIfInUse (isConverting d s1) s1).2).num_measurements = _
    rw [q1, hn]
  have hs2f : s2.fail_flag = s1.fail_flag := by
    rw [hv]
    exact q2
  refine ⟨s1, s2, h1, ?_, hff, h2, ?_⟩
  · intro hc0
    rw [hsame hc0]
  · intro k hk hbusy hend
    have hres := analogRead_unfold d hw fuel k s s1 s2 pin hpin h1 h2 hbusy hend hk
    obtain ⟨y1, y2, y3⟩ := yields_fail_flag_log hw k s2
    have yn := yields_num_measurements hw k s2
    constructor
    · intro hcoco
      obtain ⟨a1, a2, a3, a4, a5, a6, a7⟩ := analogReadFinish_fail d (isConverting d s1)
        (saveIfInUse (isConverting d s1) s1).1 (yields hw k s2) hcoco
      generalize analogReadFinish d (isConverting d s1)
        (saveIfInUse (isConverting d s1) s1).1 (yields hw k s2) = F at hres a1 a2 a3 a4 a5 a6 a7
      obtain ⟨r, s'⟩ := F
      simp only at a1 a2 a3 a4 a5 a6 a7
      subst a1
      refine ⟨s', hres, ?_, ?_, ?_, ?_, ?_, ?_⟩
      · rw [a2, y1, hs2f]
      · rw [a3, yn, hs2n]
        omega
      · intro hconv
        have := a5 hconv
        rw [hconv] at this
        exact this
      · exact a6
      · rw [a4, y3]
      · rw [a7, y2]
        cases hconv : isConverting d s1 <;> rfl
    · intro hcoco
      obtain ⟨_, b2⟩ := analogReadFinish_ok d (isConverting d s1)
        (saveIfInUse (isConverting d s1) s1).1 (yields hw k s2) hcoco
      generalize analogReadFinish d (isConverting d s1)
        (saveIfInUse (isConverting d s1) s1).1 (yields hw k s2) = F at hres b2
      obtain ⟨r, s'⟩ := F
      simp only at b2
      exact ⟨r, s', hres, by rw [b2, y1, hs2f]⟩

/-- Claim C11, amended, at a sample input: a blocking read of pin 1 interrupts the continuous
conversion on pin 0 and the peripheral ends the conversion without raising the complete
flag; the read returns the error value, records `COMPARISON`, puts channel 7 and the
continuous mode back and leaves the counter 1. -/
theorem analogRead_comparison_failure_witness :
    ∃ s', analogRead sampleDefines (abortingHw sampleDefines) 1 continuousADC 1
        = .ok (-70000, s') ∧
      s'.fail_flag = 0x80 ∧ s'.num_measurements = 1 ∧ s'.adc_regs.HC0 = 7 ∧
      s'.adc_regs.GC = 0x40 := by
  obtain ⟨s1, s2, h1, _, _, h2, h3⟩ :=
    analogRead_comparison_failure sampleDefines (abortingHw sampleDefines) 1 continuousADC 1
      rfl (by decide) (Or.inl rfl)
  have e1 : waitIfCalibrating sampleDefines (abortingHw sampleDefines) 1
      { continuousADC with num_measurements := (continuousADC.num_measurements + 1) % 256 }
      = .ok { continuousADC with num_measurements := 2 } := rfl
  rw [e1] at h1
  injection h1 with h1
  subst h1
  have e2 : startReadFast sampleDefines
      (singleMode sampleDefines
        (saveIfInUse (isConverting sampleDefines { continuousADC with num_measurements := 2 })
          { continuousADC with num_measurements := 2 }).2) 1
      = .ok (enable_irq ((disable_irq (singleMode sampleDefines
          (saveIfInUse true { continuousADC with num_measurements := 2 }).2)).write .HC0 8)) := rfl
  rw [e2] at h2
  injection h2 with h2
  subst h2
  obtain ⟨s', h, hf, hn, hr, _, _, _⟩ :=
    (h3 1 (le_refl 1) (fun i hi => by interval_cases i; rfl) rfl).1 rfl
  exact ⟨s', h, hf, hn, (hr rfl).1, (hr rfl).2.2.1⟩

/-! ## The error bits are never cleared -/

/-- A state keeps its own error bits. -/
theorem failKept_refl (s : My_ADC) : failKept s s := fun _ h => h

/-- Keeping the error bits composes. -/
theorem failKept_trans {s t u : My_ADC} (h1 : failKept s t) (h2 : failKept t u) :
    failKept s u := fun i h => h2 i (h1 i h)

/-- An unchanged `fail_flag` keeps the error bits. -/
theorem failKept_of_eq {s t : My_ADC} (h : t.fail_flag = s.fail_flag) : failKept s t := by
  intro i hi
  rw [h]
  exact hi

/-- OR-ing an error bit into `fail_flag` keeps the error bits. -/
theorem failKept_of_or {s t : My_ADC} (x : Nat) (h : t.fail_flag = s.fail_flag ||| x) :
    failKept s t := by
  intro i hi
  rw [h, Nat.testBit_or, hi, Bool.true_or]

/-- The wait for the end of the calibration keeps the error bits. -/
theorem wait_for_cal_failKept (d : Defines) (hw : Hardware) (fuel : Nat) (s t : My_ADC)
    (h : wait_for_cal d hw fuel s = .ok t) : failKept s t := by
  unfold wait_for_cal pollCal at h
  cases hp : pollWhile (fun t => getBitFlag t.adc_regs.GC d.ADC_GC_CAL) hw fuel s with
  | error e => rw [hp] at h; simp at h
  | ok u =>
    rw [hp] at h
    simp only [Except.ok.injEq] at h
    obtain ⟨j, hj⟩ := pollWhile_ok_yields _ hw fuel s u hp
    rw [← h, hj, calDone_yields]
    by_cases hf : getBitFlag (yields hw j s).adc_regs.GS d.ADC_GS_CALF = true
    · exact failKept_of_or d.CALIB (by simp [hf])
    · exact failKept_of_eq (by simp [hf])

/-- The calibration wait of a method keeps the error bits. -/
theorem waitIfCalibrating_failKept (d : Defines) (hw : Hardware) (fuel : Nat) (s t : My_ADC)
    (h : waitIfCalibrating d hw fuel s = .ok t) : failKept s t := by
  unfold waitIfCalibrating at h
  by_cases hc : s.calibrating = 0
  · simp [hc] at h
    rw [← h]
    exact failKept_refl s
  · simp only [ne_eq, hc, not_false_eq_true, if_true] at h
    exact wait_for_cal_failKept d hw fuel s t h

/-- A method that is its calibration wait followed by a body that leaves `fail_flag`
alone keeps the error bits. -/
theorem wait_then_body_failKept (d : Defines) (hw : Hardware) (fuel : Nat) (s t : My_ADC)
    (body : My_ADC → My_ADC) (hbody : ∀ u, (body u).fail_flag = u.fail_flag)
    (h : (match waitIfCalibrating d hw fuel s with
          | .error e => .error e
          | .ok u => .ok (body u) : Except Fault My_ADC) = .ok t) : failKept s t := by
  cases hw1 : waitIfCalibrating d hw fuel s with
  | error e => rw [hw1] at h; simp at h
  | ok u =>
    rw [hw1] at h
    simp only [Except.ok.injEq] at h
    rw [← h]
    exact failKept_trans (waitIfCalibrating_failKept d hw fuel s u hw1)
      (failKept_of_eq (hbody u))

/-- The method `setConversionSpeed` keeps the error bits. -/
theorem setConversionSpeed_failKept (d : Defines) (s : My_ADC) (speed : Nat) :
    failKept s (setConversionSpeed d s speed) := by
  by_cases heq : speed = s.conversion_speed
  · rw [(setConversionSpeed_other d s speed).1 heq]
    exact failKept_refl s
  · by_cases hbus : speed = d.CONVERSION_LOW_SPEED ∨ speed = d.CONVERSION_MED_SPEED ∨
        speed = d.CONVERSION_HIGH_SPEED
    · exact failKept_of_eq (setConversionSpeed_bus d s speed heq hbus).2.1
    · simp only [not_or] at hbus
      obtain ⟨b1, b2, b3⟩ := hbus
      by_cases hadack : speed = d.CONVERSION_ADACK_10 ∨ speed = d.CONVERSION_ADACK_20
      · exact failKept_of_eq (setConversionSpeed_adack d s speed heq b1 b2 b3 hadack).2.1
      · simp only [not_or] at hadack
        rw [(setConversionSpeed_other d s speed).2 heq (by
          simp only [List.mem_cons, List.mem_singleton, List.not_mem_nil, or_false, not_or]
          exact ⟨b1, b2, b3, hadack.1, hadack.2⟩)]
        exact failKept_of_or d.OTHER rfl

/-- The method `setReference` keeps the error bits. -/
theorem setReference_failKept (d : Defines) (s : My_ADC) (type : Nat) :
    failKept s (setReference d s type) := by
  apply failKept_of_eq
  unfold setReference
  by_cases heq : s.analog_reference_internal = type
  · simp [heq]
  · simp only [heq, if_false]
    rw [calibrate_eq]
    split_ifs <;> rfl

/-- The end of `analogRead` keeps the error bits. -/
theorem analogReadFinish_failKept (d : Defines) (w : Bool) (cfg : ADC_Config) (t : My_ADC) :
    failKept t (analogReadFinish d w cfg t).2 := by
  cases hc : isComplete d t
  · exact failKept_of_or d.COMPARISON (analogReadFinish_fail d w cfg t hc).2.1
  · exact failKept_of_eq (analogReadFinish_ok d w cfg t hc).2

/-- The method `analogRead` keeps the error bits. -/
theorem analogRead_failKept (d : Defines) (hw : Hardware) (fuel : Nat) (s t : My_ADC)
    (pin : Nat) (r : Int) (h : analogRead d hw fuel s pin = .ok (r, t)) : failKept s t := by
  unfold analogRead at h
  cases hp : checkPin d s pin with
  | error e => rw [hp] at h; simp at h
  | ok b =>
    rw [hp] at h
    cases b with
    | false =>
      simp only [Except.ok.injEq, Prod.mk.injEq] at h
      rw [← h.2]
      exact failKept_of_or d.WRONG_PIN rfl
    | true =>
      simp only at h
      cases hw1 : waitIfCalibrating d hw fuel
          { s with num_measurements := (s.num_measurements + 1) % 256 } with
      | error e => rw [hw1] at h; simp at h
      | ok s1 =>
        rw [hw1] at h
        simp only at h
        have k1 : failKept s s1 := fun i hi =>
          waitIfCalibrating_failKept d hw fuel _ s1 hw1 i hi
        unfold analogReadConvert at h
        simp only at h
        cases hst : startReadFast d (singleMode d (saveIfInUse (isConverting d s1) s1).2) pin with
        | error e => rw [hst] at h; simp at h
        | ok s2 =>
          rw [hst] at h
          simp only at h
          unfold pollConverting at h
          cases hpo : pollWhile (isConverting d) hw fuel s2 with
          | error e => rw [hpo] at h; simp at h
          | ok s3 =>
            rw [hpo] at h
            simp only [Except.ok.injEq] at h
            obtain ⟨j, hj⟩ := pollWhile_ok_yields _ hw fuel s2 s3 hpo
            obtain ⟨v, hv⟩ := startReadFast_eq d _ s2 pin hst
            have k2 : failKept s1 s3 := by
              apply failKept_of_eq
              rw [hj, (yields_fail_flag_log hw j s2).1, hv]
              exact (singleMode_saveIfInUse_frame d (isConverting d s1) s1).2.1
            have k3 := analogReadFinish_failKept d (isConverting d s1)
              (saveIfInUse (isConverting d s1) s1).1 s3
            rw [h] at k3
            exact failKept_trans k1 (failKept_trans k2 k3)

/-- The methods `startSingleRead` and `startContinuous` keep the error bits. -/
theorem start_failKept (d : Defines) (hw : Hardware) (fuel : Nat) (s t : My_ADC)
    (pin : Nat) (b : Bool) :
    (startSingleRead d hw fuel s pin = .ok (b, t) → failKept s t) ∧
    (startContinuous d hw fuel s pin = .ok (b, t) → failKept s t) := by
  constructor
  · intro h
    unfold startSingleRead at h
    cases hp : checkPin d s pin with
    | error e => rw [hp] at h; simp at h
    | ok c =>
      rw [hp] at h
      cases c with
      | false =>
        simp only [Except.ok.injEq, Prod.mk.injEq] at h
        rw [← h.2]
        exact failKept_of_or d.WRONG_PIN rfl
      | true =>
        simp only at h
        cases hw1 : waitIfCalibrating d hw fuel s with
        | error e => rw [hw1] at h; simp at h
        | ok s1 =>
          rw [hw1] at h
          simp only at h
          have k1 := waitIfCalibrating_failKept d hw fuel s s1 hw1
          revert h
          generalize hT : (singleMode d
            (if ({ s1 with adcWasInUse := (isConverting d s1).toNat } : My_ADC).adcWasInUse ≠ 0
             then enable_irq
               { disable_irq { s1 with adcWasInUse := (isConverting d s1).toNat } with
                 adc_config := saveConfig
                   (disable_irq { s1 with adcWasInUse := (isConverting d s1).toNat }) }
             else { s1 with adcWasInUse := (isConverting d s1).toNat })) = T
          intro h
          have hTf : T.fail_flag = s1.fail_flag := by
            rw [← hT]
            cases isConverting d s1 <;> rfl
          cases hst : startReadFast d T pin with
          | error e => rw [hst] at h; simp at h
          | ok s2 =>
            rw [hst] at h
            simp only [Except.ok.injEq, Prod.mk.injEq] at h
            obtain ⟨v, hv⟩ := startReadFast_eq d T s2 pin hst
            rw [← h.2]
            exact failKept_trans k1 (failKept_of_eq (by rw [hv]; exact hTf))
  · intro h
    unfold startContinuous at h
    cases hp : checkPin d s pin with
    | error e => rw [hp] at h; simp at h
    | ok c =>
      rw [hp] at h
      cases c with
      | false =>
        simp only [Except.ok.injEq, Prod.mk.injEq] at h
        rw [← h.2]
        exact failKept_of_or d.WRONG_PIN rfl
      | true =>
        simp only at h
        cases hw1 : waitIfCalibrating d hw fuel s with
        | error e => rw [hw1] at h; simp at h
        | ok s1 =>
          rw [hw1] at h
          simp only at h
          have k1 := waitIfCalibrating_failKept d hw fuel s s1 hw1
          cases hst : startReadFast d (continuousMode d
              { s1 with num_measurements := (s1.num_measurements + 1) % 256 }) pin with
          | error e => rw [hst] at h; simp at h
          | ok s2 =>
            rw [hst] at h
            simp only [Except.ok.injEq, Prod.mk.injEq] at h
            obtain ⟨v, hv⟩ := startReadFast_eq d _ s2 pin hst
            rw [← h.2]
            exact failKept_trans k1 (failKept_of_eq (by rw [hv]; rfl))

/-- The calibration methods, the setters of the settings, the single-ended reads and
`stopContinuous` keep the error bits. -/
theorem failKept_settings_and_reads (d : Defines) (hw : Hardware) (fuel : Nat) (s t : My_ADC) :
    failKept s (calibrate d s) ∧
    (wait_for_cal d hw fuel s = .ok t → failKept s t) ∧
    (recalibrate d hw fuel s = .ok t → failKept s t) ∧
    (∀ type, failKept s (setReference d s type)) ∧
    (∀ bits, setResolution d hw fuel s bits = .ok t → failKept s t) ∧
    (∀ speed, failKept s (setConversionSpeed d s speed)) ∧
    (∀ speed, setSamplingSpeed d hw fuel s speed = .ok t → failKept s t) ∧
    (∀ num, setAveraging d hw fuel s num = .ok t → failKept s t) ∧
    (∀ compValue greaterThan,
      enableCompare d hw fuel s compValue greaterThan = .ok t → failKept s t) ∧
    (∀ lowerLimit upperLimit insideRange inclusive,
      enableCompareRange d hw fuel s lowerLimit upperLimit insideRange inclusive = .ok t →
        failKept s t) ∧
    failKept s (disableCompare d s) ∧
    (∀ pin r, analogRead d hw fuel s pin = .ok (r, t) → failKept s t) ∧
    (∀ pin b, startSingleRead d hw fuel s pin = .ok (b, t) → failKept s t) ∧
    (∀ pin b, startContinuous d hw fuel s pin = .ok (b, t) → failKept s t) ∧
    failKept s (stopContinuous d s) := by
  refine ⟨?_, wait_for_cal_failKept d hw fuel s t, ?_, setReference_failKept d s, ?_,
    setConversionSpeed_failKept d s, ?_, ?_, ?_, ?_, failKept_of_eq rfl, ?_, ?_, ?_, ?_⟩
  · exact failKept_of_eq (by rw [calibrate_eq])
  · intro h
    unfold recalibrate at h
    exact failKept_trans (failKept_of_eq (by rw [calibrate_eq]))
      (wait_for_cal_failKept d hw fuel _ t h)
  · intro bits h
    unfold setResolution at h
    by_cases heq : s.analog_res_bits = bits
    · simp [heq] at h
      rw [← h]
      exact failKept_refl s
    · rw [if_neg heq] at h
      exact wait_then_body_failKept d hw fuel s t (fun u => setResolutionBody d u bits)
        (fun u => (setResolutionBody_frame d u bits).2.1) h
  · intro speed h
    exact wait_then_body_failKept d hw fuel s t (fun u => setSamplingSpeedBody d u speed)
      (fun u => (setSamplingSpeedBody_frame d u speed).2.1) h
  · intro num h
    exact wait_then_body_failKept d hw fuel s t (fun u => setAveragingBody d u num)
      (fun u => (setAveragingBody_frame d u num).2.1) h
  · intro c g h
    exact wait_then_body_failKept d hw fuel s t (fun u => enableCompareBody d u c g)
      (fun u => (enableCompareBody_frame d u c g).2.1) h
  · intro l u i e h
    exact wait_then_body_failKept d hw fuel s t
      (fun v => enableCompareRangeBody d v l u i e)
      (fun v => (enableCompareRangeBody_frame d v l u i e).2.1) h
  · intro pin r h
    exact analogRead_failKept d hw fuel s t pin r h
  · intro pin b h
    exact (start_failKept d hw fuel s t pin b).1 h
  · intro pin b h
    exact (start_failKept d hw fuel s t pin b).2 h
  · exact failKept_of_eq (by rw [stopContinuous_eq])

/-- The method `startReadFast` leaves `fail_flag` alone. -/
theorem startReadFast_fail_flag (d : Defines) (t s2 : My_ADC) (pin : Nat)
    (h : startReadFast d t pin = .ok s2) : s2.fail_flag = t.fail_flag := by
  obtain ⟨v, hv⟩ := startReadFast_eq d t s2 pin h
  rw [hv]

/-- The method `startDifferentialFast` leaves `fail_flag` alone. -/
theorem startDifferentialFast_fail_flag (d : Defines) (t s2 : My_ADC) (pinP pinN : Nat)
    (h : startDifferentialFast d t pinP pinN = .ok s2) : s2.fail_flag = t.fail_flag := by
  unfold startDifferentialFast at h
  cases hg : getDifferentialPair d t pinP with
  | error e => rw [hg] at h; simp at h
  | ok c =>
    rw [hg] at h
    simp only [Except.ok.injEq] at h
    rw [← h]
    rfl

/-- The end of `analogReadDifferential` keeps the error bits. -/
theorem analogReadDifferentialFinish_failKept (d : Defines) (res : Nat) (w : Bool)
    (cfg : ADC_Config) (t : My_ADC) :
    failKept t (analogReadDifferentialFinish d res w cfg t).2 := by
  cases hc : isComplete d t
  · have hc2 : ¬ isComplete d (disable_irq t) = true := by
      have : isComplete d (disable_irq t) = isComplete d t := rfl
      rw [this, hc]
      exact Bool.false_ne_true
    apply failKept_of_or d.COMPARISON
    cases w
    · simp only [analogReadDifferentialFinish, hc2, if_false]
      simp [restoreIfInUse, disable_irq, enable_irq]
    · simp only [analogReadDifferentialFinish, hc2, if_false]
      simp [restoreIfInUse, loadConfig, disable_irq, enable_irq, My_ADC.write]
  · have hc2 : isComplete d (disable_irq t) = true := hc
    apply failKept_of_eq
    cases w
    · simp only [analogReadDifferentialFinish, hc2, if_true]
      simp [restoreIfInUse, disable_irq, enable_irq]
    · simp only [analogReadDifferentialFinish, hc2, if_true]
      simp [restoreIfInUse, loadConfig, disable_irq, enable_irq, My_ADC.write]

/-- The method `analogReadDifferential` keeps the error bits. -/
theorem analogReadDifferential_failKept (d : Defines) (hw : Hardware) (fuel : Nat)
    (s t : My_ADC) (pinP pinN : Nat) (r : Int)
    (h : analogReadDifferential d hw fuel s pinP pinN = .ok (r, t)) : failKept s t := by
  unfold analogReadDifferential at h
  cases hp : checkDifferentialPins d s pinP pinN with
  | error e => rw [hp] at h; simp at h
  | ok b =>
    rw [hp] at h
    cases b with
    | false =>
      simp only [Except.ok.injEq, Prod.mk.injEq] at h
      rw [← h.2]
      exact failKept_of_or d.WRONG_PIN rfl
    | true =>
      simp only at h
      cases hw1 : waitIfCalibrating d hw fuel
          { s with num_measurements := (s.num_measurements + 1) % 256 } with
      | error e => rw [hw1] at h; simp at h
      | ok s1 =>
        rw [hw1] at h
        simp only at h
        have k1 : failKept s s1 := fun i hi =>
          waitIfCalibrating_failKept d hw fuel _ s1 hw1 i hi
        unfold analogReadDifferentialConvert at h
        simp only at h
        cases hst : startDifferentialFast d
            (singleMode d (saveIfInUse (isConverting d s1) s1).2) pinP pinN with
        | error e => rw [hst] at h; simp at h
        | ok s2 =>
          rw [hst] at h
          simp only at h
          unfold pollConverting at h
          cases hpo : pollWhile (isConverting d) hw fuel s2 with
          | error e => rw [hpo] at h; simp at h
          | ok s3 =>
            rw [hpo] at h
            simp only [Except.ok.injEq] at h
            obtain ⟨j, hj⟩ := pollWhile_ok_yields _ hw fuel s2 s3 hpo
            have k2 : failKept s1 s3 := by
              apply failKept_of_eq
              rw [hj, (yields_fail_flag_log hw j s2).1,
                startDifferentialFast_fail_flag d _ s2 pinP pinN hst]
              exact (singleMode_saveIfInUse_frame d (isConverting d s1) s1).2.1
            have k3 := analogReadDifferentialFinish_failKept d (getResolution s1)
              (isConverting d s1) (saveIfInUse (isConverting d s1) s1).1 s3
            rw [h] at k3
            exact failKept_trans k1 (failKept_trans k2 k3)

/-- The methods `startSingleDifferential` and `startContinuousDifferential` keep the
error bits. -/
theorem startDifferential_failKept (d : Defines) (hw : Hardware) (fuel : Nat)
    (s t : My_ADC) (pinP pinN : Nat) (b : Bool) :
    (startSingleDifferential d hw fuel s pinP pinN = .ok (b, t) → failKept s t) ∧
    (startContinuousDifferential d hw fuel s pinP pinN = .ok (b, t) → failKept s t) := by
  constructor
  · intro h
    unfold startSingleDifferential at h
    cases hp : checkDifferentialPins d s pinP pinN with
    | error e => rw [hp] at h; simp at h
    | ok c =>
      rw [hp] at h
      cases c with
      | false =>
        simp only [Except.ok.injEq, Prod.mk.injEq] at h
        rw [← h.2]
        exact failKept_of_or d.WRONG_PIN rfl
      | true =>
        simp only at h
        cases hw1 : waitIfCalibrating d hw fuel s with
        | error e => rw [hw1] at h; simp at h
        | ok s1 =>
          rw [hw1] at h
          simp only at h
          have k1 := waitIfCalibrating_failKept d hw fuel s s1 hw1
          revert h
          generalize hT : (singleMode d
            (if ({ s1 with adcWasInUse := (isConverting d s1).toNat } : My_ADC).adcWasInUse ≠ 0
             then enable_irq
               { disable_irq { s1 with adcWasInUse := (isConverting d s1).toNat } with
                 adc_config := saveConfig
                   (disable_irq { s1 with adcWasInUse := (isConverting d s1).toNat }) }
             else { s1 with adcWasInUse := (isConverting d s1).toNat })) = T
          intro h
          have hTf : T.fail_flag = s1.fail_flag := by
            rw [← hT]
            cases isConverting d s1 <;> rfl
          cases hst : startDifferentialFast d T pinP pinN with
          | error e => rw [hst] at h; simp at h
          | ok s2 =>
            rw [hst] at h
            simp only [Except.ok.injEq, Prod.mk.injEq] at h
            rw [← h.2]
            exact failKept_trans k1 (failKept_of_eq
              ((startDifferentialFast_fail_flag d T s2 pinP pinN hst).trans hTf))
  · intro h
    unfold startContinuousDifferential at h
    cases hp : checkDifferentialPins d s pinP pinN with
    | error e => rw [hp] at h; simp at h
    | ok c =>
      rw [hp] at h
      cases c with
      | false =>
        simp only [Except.ok.injEq, Prod.mk.injEq] at h
        rw [← h.2]
        exact failKept_of_or d.WRONG_PIN rfl
      | true =>
        simp only at h
        cases hw1 : waitIfCalibrating d hw fuel
            { s with num_measurements := (s.num_measurements + 1) % 256 } with
        | error e => rw [hw1] at h; simp at h
        | ok s1 =>
          rw [hw1] at h
          simp only at h
          have k1 : failKept s s1 := fun i hi =>
            waitIfCalibrating_failKept d hw fuel _ s1 hw1 i hi
          revert h
          generalize hT : (continuousMode d
            (if isConverting d s1 = true
             then enable_irq { disable_irq s1 with adc_config := saveConfig (disable_irq s1) }
             else s1)) = T
          intro h
          have hTf : T.fail_flag = s1.fail_flag := by
            rw [← hT]
            cases isConverting d s1 <;> rfl
          cases hst : startDifferentialFast d T pinP pinN with
          | error e => rw [hst] at h; simp at h
          | ok s2 =>
            rw [hst] at h
            simp only [Except.ok.injEq, Prod.mk.injEq] at h
            rw [← h.2]
            exact failKept_trans k1 (failKept_of_eq
              ((startDifferentialFast_fail_flag d T s2 pinP pinN hst).trans hTf))

/-- The operations on the interrupt, DMA, offset, gain, mode and trigger settings, the
conversion starters, the differential reads, the timer methods and the two
configuration helpers keep the error bits. -/
theorem failKept_other_operations (d : Defines) (hw : Hardware) (fuel : Nat)
    (s t : My_ADC) :
    (∀ priority, enableInterrupts d hw fuel s priority = .ok t → failKept s t) ∧
    failKept s (disableInterrupts d s) ∧
    (enableDMA d hw fuel s = .ok t → failKept s t) ∧
    failKept s (disableDMA d s) ∧
    (∀ offset subtract, failKept s (setOffset d s offset subtract)) ∧
    (∀ gain, enablePGA d hw fuel s gain = .ok t → failKept s t) ∧
    failKept s (disablePGA d s) ∧
    failKept s (continuousMode d s) ∧
    failKept s (singleMode d s) ∧
    failKept s (differentialMode d s) ∧
    failKept s (setSoftwareTrigger d s) ∧
    failKept s (setHardwareTrigger d s) ∧
    (∀ pin, startReadFast d s pin = .ok t → failKept s t) ∧
    (∀ pinP pinN, startDifferentialFast d s pinP pinN = .ok t → failKept s t) ∧
    (∀ pinP pinN r, analogReadDifferential d hw fuel s pinP pinN = .ok (r, t) →
      failKept s t) ∧
    (∀ pinP pinN b, startSingleDifferential d hw fuel s pinP pinN = .ok (b, t) →
      failKept s t) ∧
    (∀ pinP pinN b, startContinuousDifferential d hw fuel s pinP pinN = .ok (b, t) →
      failKept s t) ∧
    (∀ freq, failKept s (startQuadTimer d s freq)) ∧
    failKept s (stopQuadTimer d s) ∧
    failKept s { s with adc_config := saveConfig s } ∧
    (∀ config, failKept s (loadConfig s config)) := by
  refine ⟨?_, failKept_of_eq rfl, ?_, failKept_of_eq rfl, fun _ _ => failKept_of_eq rfl, ?_,
    failKept_of_eq rfl, failKept_of_eq rfl, failKept_of_eq rfl, failKept_of_eq rfl,
    failKept_of_eq rfl, failKept_of_eq rfl, ?_, ?_, ?_, ?_, ?_, fun _ => failKept_of_eq rfl,
    failKept_of_eq rfl, failKept_of_eq rfl, fun _ => failKept_of_eq rfl⟩
  · intro p h
    exact wait_then_body_failKept d hw fuel s t (fun u => enableInterruptsBody d u)
      (fun _ => rfl) h
  · intro h
    exact wait_then_body_failKept d hw fuel s t (fun u => enableDMABody d u)
      (fun _ => rfl) h
  · intro g h
    exact wait_then_body_failKept d hw fuel s t (fun u => enablePGABody d u g)
      (fun _ => rfl) h
  · intro pin h
    exact failKept_of_eq (startReadFast_fail_flag d s t pin h)
  · intro pinP pinN h
    exact failKept_of_eq (startDifferentialFast_fail_flag d s t pinP pinN h)
  · intro pinP pinN r h
    exact analogReadDifferential_failKept d hw fuel s t pinP pinN r h
  · intro pinP pinN b h
    exact (startDifferential_failKept d hw fuel s t pinP pinN b).1 h
  · intro pinP pinN b h
    exact (startDifferential_failKept d hw fuel s t pinP pinN b).2 h

/-- Claim C19: the error bitmask is persistent. For every state and every method of the
class that changes the instance, other than `resetError` (`calibrate`, `wait_for_cal`,
`recalibrate`; the setters `setReference`, `setResolution`, `setConversionSpeed`,
`setSamplingSpeed`, `setAveraging`, `enableInterrupts`, `disableInterrupts`,
`enableDMA`, `disableDMA`, `enableCompare`, `enableCompareRange`, `disableCompare`,
`setOffset`, `enablePGA`, `disablePGA`, `continuousMode`, `singleMode`,
`differentialMode`, `setSoftwareTrigger`, `setHardwareTrigger`; the conversion methods
`startReadFast`, `startDifferentialFast`, `analogRead`, `analogReadDifferential`,
`startSingleRead`, `startSingleDifferential`, `startContinuous`,
`startContinuousDifferential`, `stopContinuous`; the timer methods `startQuadTimer`
and `stopQuadTimer`, which `startTimer` and `stopTimer` forward to; `saveConfig` into
the member `adc_config` and `loadConfig`), whatever the fuel and the arguments: in the
state the method returns, every bit of `fail_flag` that was set before the call is
still set. The remaining methods (`getResolution`, `getMaxValue`, `getPGA`, the `is...`
queries, `checkPin`, `checkDifferentialPins`, `readSingle`, `analogReadContinuous`, the
timer frequency queries) return a value and no new state; the constructor with its
private `analog_init` is where the bitmask starts empty. -/
theorem fail_flag_persistent (d : Defines) (hw : Hardware) (fuel : Nat) (s t : My_ADC) :
    failKept s (calibrate d s) ∧
    (wait_for_cal d hw fuel s = .ok t → failKept s t) ∧
    (recalibrate d hw fuel s = .ok t → failKept s t) ∧
    (∀ type, failKept s (setReference d s type)) ∧
    (∀ bits, setResolution d hw fuel s bits = .ok t → failKept s t) ∧
    (∀ speed, failKept s (setConversionSpeed d s speed)) ∧
    (∀ speed, setSamplingSpeed d hw fuel s speed = .ok t → failKept s t) ∧
    (∀ num, setAveraging d hw fuel s num = .ok t → failKept s t) ∧
    (∀ compValue greaterThan,
      enableCompare d hw fuel s compValue greaterThan = .ok t → failKept s t) ∧
    (∀ lowerLimit upperLimit insideRange inclusive,
      enableCompareRange d hw fuel s lowerLimit upperLimit insideRange inclusive = .ok t →
        failKept s t) ∧
    failKept s (disableCompare d s) ∧
    (∀ pin r, analogRead d hw fuel s pin = .ok (r, t) → failKept s t) ∧
    (∀ pin b, startSingleRead d hw fuel s pin = .ok (b, t) → failKept s t) ∧
    (∀ pin b, startContinuous d hw fuel s pin = .ok (b, t) → failKept s t) ∧
    failKept s (stopContinuous d s) ∧
    (∀ priority, enableInterrupts d hw fuel s priority = .ok t → failKept s t) ∧
    failKept s (disableInterrupts d s) ∧
    (enableDMA d hw fuel s = .ok t → failKept s t) ∧
    failKept s (disableDMA d s) ∧
    (∀ offset subtract, failKept s (setOffset d s offset subtract)) ∧
    (∀ gain, enablePGA d hw fuel s gain = .ok t → failKept s t) ∧
    failKept s (disablePGA d s) ∧
    failKept s (continuousMode d s) ∧
    failKept s (singleMode d s) ∧
    failKept s (differentialMode d s) ∧
    failKept s (setSoftwareTrigger d s) ∧
    failKept s (setHardwareTrigger d s) ∧
    (∀ pin, startReadFast d s pin = .ok t → failKept s t) ∧
    (∀ pinP pinN, startDifferentialFast d s pinP pinN = .ok t → failKept s t) ∧
    (∀ pinP pinN r, analogReadDifferential d hw fuel s pinP pinN = .ok (r, t) →
      failKept s t) ∧
    (∀ pinP pinN b, startSingleDifferential d hw fuel s pinP pinN = .ok (b, t) →
      failKept s t) ∧
    (∀ pinP pinN b, startContinuousDifferential d hw fuel s pinP pinN = .ok (b, t) →
      failKept s t) ∧
    (∀ freq, failKept s (startQuadTimer d s freq)) ∧
    failKept s (stopQuadTimer d s) ∧
    failKept s { s with adc_config := saveConfig s } ∧
    (∀ config, failKept s (loadConfig s config)) := by
  obtain ⟨a1, a2, a3, a4, a5, a6, a7, a8, a9, a10, a11, a12, a13, a14, a15⟩ :=
    failKept_settings_and_reads d hw fuel s t
  obtain ⟨b1, b2, b3, b4, b5, b6, b7, b8, b9, b10, b11, b12, b13, b14, b15, b16, b17, b18,
    b19, b20, b21⟩ := failKept_other_operations d hw fuel s t
  exact ⟨a1, a2, a3, a4, a5, a6, a7, a8, a9, a10, a11, a12, a13, a14, a15, b1, b2, b3, b4,
    b5, b6, b7, b8, b9, b10, b11, b12, b13, b14, b15, b16, b17, b18, b19, b20, b21⟩

/-- Claim C19 at a sample input: with `WRONG_PIN` and `CALIB` recorded, a calibration
that succeeds and a read that succeeds return with both bits still set; and with
`WRONG_PIN` recorded, `enableInterrupts` called during a calibration that fails returns
with `WRONG_PIN` still set next to the new `CALIB`. -/
theorem fail_flag_persistent_witness :
    (∃ t, recalibrate sampleDefines (finishingHw sampleDefines) 1
        { sampleADC with fail_flag := 6 } = .ok t ∧
      failKept { sampleADC with fail_flag := 6 } t ∧ t.fail_flag = 6) ∧
    (∃ r t, analogRead sampleDefines (finishingHw sampleDefines) 1
        { continuousADC with fail_flag := 6 } 0 = .ok (r, t) ∧
      failKept { continuousADC with fail_flag := 6 } t ∧ t.fail_flag = 6) ∧
    (∃ t, enableInterrupts sampleDefines (failingCalHw sampleDefines) 1
        (calibrate sampleDefines { sampleADC with fail_flag := 4 }) 255 = .ok t ∧
      failKept (calibrate sampleDefines { sampleADC with fail_flag := 4 }) t ∧
      t.fail_flag = 6) := by
  refine ⟨⟨_, rfl, ?_, rfl⟩, ⟨_, _, rfl, ?_, rfl⟩, ⟨_, rfl, ?_, rfl⟩⟩
  · exact (fail_flag_persistent sampleDefines (finishingHw sampleDefines) 1
      { sampleADC with fail_flag := 6 } _).2.2.1 rfl
  · exact (fail_flag_persistent sampleDefines (finishingHw sampleDefines) 1
      { continuousADC with fail_flag := 6 } _).2.2.2.2.2.2.2.2.2.2.2.1 0 _ rfl
  · exact (fail_flag_persistent sampleDefines (failingCalHw sampleDefines) 1
      (calibrate sampleDefines { sampleADC with fail_flag := 4 })
      _).2.2.2.2.2.2.2.2.2.2.2.2.2.2.2.1 255 rfl

/-! ## Setters called with the value in effect -/

/-- Claim C21: the guarded setters are idempotent. For every state, `setResolution` with
the stored resolution, `setConversionSpeed` with the stored conversion speed and
`setReference` with the stored reference source each return the state they were given:
no register is written (the log of stores is as at entry), `calibrating` is untouched
even when a calibration is in progress, and no calibration is started. -/
theorem guarded_setters_idempotent (d : Defines) (hw : Hardware) (fuel : Nat) (s : My_ADC) :
    setResolution d hw fuel s s.analog_res_bits = .ok s ∧
    setConversionSpeed d s s.conversion_speed = s ∧
    setReference d s s.analog_reference_internal = s := by
  refine ⟨?_, ?_, ?_⟩
  · simp [setResolution]
  · simp [setConversionSpeed]
  · simp [setReference]

/-! ## Setters called again with the value stored -/

/-- Clearing a flag twice is clearing it once. -/
theorem bits_clear_twice (x m : Nat) :
    (x &&& not32 m) &&& not32 m = x &&& not32 m := by
  rw [Nat.and_assoc, Nat.and_self]

/-- Setting a flag twice is setting it once. -/
theorem bits_set_twice (x m : Nat) : (x ||| m) ||| m = x ||| m := by
  rw [Nat.or_assoc, Nat.or_self]

/-- Changing a field to a value twice is changing it once. -/
theorem bits_change_twice (x m v : Nat) :
    (((x &&& not32 m) ||| v) &&& not32 m) ||| v = (x &&& not32 m) ||| v := by
  apply Nat.eq_of_testBit_eq
  intro i
  simp only [Nat.testBit_or, Nat.testBit_and, testBit_not32]
  generalize x.testBit i = a
  generalize m.testBit i = b
  generalize v.testBit i = c
  generalize decide (i < 32) = e
  cases a <;> cases b <;> cases c <;> cases e <;> rfl

/-- Setting a flag and changing a field, twice, is doing it once. -/
theorem bits_set_change_twice (x l m v : Nat) :
    (((((x ||| l) &&& not32 m) ||| v) ||| l) &&& not32 m) ||| v
      = ((x ||| l) &&& not32 m) ||| v := by
  apply Nat.eq_of_testBit_eq
  intro i
  simp only [Nat.testBit_or, Nat.testBit_and, testBit_not32]
  generalize x.testBit i = a
  generalize l.testBit i = b
  generalize m.testBit i = c
  generalize v.testBit i = f
  generalize decide (i < 32) = e
  cases a <;> cases b <;> cases c <;> cases f <;> cases e <;> rfl

/-- Clearing a flag and changing a field, twice, is doing it once. -/
theorem bits_clear_change_twice (x l m v : Nat) :
    (((((x &&& not32 l) &&& not32 m) ||| v) &&& not32 l) &&& not32 m) ||| v
      = ((x &&& not32 l) &&& not32 m) ||| v := by
  apply Nat.eq_of_testBit_eq
  intro i
  simp only [Nat.testBit_or, Nat.testBit_and, testBit_not32]
  generalize x.testBit i = a
  generalize l.testBit i = b
  generalize m.testBit i = c
  generalize v.testBit i = f
  generalize decide (i < 32) = e
  cases a <;> cases b <;> cases c <;> cases f <;> cases e <;> rfl

/-- The state after setting a flag of `CFG` and changing a field of it. -/
theorem set_change_CFG (t : My_ADC) (l m v : Nat) :
    changeBitFlag (setBitFlag t .CFG l) .CFG m v =
      { t with
        adc_regs := { t.adc_regs with CFG := ((t.adc_regs.CFG ||| l) &&& not32 m) ||| v }
        log := (changeBitFlag (setBitFlag t .CFG l) .CFG m v).log } := by
  simp [setBitFlag, changeBitFlag, My_ADC.write, ADC_REGS_t.get, ADC_REGS_t.set]

/-- The state after clearing a flag of `CFG` and changing a field of it. -/
theorem clear_change_CFG (t : My_ADC) (l m v : Nat) :
    changeBitFlag (clearBitFlag t .CFG l) .CFG m v =
      { t with
        adc_regs := { t.adc_regs with
          CFG := ((t.adc_regs.CFG &&& not32 l) &&& not32 m) ||| v }
        log := (changeBitFlag (clearBitFlag t .CFG l) .CFG m v).log } := by
  simp [clearBitFlag, changeBitFlag, My_ADC.write, ADC_REGS_t.get, ADC_REGS_t.set]

/-- The body of `setSamplingSpeed` stores the speed and applies to `CFG` a function that
depends on the speed only and that, applied twice, gives what it gives applied once;
it leaves every other member and register alone. -/
theorem setSamplingSpeedBody_form (d : Defines) (speed : Nat) :
    ∃ F : Nat → Nat, (∀ x, F (F x) = F x) ∧
      ∀ t, setSamplingSpeedBody d t speed =
        { t with
          adc_regs := { t.adc_regs with CFG := F t.adc_regs.CFG }
          log := (setSamplingSpeedBody d t speed).log
          sampling_speed := speed } := by
  unfold setSamplingSpeedBody
  split_ifs
  · exact ⟨fun x => ((x ||| d.ADC_CFG_ADLSMP) &&& not32 (d.ADC_CFG_ADSTS 3)) ||| d.ADC_CFG_ADSTS 3,
      fun x => bits_set_change_twice x _ _ _, fun t => by rw [set_change_CFG]⟩
  · exact ⟨fun x => ((x ||| d.ADC_CFG_ADLSMP) &&& not32 (d.ADC_CFG_ADSTS 3)) ||| d.ADC_CFG_ADSTS 2,
      fun x => bits_set_change_twice x _ _ _, fun t => by rw [set_change_CFG]⟩
  · exact ⟨fun x => ((x ||| d.ADC_CFG_ADLSMP) &&& not32 (d.ADC_CFG_ADSTS 3)) ||| d.ADC_CFG_ADSTS 1,
      fun x => bits_set_change_twice x _ _ _, fun t => by rw [set_change_CFG]⟩
  · exact ⟨fun x => ((x ||| d.ADC_CFG_ADLSMP) &&& not32 (d.ADC_CFG_ADSTS 3)) ||| d.ADC_CFG_ADSTS 0,
      fun x => bits_set_change_twice x _ _ _, fun t => by rw [set_change_CFG]⟩
  · exact ⟨fun x => ((x &&& not32 d.ADC_CFG_ADLSMP) &&& not32 (d.ADC_CFG_ADSTS 3)) ||| d.ADC_CFG_ADSTS 3,
      fun x => bits_clear_change_twice x _ _ _, fun t => by rw [clear_change_CFG]⟩
  · exact ⟨fun x => ((x &&& not32 d.ADC_CFG_ADLSMP) &&& not32 (d.ADC_CFG_ADSTS 3)) ||| d.ADC_CFG_ADSTS 2,
      fun x => bits_clear_change_twice x _ _ _, fun t => by rw [clear_change_CFG]⟩
  · exact ⟨fun x => ((x &&& not32 d.ADC_CFG_ADLSMP) &&& not32 (d.ADC_CFG_ADSTS 3)) ||| d.ADC_CFG_ADSTS 1,
      fun x => bits_clear_change_twice x _ _ _, fun t => by rw [clear_change_CFG]⟩
  · exact ⟨fun x => ((x &&& not32 d.ADC_CFG_ADLSMP) &&& not32 (d.ADC_CFG_ADSTS 3)) ||| d.ADC_CFG_ADSTS 0,
      fun x => bits_clear_change_twice x _ _ _, fun t => by rw [clear_change_CFG]⟩
  · exact ⟨fun x => x, fun _ => rfl, fun t => rfl⟩

/-- The body of `setSamplingSpeed`, run again with the same speed, changes nothing but
the log. -/
theorem setSamplingSpeedBody_repeat (d : Defines) (t : My_ADC) (speed : Nat) :
    setSamplingSpeedBody d (setSamplingSpeedBody d t speed) speed =
      { setSamplingSpeedBody d t speed with
        log := (setSamplingSpeedBody d (setSamplingSpeedBody d t speed) speed).log } := by
  obtain ⟨F, hF, hform⟩ := setSamplingSpeedBody_form d speed
  have h1 := hform t
  generalize setSamplingSpeedBody d t speed = u at h1 ⊢
  have h2 := hform u
  generalize setSamplingSpeedBody d u speed = v at h2 ⊢
  have hc : u.adc_regs.CFG = F t.adc_regs.CFG := by rw [h1]
  have hs : u.sampling_speed = speed := by rw [h1]
  rw [h2, hc, hF, ← hc, ← hs]

/-- The body of `setAveraging` stores the rounded value `r` and applies to `GC` and to
`CFG` functions that depend on the argument only and that, applied twice, give what
they give applied once; it leaves every other member and register alone; and called
with `r` it does the same as called with the argument. -/
theorem setAveragingBody_form (d : Defines) (num : Nat) :
    ∃ (G C : Nat → Nat) (r : Nat), (∀ x, G (G x) = G x) ∧ (∀ x, C (C x) = C x) ∧
      (∀ t, setAveragingBody d t num =
        { t with
          adc_regs := { t.adc_regs with GC := G t.adc_regs.GC, CFG := C t.adc_regs.CFG }
          log := (setAveragingBody d t num).log
          analog_num_average := r }) ∧
      (∀ t, setAveragingBody d t r =
        { t with
          adc_regs := { t.adc_regs with GC := G t.adc_regs.GC, CFG := C t.adc_regs.CFG }
          log := (setAveragingBody d t r).log
          analog_num_average := r }) := by
  by_cases h1 : num ≤ 1
  · refine ⟨fun x => x &&& not32 d.ADC_GC_AVGE, fun x => x, 0,
      fun x => bits_clear_twice x _, fun _ => rfl, fun t => ?_, fun t => ?_⟩
    · simp [setAveragingBody, h1, clearBitFlag, My_ADC.write, ADC_REGS_t.get, ADC_REGS_t.set]
    · simp [setAveragingBody, clearBitFlag, My_ADC.write, ADC_REGS_t.get, ADC_REGS_t.set]
  · by_cases h4 : num ≤ 4
    · refine ⟨fun x => x ||| d.ADC_GC_AVGE, fun x => x &&& not32 (d.ADC_CFG_AVGS 3), 4,
        fun x => bits_set_twice x _, fun x => bits_clear_twice x _, fun t => ?_, fun t => ?_⟩
      · simp [setAveragingBody, h1, h4, setBitFlag, clearBitFlag, My_ADC.write,
          ADC_REGS_t.get, ADC_REGS_t.set]
      · simp [setAveragingBody, setBitFlag, clearBitFlag, My_ADC.write,
          ADC_REGS_t.get, ADC_REGS_t.set]
    · by_cases h8 : num ≤ 8
      · refine ⟨fun x => x ||| d.ADC_GC_AVGE,
          fun x => (x &&& not32 (d.ADC_CFG_AVGS 3)) ||| d.ADC_CFG_AVGS 1, 8,
          fun x => bits_set_twice x _, fun x => bits_change_twice x _ _,
          fun t => ?_, fun t => ?_⟩
        · simp [setAveragingBody, h1, h4, h8, setBitFlag, changeBitFlag, My_ADC.write,
            ADC_REGS_t.get, ADC_REGS_t.set]
        · simp [setAveragingBody, setBitFlag, changeBitFlag, My_ADC.write,
            ADC_REGS_t.get, ADC_REGS_t.set]
      · by_cases h16 : num ≤ 16
        · refine ⟨fun x => x ||| d.ADC_GC_AVGE,
            fun x => (x &&& not32 (d.ADC_CFG_AVGS 3)) ||| d.ADC_CFG_AVGS 2, 16,
            fun x => bits_set_twice x _, fun x => bits_change_twice x _ _,
            fun t => ?_, fun t => ?_⟩
          · simp [setAveragingBody, h1, h4, h8, h16, setBitFlag, changeBitFlag, My_ADC.write,
              ADC_REGS_t.get, ADC_REGS_t.set]
          · simp [setAveragingBody, setBitFlag, changeBitFlag, My_ADC.write,
              ADC_REGS_t.get, ADC_REGS_t.set]
        · refine ⟨fun x => x ||| d.ADC_GC_AVGE, fun x => x ||| d.ADC_CFG_AVGS 3, 32,
            fun x => bits_set_twice x _, fun x => bits_set_twice x _,
            fun t => ?_, fun t => ?_⟩
          · simp [setAveragingBody, h1, h4, h8, h16, setBitFlag, My_ADC.write,
              ADC_REGS_t.get, ADC_REGS_t.set]
          · simp [setAveragingBody, setBitFlag, My_ADC.write,
              ADC_REGS_t.get, ADC_REGS_t.set]

/-- The body of `setAveraging`, run again with the value it stored, changes nothing but
the log. -/
theorem setAveragingBody_repeat (d : Defines) (t : My_ADC) (num : Nat) :
    setAveragingBody d (setAveragingBody d t num) (setAveragingBody d t num).analog_num_average
      = { setAveragingBody d t num with
          log := (setAveragingBody d (setAveragingBody d t num)
            (setAveragingBody d t num).analog_num_average).log } := by
  obtain ⟨G, C, r, hG, hC, hform, hformr⟩ := setAveragingBody_form d num
  have h1 := hform t
  generalize setAveragingBody d t num = u at h1 ⊢
  have hr : u.analog_num_average = r := by rw [h1]
  rw [hr]
  have h2 := hformr u
  generalize setAveragingBody d u r = v at h2 ⊢
  have hg : u.adc_regs.GC = G t.adc_regs.GC := by rw [h1]
  have hc : u.adc_regs.CFG = C t.adc_regs.CFG := by rw [h1]
  rw [h2, hg, hc, hG, hC, ← hc, ← hg, ← hr]

/-- With no calibration in progress the calibration wait of a method returns at once. -/
theorem waitIfCalibrating_idle (d : Defines) (hw : Hardware) (fuel : Nat) (t : My_ADC)
    (ht : t.calibrating = 0) : waitIfCalibrating d hw fuel t = .ok t := by
  unfold waitIfCalibrating
  simp [ht]

/-- Claim C22, as stated, fails: the two setters have no early return. On the idle
instance `setAveraging(4)` stores 4; called again with 4 it writes `GC` and `CFG` once
more, so the state it returns is not the state it was given. Likewise
`setSamplingSpeed(HIGH_SPEED)`, called again with the speed it stored, writes `CFG`
twice more. -/
theorem setAveraging_repeat_writes_registers :
    (∃ s1 s2, setAveraging sampleDefines idleHw 0 sampleADC 4 = .ok s1 ∧
      s1.analog_num_average = 4 ∧ s1.calibrating = 0 ∧
      setAveraging sampleDefines idleHw 0 s1 4 = .ok s2 ∧
      s2.log = s1.log ++ [Event.write .GC 0x20, Event.write .CFG 0] ∧ s2 ≠ s1) ∧
    (∃ s1 s2, setSamplingSpeed sampleDefines idleHw 0 sampleADC
        sampleDefines.SAMPLING_HIGH_SPEED = .ok s1 ∧
      s1.sampling_speed = sampleDefines.SAMPLING_HIGH_SPEED ∧ s1.calibrating = 0 ∧
      setSamplingSpeed sampleDefines idleHw 0 s1 sampleDefines.SAMPLING_HIGH_SPEED = .ok s2 ∧
      s2.log = s1.log ++ [Event.write .CFG 0x200, Event.write .CFG 0x200] ∧ s2 ≠ s1) :=
  ⟨⟨_, _, rfl, rfl, rfl, rfl, rfl, by decide⟩, ⟨_, _, rfl, rfl, rfl, rfl, rfl, by decide⟩⟩

/-- Claim C22, amended: for every state with no calibration in progress,
`setAveraging(n)` and `setSamplingSpeed(v)` return, and

* when `n` is the stored averaging value (one of 0, 4, 8, 16, 32), respectively `v` the
  stored sampling speed, every member (`calibrating`, `fail_flag`, the stored settings,
  the counter) is as at entry and no register other than `GC` and `CFG`, respectively
  `CFG`, has changed;
* when the call is made again with the value it stored, the second call changes nothing
  but the log of stores: the contents of every register, `calibrating` and `fail_flag`
  are what the first call left. -/
theorem averaging_sampling_repeat (d : Defines) (hw : Hardware) (fuel : Nat) (s : My_ADC)
    (num speed : Nat) (hcal : s.calibrating = 0) :
    (∃ s', setAveraging d hw fuel s num = .ok s' ∧
      (s.analog_num_average = num →
        num = 0 ∨ num = 4 ∨ num = 8 ∨ num = 16 ∨ num = 32 →
        s' = { s with
          adc_regs := { s.adc_regs with GC := s'.adc_regs.GC, CFG := s'.adc_regs.CFG }
          log := s'.log }) ∧
      ∃ s2, setAveraging d hw fuel s' s'.analog_num_average = .ok s2 ∧
        s2 = { s' with log := s2.log }) ∧
    (∃ s', setSamplingSpeed d hw fuel s speed = .ok s' ∧
      (s.sampling_speed = speed →
        s' = { s with
          adc_regs := { s.adc_regs with CFG := s'.adc_regs.CFG }
          log := s'.log }) ∧
      ∃ s2, setSamplingSpeed d hw fuel s' speed = .ok s2 ∧
        s2 = { s' with log := s2.log }) := by
  constructor
  · refine ⟨setAveragingBody d s num, ?_, ?_, setAveragingBody d (setAveragingBody d s num)
      (setAveragingBody d s num).analog_num_average, ?_, setAveragingBody_repeat d s num⟩
    · unfold setAveraging
      rw [waitIfCalibrating_idle d hw fuel s hcal]
    · intro hst hnum
      obtain ⟨G, C, r, _, _, hform, _⟩ := setAveragingBody_form d num
      have h1 := hform s
      have hav := setAveragingBody_average d s num
      generalize setAveragingBody d s num = u at h1 hav ⊢
      have hr : r = s.analog_num_average := by
        have : u.analog_num_average = r := by rw [h1]
        rw [← this, hav, hst]
        rcases hnum with h | h | h | h | h <;> subst h <;> rfl
      have hg : u.adc_regs.GC = G s.adc_regs.GC := by rw [h1]
      have hc : u.adc_regs.CFG = C s.adc_regs.CFG := by rw [h1]
      rw [hg, hc]
      conv_lhs => rw [h1]
      rw [hr]
    · unfold setAveraging
      rw [waitIfCalibrating_idle d hw fuel _
        ((setAveragingBody_calibrating d s num).trans hcal)]
  · refine ⟨setSamplingSpeedBody d s speed, ?_, ?_, setSamplingSpeedBody d
      (setSamplingSpeedBody d s speed) speed, ?_, setSamplingSpeedBody_repeat d s speed⟩
    · unfold setSamplingSpeed
      rw [waitIfCalibrating_idle d hw fuel s hcal]
    · intro hst
      obtain ⟨F, _, hform⟩ := setSamplingSpeedBody_form d speed
      have h1 := hform s
      generalize setSamplingSpeedBody d s speed = u at h1 ⊢
      have hc : u.adc_regs.CFG = F s.adc_regs.CFG := by rw [h1]
      rw [hc]
      conv_lhs => rw [h1]
      rw [← hst]
    · unfold setSamplingSpeed
      rw [waitIfCalibrating_idle d hw fuel _
        ((setSamplingSpeedBody_frame d s speed).1.trans hcal)]

/-- Claim C22, amended, at a sample input: on the idle instance, whose stored averaging
value is 0, `setAveraging(0)` returns with every member as at entry and all registers
still zero. -/
theorem averaging_sampling_repeat_witness :
    ∃ s', setAveraging sampleDefines idleHw 0 sampleADC 0 = .ok s' ∧
      s' = { sampleADC with
        adc_regs := { sampleADC.adc_regs with GC := s'.adc_regs.GC, CFG := s'.adc_regs.CFG }
        log := s'.log } ∧
      s'.calibrating = 0 ∧ s'.fail_flag = 0 ∧ s'.adc_regs = sampleADC.adc_regs := by
  obtain ⟨s', h, hgen, _⟩ :=
    (averaging_sampling_repeat sampleDefines idleHw 0 sampleADC 0 0 rfl).1
  have hs := hgen rfl (Or.inl rfl)
  have e : setAveraging sampleDefines idleHw 0 sampleADC 0
      = .ok (setAveragingBody sampleDefines sampleADC 0) := rfl
  rw [e] at h
  injection h with h
  subst h
  exact ⟨_, e, hs, rfl, rfl, rfl⟩

/-! ## Resolution and maximum value -/

/-- Claim C24 on the code: the idle instance is set to 10 bits, so that `getMaxValue()` is
`2^getResolution() - 1 = 1023`; then `setResolution(16)` is called. The call takes the
branch the source marks `// error`, which stores no maximum, and still stores the
resolution: `getResolution()` is 16 while `getMaxValue()` is 1023, not `2^16 - 1`. The
same happens with 9 and 11. -/
theorem setResolution_sixteen_keeps_max :
    ∃ s1 s2, setResolution sampleDefines idleHw 0 sampleADC 10 = .ok s1 ∧
      getMaxValue s1 = 2 ^ getResolution s1 - 1 ∧
      setResolution sampleDefines idleHw 0 s1 16 = .ok s2 ∧
      getResolution s2 = 16 ∧ getMaxValue s2 = 1023 ∧
      getMaxValue s2 ≠ 2 ^ getResolution s2 - 1 ∧ s2.log = s1.log ∧
      (∃ s3, setResolution sampleDefines idleHw 0 s1 9 = .ok s3 ∧
        getResolution s3 = 9 ∧ getMaxValue s3 = 1023) ∧
      (∃ s4, setResolution sampleDefines idleHw 0 s1 11 = .ok s4 ∧
        getResolution s4 = 11 ∧ getMaxValue s4 = 1023) :=
  ⟨_, _, rfl, rfl, rfl, rfl, rfl, by decide, rfl, ⟨_, rfl, rfl, rfl⟩, ⟨_, rfl, rfl, rfl⟩⟩

/-! ## The single-threshold comparison -/

/-- The registers `GC` and `CV` after `enableCompare`. -/
theorem enableCompareBody_regs (d : Defines) (s : My_ADC) (compValue : Int)
    (greaterThan : Bool) :
    (enableCompareBody d s compValue greaterThan).adc_regs.GC =
      ((s.adc_regs.GC ||| d.ADC_GC_ACFE) &&& not32 d.ADC_GC_ACFGT) |||
        ((d.ADC_GC_ACFGT * greaterThan.toNat) % 4294967296) ∧
    (enableCompareBody d s compValue greaterThan).adc_regs.CV = d.ADC_CV_CV1 compValue := by
  simp [enableCompareBody, changeBitFlag, setBitFlag, My_ADC.write, ADC_REGS_t.get,
    ADC_REGS_t.set]

/-- The flags of `GC` after `enableCompare`, for non-zero 32-bit masks that share no
bit: the compare function is enabled, the polarity is the one requested, and the range
bit is as before. -/
theorem enableCompareBody_flags (d : Defines) (s : My_ADC) (compValue : Int)
    (greaterThan : Bool)
    (hACFE : d.ADC_GC_ACFE ≠ 0) (hACFGT : d.ADC_GC_ACFGT ≠ 0)
    (hACFE32 : d.ADC_GC_ACFE < 4294967296) (hACFGT32 : d.ADC_GC_ACFGT < 4294967296)
    (hACREN32 : d.ADC_GC_ACREN < 4294967296)
    (hd1 : d.ADC_GC_ACFE &&& d.ADC_GC_ACFGT = 0)
    (hd2 : d.ADC_GC_ACREN &&& d.ADC_GC_ACFGT = 0)
    (hd3 : d.ADC_GC_ACREN &&& d.ADC_GC_ACFE = 0) :
    getBitFlag (enableCompareBody d s compValue greaterThan).adc_regs.GC d.ADC_GC_ACFE = true ∧
    getBitFlag (enableCompareBody d s compValue greaterThan).adc_regs.GC d.ADC_GC_ACFGT
      = greaterThan ∧
    getBitFlag (enableCompareBody d s compValue greaterThan).adc_regs.GC d.ADC_GC_ACREN
      = getBitFlag s.adc_regs.GC d.ADC_GC_ACREN := by
  rw [(enableCompareBody_regs d s compValue greaterThan).1]
  have hmod : d.ADC_GC_ACFGT % 4294967296 = d.ADC_GC_ACFGT := Nat.mod_eq_of_lt hACFGT32
  refine ⟨?_, ?_, ?_⟩
  · apply getBitFlag_or_mono
    rw [getBitFlag_clear_other _ _ _ hACFE32 hd1]
    exact getBitFlag_or_self _ _ hACFE
  · cases greaterThan
    · simp only [Bool.toNat_false, Nat.mul_zero, Nat.zero_mod, Nat.or_zero]
      exact getBitFlag_clear_self _ _
    · simp only [Bool.toNat_true, Nat.mul_one, hmod]
      exact getBitFlag_or_self _ _ hACFGT
  · have hclear : getBitFlag ((s.adc_regs.GC ||| d.ADC_GC_ACFE) &&& not32 d.ADC_GC_ACFGT)
        d.ADC_GC_ACREN = getBitFlag s.adc_regs.GC d.ADC_GC_ACREN := by
      rw [getBitFlag_clear_other _ _ _ hACREN32 hd2, getBitFlag_or_other _ _ _ hd3]
    cases greaterThan
    · simp only [Bool.toNat_false, Nat.mul_zero, Nat.zero_mod, Nat.or_zero]
      exact hclear
    · simp only [Bool.toNat_true, Nat.mul_one, hmod]
      rw [getBitFlag_or_other _ _ _ hd2]
      exact hclear

/-- Claim C25: the single-threshold comparison. The three compare flags of `GC` are
non-zero 32-bit masks that share no bit. For every state whose calibration wait ends
(the wait returns a state `s1`, the state at entry when no calibration is in progress),
every `compValue` and `greaterThan`: `enableCompare` returns with the compare-enable
bit `GC.ACFE` set, the polarity bit `GC.ACFGT` equal to `greaterThan`, `CV` holding
`ADC_CV_CV1(compValue)` and nothing in threshold 2 (given that the field macro
`ADC_CV_CV2` maps 0 to 0, `CV` is what the thresholds `(compValue, 0)` encode to), and
the range-enable bit `GC.ACREN` as in `s1`. So after `enableCompareRange`,
`disableCompare` and `enableCompare`, the range bit is still set, with the compare
function enabled. -/
theorem enableCompare_single_threshold (d : Defines) (hw : Hardware) (fuel : Nat)
    (s : My_ADC) (compValue : Int) (greaterThan : Bool)
    (lowerLimit upperLimit : Int) (insideRange inclusive : Bool)
    (hsettle : calSettles d hw fuel s)
    (hACFE : d.ADC_GC_ACFE ≠ 0) (hACREN : d.ADC_GC_ACREN ≠ 0) (hACFGT : d.ADC_GC_ACFGT ≠ 0)
    (hACFE32 : d.ADC_GC_ACFE < 4294967296) (hACFGT32 : d.ADC_GC_ACFGT < 4294967296)
    (hACREN32 : d.ADC_GC_ACREN < 4294967296)
    (hd1 : d.ADC_GC_ACFE &&& d.ADC_GC_ACFGT = 0)
    (hd2 : d.ADC_GC_ACREN &&& d.ADC_GC_ACFGT = 0)
    (hd3 : d.ADC_GC_ACREN &&& d.ADC_GC_ACFE = 0) :
    (∃ s1 s', waitIfCalibrating d hw fuel s = .ok s1 ∧ (s.calibrating = 0 → s1 = s) ∧
      enableCompare d hw fuel s compValue greaterThan = .ok s' ∧
      getBitFlag s'.adc_regs.GC d.ADC_GC_ACFE = true ∧
      getBitFlag s'.adc_regs.GC d.ADC_GC_ACFGT = greaterThan ∧
      s'.adc_regs.CV = d.ADC_CV_CV1 compValue ∧
      (d.ADC_CV_CV2 0 = 0 → s'.adc_regs.CV = d.ADC_CV_CV1 compValue ||| d.ADC_CV_CV2 0) ∧
      getBitFlag s'.adc_regs.GC d.ADC_GC_ACREN = getBitFlag s1.adc_regs.GC d.ADC_GC_ACREN) ∧
    (∃ t1 t3,
      enableCompareRange d hw fuel s lowerLimit upperLimit insideRange inclusive = .ok t1 ∧
      enableCompare d hw fuel (disableCompare d t1) compValue greaterThan = .ok t3 ∧
      getBitFlag (disableCompare d t1).adc_regs.GC d.ADC_GC_ACFE = false ∧
      getBitFlag t3.adc_regs.GC d.ADC_GC_ACFE = true ∧
      getBitFlag t3.adc_regs.GC d.ADC_GC_ACREN = true) := by
  obtain ⟨s1, h1, hcal1, _, hsame, _⟩ := waitIfCalibrating_frame d hw fuel s hsettle
  obtain ⟨f1, f2, f3⟩ := enableCompareBody_flags d s1 compValue greaterThan hACFE hACFGT
    hACFE32 hACFGT32 hACREN32 hd1 hd2 hd3
  constructor
  · refine ⟨s1, enableCompareBody d s1 compValue greaterThan, h1, hsame, ?_, f1, f2,
      (enableCompareBody_regs d s1 compValue greaterThan).2, ?_, f3⟩
    · unfold enableCompare
      rw [h1]
    · intro h0
      rw [(enableCompareBody_regs d s1 compValue greaterThan).2, h0, Nat.or_zero]
  · have hcalt : (disableCompare d
        (enableCompareRangeBody d s1 lowerLimit upperLimit insideRange inclusive)).calibrating
        = 0 := by
      show (enableCompareRangeBody d s1 lowerLimit upperLimit insideRange inclusive).calibrating
        = 0
      rw [(enableCompareRangeBody_frame d s1 lowerLimit upperLimit insideRange inclusive).1]
      exact hcal1
    have hren1 : getBitFlag
        (enableCompareRangeBody d s1 lowerLimit upperLimit insideRange inclusive).adc_regs.GC
        d.ADC_GC_ACREN = true := by
      rw [enableCompareRangeBody_GC]
      have hset : getBitFlag ((s1.adc_regs.GC ||| d.ADC_GC_ACFE) ||| d.ADC_GC_ACREN)
          d.ADC_GC_ACREN = true := getBitFlag_or_self _ _ hACREN
      cases inclusive
      · simp only [Bool.false_eq_true, if_false]
        rw [getBitFlag_clear_other _ _ _ hACREN32 hd2]
        exact hset
      · simp only [if_true]
        exact getBitFlag_or_mono _ _ _ hset
    have hgc2 : (disableCompare d
        (enableCompareRangeBody d s1 lowerLimit upperLimit insideRange inclusive)).adc_regs.GC
        = (enableCompareRangeBody d s1 lowerLimit upperLimit insideRange inclusive).adc_regs.GC
          &&& not32 d.ADC_GC_ACFE := by
      simp [disableCompare, clearBitFlag, My_ADC.write, ADC_REGS_t.get, ADC_REGS_t.set]
    obtain ⟨g1, _, g3⟩ := enableCompareBody_flags d
      (disableCompare d
        (enableCompareRangeBody d s1 lowerLimit upperLimit insideRange inclusive))
      compValue greaterThan hACFE hACFGT hACFE32 hACFGT32 hACREN32 hd1 hd2 hd3
    refine ⟨enableCompareRangeBody d s1 lowerLimit upperLimit insideRange inclusive,
      enableCompareBody d (disableCompare d
        (enableCompareRangeBody d s1 lowerLimit upperLimit insideRange inclusive))
        compValue greaterThan, ?_, ?_, ?_, g1, ?_⟩
    · unfold enableCompareRange
      rw [h1]
    · unfold enableCompare waitIfCalibrating
      simp [hcalt]
    · rw [hgc2]
      exact getBitFlag_clear_self _ _
    · rw [g3, hgc2, getBitFlag_clear_other _ _ _ hACREN32 hd3]
      exact hren1

/-- Claim C25 at a sample input: after a range comparison on 100..200 and
`disableCompare()`, the call `enableCompare(50, true)` stores 50 in `CV` and sets
`ACFE` and `ACFGT`; the range bit `ACREN` is still set, so `GC` holds all three. -/
theorem enableCompare_single_threshold_witness :
    ∃ t1 t3, enableCompareRange sampleDefines idleHw 0 sampleADC 100 200 true false = .ok t1 ∧
      enableCompare sampleDefines idleHw 0 (disableCompare sampleDefines t1) 50 true = .ok t3 ∧
      getBitFlag t3.adc_regs.GC sampleDefines.ADC_GC_ACREN = true ∧
      t3.adc_regs.GC = 0x1C ∧ t3.adc_regs.CV = 50 := by
  obtain ⟨t1, t3, h1, h3, _, _, hren⟩ :=
    (enableCompare_single_threshold sampleDefines idleHw 0 sampleADC 50 true 100 200 true false
      (Or.inl rfl) (by decide) (by decide) (by decide) (by decide) (by decide) (by decide)
      (by decide) (by decide) (by decide)).2
  have e1 : enableCompareRange sampleDefines idleHw 0 sampleADC 100 200 true false
      = .ok (enableCompareRangeBody sampleDefines sampleADC 100 200 true false) := rfl
  rw [e1] at h1
  injection h1 with h1
  subst h1
  have e3 : enableCompare sampleDefines idleHw 0
      (disableCompare sampleDefines
        (enableCompareRangeBody sampleDefines sampleADC 100 200 true false)) 50 true
      = .ok (enableCompareBody sampleDefines (disableCompare sampleDefines
        (enableCompareRangeBody sampleDefines sampleADC 100 200 true false)) 50 true) := rfl
  rw [e3] at h3
  injection h3 with h3
  subst h3
  exact ⟨_, _, e1, e3, hren, rfl, rfl⟩

/-! ## Reads of the channel table -/

/-- A polling loop fails only by running out of fuel. -/
theorem pollWhile_fault (cond : My_ADC → Bool) (hw : Hardware) (fuel : Nat) (s : My_ADC)
    (e : Fault) (h : pollWhile cond hw fuel s = .error e) : e = .outOfFuel := by
  induction fuel generalizing s with
  | zero =>
    unfold pollWhile at h
    by_cases hc : cond s = true
    · simp [hc] at h
      exact h.symm
    · simp [hc] at h
  | succ n ih =>
    unfold pollWhile at h
    by_cases hc : cond s = true
    · simp only [hc, if_true] at h
      exact ih (yield hw s) h
    · simp [hc] at h

/-- The calibration wait of a method fails only by running out of fuel. -/
theorem waitIfCalibrating_fault (d : Defines) (hw : Hardware) (fuel : Nat) (s : My_ADC)
    (e : Fault) (h : waitIfCalibrating d hw fuel s = .error e) : e = .outOfFuel := by
  unfold waitIfCalibrating at h
  by_cases hc : s.calibrating = 0
  · simp [hc] at h
  · simp only [ne_eq, hc, not_false_eq_true, if_true] at h
    unfold wait_for_cal pollCal at h
    cases hp : pollWhile (fun t => getBitFlag t.adc_regs.GC d.ADC_GC_CAL) hw fuel s with
    | error e1 =>
      rw [hp] at h
      simp only [Except.error.injEq] at h
      rw [← h]
      exact pollWhile_fault _ hw fuel s e1 hp
    | ok t => rw [hp] at h; simp at h

/-- On a pin that `checkPin` accepts, `analogRead` does not read outside the channel
table. -/
theorem analogRead_in_bounds (d : Defines) (hw : Hardware) (fuel : Nat) (s : My_ADC)
    (pin : Nat) (hpin : checkPin d s pin = .ok true) :
    analogRead d hw fuel s pin ≠ .error .outOfBounds := by
  intro h
  unfold analogRead at h
  rw [hpin] at h
  simp only at h
  cases hw1 : waitIfCalibrating d hw fuel
      { s with num_measurements := (s.num_measurements + 1) % 256 } with
  | error e =>
    rw [hw1] at h
    simp only [Except.error.injEq] at h
    have := waitIfCalibrating_fault d hw fuel _ e hw1
    rw [h] at this
    exact Fault.noConfusion this
  | ok s1 =>
    rw [hw1] at h
    simp only at h
    unfold analogReadConvert at h
    simp only at h
    have hn : (singleMode d (saveIfInUse (isConverting d s1) s1).2).ADC_num = s.ADC_num := by
      rw [(singleMode_saveIfInUse_frame d (isConverting d s1) s1).2.2.1,
        (waitIfCalibrating_ADC_num d hw fuel _ s1 hw1).1]
    obtain ⟨s2, h2⟩ := startReadFast_ok d s _ pin hpin hn
    rw [h2] at h
    simp only at h
    cases hp : pollConverting d hw fuel s2 with
    | error e =>
      rw [hp] at h
      simp only [Except.error.injEq] at h
      have := pollWhile_fault _ hw fuel s2 e hp
      rw [h] at this
      exact Fault.noConfusion this
    | ok s3 =>
      rw [hp] at h
      simp at h

/-- On a pin that `checkPin` accepts, `startSingleRead` does not read outside the
channel table. -/
theorem startSingleRead_in_bounds (d : Defines) (hw : Hardware) (fuel : Nat) (s : My_ADC)
    (pin : Nat) (hpin : checkPin d s pin = .ok true) :
    startSingleRead d hw fuel s pin ≠ .error .outOfBounds := by
  intro h
  unfold startSingleRead at h
  rw [hpin] at h
  simp only at h
  cases hw1 : waitIfCalibrating d hw fuel s with
  | error e =>
    rw [hw1] at h
    simp only [Except.error.injEq] at h
    have := waitIfCalibrating_fault d hw fuel _ e hw1
    rw [h] at this
    exact Fault.noConfusion this
  | ok s1 =>
    rw [hw1] at h
    simp only at h
    have hn1 := (waitIfCalibrating_ADC_num d hw fuel _ s1 hw1).1
    generalize hT : singleMode d
      (if ({ s1 with adcWasInUse := (isConverting d s1).toNat } : My_ADC).adcWasInUse ≠ 0 then
        enable_irq { disable_irq { s1 with adcWasInUse := (isConverting d s1).toNat } with
          adc_config := saveConfig
            (disable_irq { s1 with adcWasInUse := (isConverting d s1).toNat }) }
      else { s1 with adcWasInUse := (isConverting d s1).toNat }) = T at h
    have hn : T.ADC_num = s.ADC_num := by
      rw [← hT, ← hn1]
      split <;> rfl
    obtain ⟨s2, h2⟩ := startReadFast_ok d s T pin hpin hn
    rw [h2] at h
    simp at h

/-- On a pin that `checkPin` accepts, `startContinuous` does not read outside the
channel table. -/
theorem startContinuous_in_bounds (d : Defines) (hw : Hardware) (fuel : Nat) (s : My_ADC)
    (pin : Nat) (hpin : checkPin d s pin = .ok true) :
    startContinuous d hw fuel s pin ≠ .error .outOfBounds := by
  intro h
  unfold startContinuous at h
  rw [hpin] at h
  simp only at h
  cases hw1 : waitIfCalibrating d hw fuel s with
  | error e =>
    rw [hw1] at h
    simp only [Except.error.injEq] at h
    have := waitIfCalibrating_fault d hw fuel _ e hw1
    rw [h] at this
    exact Fault.noConfusion this
  | ok s1 =>
    rw [hw1] at h
    simp only at h
    have hn1 := (waitIfCalibrating_ADC_num d hw fuel _ s1 hw1).1
    obtain ⟨s2, h2⟩ := startReadFast_ok d s
      (continuousMode d { s1 with num_measurements := (s1.num_measurements + 1) % 256 })
      pin hpin hn1
    rw [h2] at h
    simp at h

/-- Claim C26: reads of the channel table stay in bounds. With `ADC_MAX_PIN = 27`, for
every state (either converter) and every pin: the table `channel2sc1a` has 28 entries;
`checkPin` returns without reading outside it, false without a table read for a pin
above 27, and true only for a pin `≤ 27`, which has a table entry; when `checkPin`
rejects the pin, `analogRead`, `startSingleRead` and `startContinuous` return at once
with `WRONG_PIN` recorded and do not reach `startReadFast`; when it accepts the pin,
`startReadFast` reads inside the table; so none of the three methods reads outside the
table. -/
theorem channel_table_in_bounds (d : Defines) (hw : Hardware) (fuel : Nat) (s : My_ADC)
    (pin : Nat) (hmax : d.ADC_MAX_PIN = 27) :
    s.channel2sc1a.length = 28 ∧
    (∃ b, checkPin d s pin = .ok b ∧
      (b = true → pin ≤ 27 ∧ pin < s.channel2sc1a.length)) ∧
    (27 < pin → checkPin d s pin = .ok false) ∧
    (checkPin d s pin = .ok false →
      analogRead d hw fuel s pin
        = .ok (d.ADC_ERROR_VALUE, { s with fail_flag := s.fail_flag ||| d.WRONG_PIN }) ∧
      startSingleRead d hw fuel s pin
        = .ok (false, { s with fail_flag := s.fail_flag ||| d.WRONG_PIN }) ∧
      startContinuous d hw fuel s pin
        = .ok (false, { s with fail_flag := s.fail_flag ||| d.WRONG_PIN })) ∧
    (checkPin d s pin = .ok true →
      ∀ t : My_ADC, t.ADC_num = s.ADC_num → ∃ t', startReadFast d t pin = .ok t') ∧
    analogRead d hw fuel s pin ≠ .error .outOfBounds ∧
    startSingleRead d hw fuel s pin ≠ .error .outOfBounds ∧
    startContinuous d hw fuel s pin ≠ .error .outOfBounds := by
  have hlen : s.channel2sc1a.length = 28 := by
    unfold My_ADC.channel2sc1a
    split <;> rfl
  obtain ⟨b, hb, hiff⟩ := checkPin_spec d s pin hmax
  have hfalse : checkPin d s pin = .ok false →
      analogRead d hw fuel s pin
        = .ok (d.ADC_ERROR_VALUE, { s with fail_flag := s.fail_flag ||| d.WRONG_PIN }) ∧
      startSingleRead d hw fuel s pin
        = .ok (false, { s with fail_flag := s.fail_flag ||| d.WRONG_PIN }) ∧
      startContinuous d hw fuel s pin
        = .ok (false, { s with fail_flag := s.fail_flag ||| d.WRONG_PIN }) := by
    intro hf
    unfold analogRead startSingleRead startContinuous
    rw [hf]
    exact ⟨rfl, rfl, rfl⟩
  refine ⟨hlen, ⟨b, hb, ?_⟩, ?_, hfalse, ?_, ?_, ?_, ?_⟩
  · intro hbt
    have := (hiff.mp hbt).1
    omega
  · intro hp
    unfold checkPin
    simp [hmax, hp]
  · intro ht t hn
    exact startReadFast_ok d s t pin ht hn
  · cases b with
    | true => exact analogRead_in_bounds d hw fuel s pin hb
    | false => rw [(hfalse hb).1]; simp
  · cases b with
    | true => exact startSingleRead_in_bounds d hw fuel s pin hb
    | false => rw [(hfalse hb).2.1]; simp
  · cases b with
    | true => exact startContinuous_in_bounds d hw fuel s pin hb
    | false => rw [(hfalse hb).2.2]; simp

/-- Claim C26 at a sample input: pin 200 is rejected without a table read and
`analogRead` returns the error value; pin 27 of converter 0, the last entry of the
table, is read inside the table and rejected as well. -/
theorem channel_table_in_bounds_witness :
    checkPin sampleDefines sampleADC 200 = .ok false ∧
    analogRead sampleDefines idleHw 0 sampleADC 200
      = .ok (-70000, { sampleADC with fail_flag := 4 }) ∧
    analogRead sampleDefines idleHw 0 sampleADC 27 ≠ .error .outOfBounds :=
  ⟨(channel_table_in_bounds sampleDefines idleHw 0 sampleADC 200 rfl).2.2.1 (by decide),
   ((channel_table_in_bounds sampleDefines idleHw 0 sampleADC 200 rfl).2.2.2.1 rfl).1,
   (channel_table_in_bounds sampleDefines idleHw 0 sampleADC 27 rfl).2.2.2.2.2.1⟩

/-! ## The counter over a continuous acquisition -/

/-- Claim C27, as stated, fails: with the 8-bit counter at 255, `startContinuous` on the
valid pin 0 wraps it to 0, and `stopContinuous`, which decrements only a positive
counter, leaves it 0, not 255. -/
theorem continuous_round_trip_wraps_at_255 :
    ∃ s1, startContinuous sampleDefines idleHw 0
        { sampleADC with num_measurements := 255 } 0 = .ok (true, s1) ∧
      s1.num_measurements = 0 ∧
      (stopContinuous sampleDefines s1).num_measurements = 0 ∧
      (stopContinuous sampleDefines s1).num_measurements ≠ 255 :=
  ⟨_, rfl, rfl, rfl, by decide⟩

/-- Claim C27, amended: for every state whose calibration wait ends, with the counter
`num_measurements` at a value `c` in `0..254`, and every valid pin, `startContinuous`
returns true with the counter at `c + 1`, and `stopContinuous` after it leaves the
counter equal to `c`. -/
theorem continuous_round_trip_below_255 (d : Defines) (hw : Hardware) (fuel : Nat)
    (s : My_ADC) (pin : Nat)
    (hpin : checkPin d s pin = .ok true)
    (hsettle : calSettles d hw fuel s)
    (hc : s.num_measurements < 255) :
    ∃ s1, startContinuous d hw fuel s pin = .ok (true, s1) ∧
      s1.num_measurements = s.num_measurements + 1 ∧
      (stopContinuous d s1).num_measurements = s.num_measurements := by
  obtain ⟨s1, h1, _, _, _, hnum1, _, hn, _⟩ := waitIfCalibrating_frame d hw fuel s hsettle
  obtain ⟨e, he, _⟩ := checkPin_true_entry d s pin hpin
  have he' : (continuousMode d
      { s1 with num_measurements := (s1.num_measurements + 1) % 256 }).channel2sc1a.get? pin
      = some e := by
    rw [channel2sc1a_congr s _ (by rw [← hnum1]; rfl)]
    exact he
  obtain ⟨s2, hstart, _, _, _, _, _, g4, _⟩ := startReadFast_fields d _ pin e he'
  have hs2 : s2.num_measurements = s.num_measurements + 1 := by
    rw [g4]
    show (s1.num_measurements + 1) % 256 = _
    rw [hn]
    omega
  refine ⟨s2, ?_, hs2, ?_⟩
  · unfold startContinuous
    rw [hpin]
    simp only
    rw [h1]
    simp only
    rw [hstart]
  · rw [stopContinuous_eq]
    show (if s2.num_measurements > 0 then (s2.num_measurements + 255) % 256
      else s2.num_measurements) = _
    rw [hs2]
    simp
    omega

/-- Claim C27, amended, at a sample input: from a counter of 254, a continuous
acquisition on pin 0 brings it to 255 and stopping it brings it back to 254. -/
theorem continuous_round_trip_below_255_witness :
    ∃ s1, startContinuous sampleDefines idleHw 0
        { sampleADC with num_measurements := 254 } 0 = .ok (true, s1) ∧
      s1.num_measurements = 255 ∧
      (stopContinuous sampleDefines s1).num_measurements = 254 :=
  continuous_round_trip_below_255 sampleDefines idleHw 0
    { sampleADC with num_measurements := 254 } 0 rfl (Or.inl rfl) (by decide)

/-! ## The value of a successful read -/

/-- The cast to `uint16_t` of what `readSingle` returns is the low 16 bits of `R0`. -/
theorem toUInt16_readSingle (s : My_ADC) :
    toUInt16 (readSingle s) = ((s.adc_regs.R0 % 65536 : Nat) : Int) := by
  rw [readSingle_eq]
  unfold toUInt16 toInt16
  split <;> omega

/-- Claim C28: range of a successful single-ended read. For every state whose calibration
wait ends and every valid pin, the wait returns a state `s1` and the read is started, in
a state `s2`; when the conversion stops being active after exactly `k` calls of
`yield()` from `s2`, within the fuel, with the conversion-complete flag set and `r` in
the result register, `analogRead` returns `r mod 2^16`: an integer in `[0, 65535]`,
never negative, and not `ADC_ERROR_VALUE` when that constant lies outside
`[0, 65535]`. -/
theorem analogRead_success_range (d : Defines) (hw : Hardware) (fuel : Nat)
    (s : My_ADC) (pin : Nat)
    (hpin : checkPin d s pin = .ok true)
    (hsettle : calSettles d hw fuel s) :
    ∃ s1 s2, waitIfCalibrating d hw fuel
        { s with num_measurements := (s.num_measurements + 1) % 256 } = .ok s1 ∧
      startReadFast d (singleMode d (saveIfInUse (isConverting d s1) s1).2) pin = .ok s2 ∧
      ∀ k, k ≤ fuel → (∀ i, i < k → isConverting d (yields hw i s2) = true) →
        isConverting d (yields hw k s2) = false →
        isComplete d (yields hw k s2) = true →
        ∃ s', analogRead d hw fuel s pin
            = .ok ((((yields hw k s2).adc_regs.R0 % 65536 : Nat) : Int), s') ∧
          (0 : Int) ≤ (((yields hw k s2).adc_regs.R0 % 65536 : Nat) : Int) ∧
          (((yields hw k s2).adc_regs.R0 % 65536 : Nat) : Int) ≤ 65535 ∧
          (d.ADC_ERROR_VALUE < 0 ∨ 65535 < d.ADC_ERROR_VALUE →
            (((yields hw k s2).adc_regs.R0 % 65536 : Nat) : Int) ≠ d.ADC_ERROR_VALUE) := by
  have hs0 : calSettles d hw fuel
      { s with num_measurements := (s.num_measurements + 1) % 256 } :=
    calSettles_congr d hw fuel s _ hsettle rfl rfl rfl
  obtain ⟨s1, h1, _, _, _, hnum1, _⟩ := waitIfCalibrating_frame d hw fuel _ hs0
  obtain ⟨_, _, q3, _⟩ := singleMode_saveIfInUse_frame d (isConverting d s1) s1
  obtain ⟨s2, h2⟩ := startReadFast_ok d s (singleMode d (saveIfInUse (isConverting d s1) s1).2)
    pin hpin (by rw [q3, hnum1])
  refine ⟨s1, s2, h1, h2, ?_⟩
  intro k hk hbusy hend hcoco
  have hres := analogRead_unfold d hw fuel k s s1 s2 pin hpin h1 h2 hbusy hend hk
  obtain ⟨b1, _⟩ := analogReadFinish_ok d (isConverting d s1)
    (saveIfInUse (isConverting d s1) s1).1 (yields hw k s2) hcoco
  rw [toUInt16_readSingle] at b1
  generalize analogReadFinish d (isConverting d s1)
    (saveIfInUse (isConverting d s1) s1).1 (yields hw k s2) = F at hres b1
  obtain ⟨r, s'⟩ := F
  simp only at b1
  subst b1
  refine ⟨s', hres, by omega, by omega, ?_⟩
  intro hout heq
  omega

/-- Claim C28 at a sample input: the result register holds `0xFFFF8000` when the
conversion of pin 1 completes; `analogRead` returns `0x8000 = 32768`, not the negative
number the sign extension of `readSingle` gives. -/
theorem analogRead_success_range_witness :
    ∃ s', analogRead sampleDefines (finishingHw sampleDefines) 1 highADC 1
        = .ok (32768, s') ∧ readSingle highADC = -32768 := by
  obtain ⟨s1, s2, h1, h2, h3⟩ :=
    analogRead_success_range sampleDefines (finishingHw sampleDefines) 1 highADC 1
      rfl (Or.inl rfl)
  have e1 : waitIfCalibrating sampleDefines (finishingHw sampleDefines) 1
      { highADC with num_measurements := (highADC.num_measurements + 1) % 256 }
      = .ok { highADC with num_measurements := 1 } := rfl
  rw [e1] at h1
  injection h1 with h1
  subst h1
  have e2 : startReadFast sampleDefines
      (singleMode sampleDefines
        (saveIfInUse (isConverting sampleDefines { highADC with num_measurements := 1 })
          { highADC with num_measurements := 1 }).2) 1
      = .ok (enable_irq ((disable_irq (singleMode sampleDefines
          (saveIfInUse true { highADC with num_measurements := 1 }).2)).write .HC0 8)) := rfl
  rw [e2] at h2
  injection h2 with h2
  subst h2
  obtain ⟨s', h, _⟩ := h3 1 (le_refl 1) (fun i hi => by interval_cases i; rfl) rfl rfl
  exact ⟨s', h, rfl⟩

/-! ## Differential pairs on the channel tables of this board -/

/-- Every entry of the two channel tables is a channel number below 32. -/
theorem channel2sc1a_lt_32 (s : My_ADC) (pin c : Nat)
    (h : s.channel2sc1a.get? pin = some c) : c < 32 := by
  have h0 : ∀ x ∈ channel2sc1aADC0, x < 32 := by decide
  have h1 : ∀ x ∈ channel2sc1aADC1, x < 32 := by decide
  have hmem : c ∈ s.channel2sc1a := List.get?_mem h
  unfold My_ADC.channel2sc1a at hmem
  split at hmem
  · exact h1 c hmem
  · exact h0 c hmem

/-- With the differential flag `ADC_SC1A_PIN_DIFF` outside the five channel bits, no
entry of the channel tables carries it, so `checkDifferentialPins` accepts no pair and
`analogReadDifferential` never gets to its conversion: it returns `ADC_ERROR_VALUE`
with `WRONG_PIN` recorded, or reads outside the table. -/
theorem checkDifferentialPins_never_true (d : Defines) (hw : Hardware) (fuel : Nat)
    (s : My_ADC) (pinP pinN : Nat) (hflag : d.ADC_SC1A_PIN_DIFF % 32 = 0) :
    checkDifferentialPins d s pinP pinN ≠ .ok true ∧
    (analogReadDifferential d hw fuel s pinP pinN
        = .ok (d.ADC_ERROR_VALUE, { s with fail_flag := s.fail_flag ||| d.WRONG_PIN }) ∨
      analogReadDifferential d hw fuel s pinP pinN = .error .outOfBounds) := by
  have hcheck : checkDifferentialPins d s pinP pinN = .ok false ∨
      checkDifferentialPins d s pinP pinN = .error .outOfBounds := by
    unfold checkDifferentialPins My_ADC.channel2sc1aAt
    by_cases hp : pinP > d.ADC_MAX_PIN
    · simp [hp]
    · simp only [hp, if_false]
      cases hg : s.channel2sc1a.get? pinP with
      | none => simp
      | some c =>
        have hc := channel2sc1a_lt_32 s pinP c hg
        have hz : c &&& d.ADC_SC1A_PIN_DIFF = 0 := by
          apply Nat.eq_of_testBit_eq
          intro i
          rw [Nat.testBit_and, Nat.zero_testBit]
          by_cases hi : i < 5
          · have hm : d.ADC_SC1A_PIN_DIFF.testBit i = false := by
              have := Nat.testBit_mod_two_pow d.ADC_SC1A_PIN_DIFF 5 i
              rw [show (2:Nat) ^ 5 = 32 from rfl, hflag, Nat.zero_testBit] at this
              simpa [hi] using this.symm
            rw [hm, Bool.and_false]
          · have hlt : c < 2 ^ i := lt_of_lt_of_le hc (by
              have : (2:Nat) ^ 5 ≤ 2 ^ i := Nat.pow_le_pow_right (by norm_num) (by omega)
              simpa using this)
            rw [Nat.testBit_lt_two_pow hlt, Bool.false_and]
        simp [hz]
  constructor
  · rcases hcheck with h | h <;> rw [h] <;> simp
  · unfold analogReadDifferential
    rcases hcheck with h | h
    · left
      rw [h]
    · right
      rw [h]

end MyADC
